import Mathlib

/-!
A verification development for the rust-wkt repository: a tokenizer,
recursive-descent parser and serializer for Well-Known Text (WKT)
geometry.  The data model (`Coord`, `Point`, `Geometry`, `Wkt`) follows
`src/lib.rs` and `src/types/point.rs`; the tokenizer, the coordinate and
geometry parsing routines (`mod wkt`, `tokenizer`, `types::coord`) and
the serializer are not present under `src/` and are modelled from the
specification, constrained by the unit tests in `src/lib.rs`.
Machine floating-point ordinates are embedded as rational numbers.
-/

/-- Lexical tokens produced by the tokenizer (spec section 4.1):
words (keywords), signed decimal numbers, comma and parentheses. -/
inductive Token where
  | Word : String → Token
  | Number : ℚ → Token
  | Comma : Token
  | LParen : Token
  | RParen : Token
deriving DecidableEq

/-- Whitespace characters skipped by the tokenizer: space, tab,
newline, carriage return. -/
def isWS (c : Char) : Bool :=
  c == ' ' || c == '\t' || c == '\n' || c == '\r'

/-- Numeric value of a decimal digit character. -/
def digitVal (c : Char) : ℕ := c.toNat - 48

/-- Value of a list of decimal digit characters, most significant first. -/
def digitsVal (ds : List Char) : ℕ :=
  ds.foldl (fun a c => 10 * a + digitVal c) 0

/-- Modelled from the spec: the unsigned part of a number literal,
`digits ['.' digits]` (the tokenizer file is not under `src/`).
Returns the numeric value and the unconsumed characters, or `none`
when no digits are present. -/
def scanUnsigned (cs : List Char) : Option ℚ × List Char :=
  match cs.takeWhile Char.isDigit, cs.dropWhile Char.isDigit with
  | [], _ => (none, cs)
  | intd, '.' :: r2 =>
    (some ((digitsVal intd : ℚ) +
        (digitsVal (r2.takeWhile Char.isDigit) : ℚ) / 10 ^ (r2.takeWhile Char.isDigit).length),
      r2.dropWhile Char.isDigit)
  | intd, r1 => (some (digitsVal intd : ℚ), r1)

/-- Modelled from the spec: one step of the tokenizer (its file is not
under `src/`).  Skips whitespace, reads alphabetic words, signed
decimal numbers and punctuation; any other character is a lexical
error.  `recur` continues tokenizing the unconsumed characters; every
step consumes at least one character, so a budget of the input length
is always enough for the worker below. -/
def tokenizeStepF (recur : List Char → Except String (List Token)) (c : Char)
    (cs : List Char) : Except String (List Token) :=
  if isWS c then recur cs
  else if c.isAlpha then
    match recur (cs.dropWhile Char.isAlpha) with
    | .ok ts => .ok (Token.Word (String.mk (c :: cs.takeWhile Char.isAlpha)) :: ts)
    | .error e => .error e
  else if c == ',' then
    match recur cs with
    | .ok ts => .ok (Token.Comma :: ts)
    | .error e => .error e
  else if c == '(' then
    match recur cs with
    | .ok ts => .ok (Token.LParen :: ts)
    | .error e => .error e
  else if c == ')' then
    match recur cs with
    | .ok ts => .ok (Token.RParen :: ts)
    | .error e => .error e
  else if c == '-' then
    match scanUnsigned cs with
    | (some q, rest) =>
      match recur rest with
      | .ok ts => .ok (Token.Number (-q) :: ts)
      | .error e => .error e
    | (none, _) => .error "lexical error: expected digits after the minus sign"
  else if c.isDigit then
    match scanUnsigned (c :: cs) with
    | (some q, rest) =>
      match recur rest with
      | .ok ts => .ok (Token.Number q :: ts)
      | .error e => .error e
    | (none, _) => .error "lexical error: malformed number literal"
  else .error ("lexical error: unrecognized character " ++ String.mk [c])

/-- The tokenizer worker: one `tokenizeStepF` per character budget. -/
def tokenizeF : ℕ → List Char → Except String (List Token)
  | _, [] => .ok []
  | 0, _ :: _ => .error "lexical error: tokenizer exceeded its budget"
  | fuel + 1, c :: cs => tokenizeStepF (tokenizeF fuel) c cs

/-- The tokenizer: run the worker with the input length as budget. -/
def tokenize (cs : List Char) : Except String (List Token) :=
  tokenizeF cs.length cs

/-- Upper-casing a string through its character list (the keyword
comparison in the parser, matching case-insensitively). -/
def strUpper (s : String) : String :=
  String.mk (s.data.map Char.toUpper)

/-- Coordinate with `x`, `y` and optional `z` and `m` ordinates,
following `types::coord::Coord` as used by `src/types/point.rs` and the
tests in `src/lib.rs` (fields `x`, `y`, `z`, `m`). -/
structure Coord where
  x : ℚ
  y : ℚ
  z : Option ℚ
  m : Option ℚ
deriving DecidableEq

/-- The point payload from `src/types/point.rs`: `Point { coord: Coord }`. -/
structure Point where
  coord : Coord
deriving DecidableEq

/-- Display text of a token, used in syntax-error messages. -/
def tokenText : Token → String
  | .Word w => w
  | .Number _ => "a number"
  | .Comma => ","
  | .LParen => "("
  | .RParen => ")"

/-- Modelled from the spec: `Coord::from_tokens` from `types/coord.rs`,
which is not under `src/`.  Constrained by the tests in `src/lib.rs`
(`basic_point`, `invalid_points`, `basic_linestring`) and the alias
`Coord = (f64, f64)` there: it reads exactly the two `Number` tokens for
`x` and `y` and leaves `z` and `m` unset. -/
def Coord.from_tokens : List Token → Except String (Coord × List Token)
  | .Number x :: .Number y :: rest => .ok ({x := x, y := y, z := none, m := none}, rest)
  | .Number _ :: _ => .error "syntax error: expected a number for the Y ordinate"
  | _ => .error "syntax error: expected a number for the X ordinate"

/-- `Point::from_tokens` from `src/types/point.rs`: parse a coordinate,
wrap it in a `Point`, propagating any error unchanged. -/
def Point.from_tokens (tokens : List Token) : Except String (Point × List Token) :=
  match Coord.from_tokens tokens with
  | .ok (c, rest) => .ok ({coord := c}, rest)
  | .error s => .error s

/-- The geometry sum type from `src/lib.rs` with its ten variants. -/
inductive Geometry where
  | Point : Option Coord → Geometry
  | LineString : List Coord → Geometry
  | Polygon : List (List Coord) → Geometry
  | PolyhedralSurface : List (List (List Coord)) → Geometry
  | Triangle : List (List Coord) → Geometry
  | Tin : List (List (List Coord)) → Geometry
  | MultiPoint : List (Option Coord) → Geometry
  | MultiLineString : List (List Coord) → Geometry
  | MultiPolygon : List (List (List Coord)) → Geometry
  | GeometryCollection : List Geometry → Geometry

/-- Modelled from the spec: a comma-separated element list,
`ElementList := Element (',' Element)*` (section 4.4); the parser files
are not under `src/`.  `fuel` bounds the number of separators; callers
pass the token-list length, which the comma count can never reach. -/
def sepList (elem : List Token → Except String (α × List Token)) :
    ℕ → List Token → Except String (List α × List Token)
  | 0, ts =>
    match elem ts with
    | .error e => .error e
    | .ok (a, .Comma :: _) => .error "syntax error: element list exceeds the parsing budget"
    | .ok (a, ts1) => .ok ([a], ts1)
  | fuel + 1, ts =>
    match elem ts with
    | .error e => .error e
    | .ok (a, .Comma :: ts2) =>
      match sepList elem fuel ts2 with
      | .ok (as, r) => .ok (a :: as, r)
      | .error e => .error e
    | .ok (a, ts1) => .ok ([a], ts1)
termination_by structural fuel => fuel

/-- Modelled from the spec: a parenthesized element list,
`'(' ElementList ')'` (section 4.4). -/
def parseParen (elemList : List Token → Except String (α × List Token)) :
    List Token → Except String (α × List Token)
  | .LParen :: rest =>
    match elemList rest with
    | .ok (v, .RParen :: rest2) => .ok (v, rest2)
    | .ok (_, t :: _) => .error ("syntax error: expected , or ) but found " ++ tokenText t)
    | .ok (_, []) => .error "syntax error: expected , or ) but found end of input"
    | .error e => .error e
  | t :: _ => .error ("syntax error: expected ( but found " ++ tokenText t)
  | [] => .error "syntax error: expected ( but found end of input"

/-- Modelled from the spec: a geometry body,
`Body := 'EMPTY' | '(' ElementList ')'` (section 4.4); `EMPTY` is
matched case-insensitively and yields the empty value. -/
def parseBody (elemList : List Token → Except String (α × List Token)) (emptyVal : α)
    (ts : List Token) : Except String (α × List Token) :=
  match ts with
  | .Word w :: rest =>
    if strUpper w = "EMPTY" then .ok (emptyVal, rest)
    else .error ("syntax error: expected EMPTY or ( but found " ++ w)
  | _ => parseParen elemList ts

/-- The element parser for a `POINT` body: one coordinate, made optional. -/
def coordOptElem (ts : List Token) : Except String (Option Coord × List Token) :=
  match Coord.from_tokens ts with
  | .ok (c, rest) => .ok (some c, rest)
  | .error e => .error e

/-- A ring (or a line-string used as an element): a parenthesized
comma-separated list of coordinates. -/
def ringElem (n : ℕ) : List Token → Except String (List Coord × List Token) :=
  parseParen (sepList Coord.from_tokens n)

/-- The ring list forming one polygon body content. -/
def polygonContent (n : ℕ) : List Token → Except String (List (List Coord) × List Token) :=
  sepList (ringElem n) n

/-- One polygon as an element of a surface or multi-polygon:
a parenthesized ring list. -/
def polyElem (n : ℕ) : List Token → Except String (List (List Coord) × List Token) :=
  parseParen (polygonContent n)

/-- Modelled from the spec: a `MULTIPOINT` member is `EMPTY`, a
parenthesized coordinate, or a bare coordinate (section 4.4). -/
def multiPointElem (ts : List Token) : Except String (Option Coord × List Token) :=
  match ts with
  | .Word w :: rest =>
    if strUpper w = "EMPTY" then .ok (none, rest)
    else .error ("syntax error: expected EMPTY, ( or a number but found " ++ w)
  | .LParen :: _ => parseParen coordOptElem ts
  | _ => coordOptElem ts

/-- Modelled from the spec: one dispatch step of the tagged-geometry
parser (`src/wkt.rs` is not under `src/`).  Reads the tag word
case-insensitively and parses the matching body (sections 4.3 and 4.4);
`recur` parses one nested geometry inside `GEOMETRYCOLLECTION`. -/
def parseTaggedStep (recur : List Token → Except String (Geometry × List Token)) :
    List Token → Except String (Geometry × List Token)
  | .Word w :: rest =>
    match strUpper w with
    | "POINT" =>
      match parseBody coordOptElem none rest with
      | .ok (v, r) => .ok (Geometry.Point v, r)
      | .error e => .error e
    | "LINESTRING" =>
      match parseBody (sepList Coord.from_tokens rest.length) [] rest with
      | .ok (v, r) => .ok (Geometry.LineString v, r)
      | .error e => .error e
    | "POLYGON" =>
      match parseBody (polygonContent rest.length) [] rest with
      | .ok (v, r) => .ok (Geometry.Polygon v, r)
      | .error e => .error e
    | "POLYHEDRALSURFACE" =>
      match parseBody (sepList (polyElem rest.length) rest.length) [] rest with
      | .ok (v, r) => .ok (Geometry.PolyhedralSurface v, r)
      | .error e => .error e
    | "TRIANGLE" =>
      match parseBody (polygonContent rest.length) [] rest with
      | .ok (v, r) => .ok (Geometry.Triangle v, r)
      | .error e => .error e
    | "TIN" =>
      match parseBody (sepList (polyElem rest.length) rest.length) [] rest with
      | .ok (v, r) => .ok (Geometry.Tin v, r)
      | .error e => .error e
    | "MULTIPOINT" =>
      match parseBody (sepList multiPointElem rest.length) [] rest with
      | .ok (v, r) => .ok (Geometry.MultiPoint v, r)
      | .error e => .error e
    | "MULTILINESTRING" =>
      match parseBody (sepList (ringElem rest.length) rest.length) [] rest with
      | .ok (v, r) => .ok (Geometry.MultiLineString v, r)
      | .error e => .error e
    | "MULTIPOLYGON" =>
      match parseBody (sepList (polyElem rest.length) rest.length) [] rest with
      | .ok (v, r) => .ok (Geometry.MultiPolygon v, r)
      | .error e => .error e
    | "GEOMETRYCOLLECTION" =>
      match parseBody (sepList recur rest.length) [] rest with
      | .ok (v, r) => .ok (Geometry.GeometryCollection v, r)
      | .error e => .error e
    | _ => .error ("syntax error: expected a geometry tag word but found " ++ w)
  | t :: _ => .error ("syntax error: expected a geometry tag word but found " ++ tokenText t)
  | [] => .error "syntax error: expected a geometry tag word but found end of input"

/-- The failing continuation used when the nesting budget runs out. -/
def recurOut : List Token → Except String (Geometry × List Token) :=
  fun _ => .error "syntax error: geometry nesting exceeds the parsing budget"

/-- The tagged-geometry parser: iterate `parseTaggedStep`, decrementing
the nesting budget at each `GEOMETRYCOLLECTION` level. -/
def parseTagged : ℕ → List Token → Except String (Geometry × List Token)
  | 0 => parseTaggedStep recurOut
  | fuel + 1 => parseTaggedStep (parseTagged fuel)

/-- Modelled from the spec: `wkt::parse_GeometryTaggedText` (the file
`src/wkt.rs` is not under `src/`): tokenize the input and parse one
tagged geometry from the front; trailing tokens are not rejected
(constrained by the `basic_geometrycollection` test in `src/lib.rs`). -/
def parse_GeometryTaggedText (s : String) : Except String Geometry :=
  match tokenize s.data with
  | .error e => .error e
  | .ok ts =>
    match parseTagged (ts.length + 1) ts with
    | .ok (g, _) => .ok g
    | .error e => .error e

/-- The top-level wrapper from `src/lib.rs`: `pub struct Wkt(Geometry)`. -/
structure Wkt where
  geom : Geometry

/-- `Wkt::from_str` from `src/lib.rs`: run the parser and discard the
error detail, returning the unit error value (`type Err = ()`). -/
def Wkt.from_str (s : String) : Except Unit Wkt :=
  match parse_GeometryTaggedText s with
  | .ok geom => .ok {geom := geom}
  | .error _ => .error ()

/-- Decimal digit characters of a natural number, most significant
first: the structurally recursive worker on a budget.  A budget above
the number itself is always enough since the number shrinks tenfold
each step. -/
def natDigitsF : ℕ → ℕ → List Char
  | 0, _ => []
  | fuel + 1, n =>
    if n < 10 then [Char.ofNat (48 + n)]
    else natDigitsF fuel (n / 10) ++ [Char.ofNat (48 + n % 10)]

/-- Decimal digit characters of a natural number, most significant
first. -/
def natDigits (n : ℕ) : List Char :=
  natDigitsF (n + 1) n

/-- Left-pad a digit list with zeros to the given width. -/
def padZeros (k : ℕ) (ds : List Char) : List Char :=
  List.replicate (k - ds.length) '0' ++ ds

/-- The least exponent `k` with `d ∣ 10 ^ k`, when one exists up to `d`
(it always does for denominators of parsed numbers). -/
def decExp (d : ℕ) : Option ℕ :=
  (List.range (d + 1)).find? (fun k => decide (d ∣ 10 ^ k))

/-- Decimal rendering of an ordinate with a given exponent `k`: the
scaled integer `|num| * (10 ^ k / den)` printed with `k` fractional
digits and a sign. -/
def renderNumK (q : ℚ) (k : ℕ) : String :=
  if k = 0 then
    (if q.num < 0 then "-" else "") ++
      String.mk (natDigits (q.num.natAbs * (10 ^ k / q.den)))
  else
    (if q.num < 0 then "-" else "") ++
      String.mk (natDigits (q.num.natAbs * (10 ^ k / q.den) / 10 ^ k)) ++ "." ++
      String.mk (padZeros k (natDigits (q.num.natAbs * (10 ^ k / q.den) % 10 ^ k)))

/-- Modelled from the spec: decimal rendering of an ordinate value
(section 4.5, round-tripping numeric output; the serializer is not
under `src/`).  Exact for every value whose denominator divides a power
of ten, which covers every value the tokenizer can produce. -/
def renderNum (q : ℚ) : String :=
  match decExp q.den with
  | none => "0"
  | some k => renderNumK q k

/-- Text of one token in canonical serialized output. -/
def renderToken : Token → String
  | .Word w => w
  | .Number q => renderNum q
  | .Comma => ","
  | .LParen => "("
  | .RParen => ")"

/-- Canonical separator between two adjacent tokens: a single space
after a word, after a comma, and between two numbers; nothing
elsewhere. -/
def sepStr : Token → Token → String
  | .Word _, .Comma => ""
  | .Word _, .RParen => ""
  | .Word _, _ => " "
  | .Number _, .Number _ => " "
  | .Comma, _ => " "
  | _, _ => ""

/-- Canonical text of a token list (spec section 4.5: single space
after the tag, comma-plus-space between siblings, no extraneous
whitespace). -/
def renderTokens : List Token → String
  | [] => ""
  | [t] => renderToken t
  | t :: t' :: rest => renderToken t ++ sepStr t t' ++ renderTokens (t' :: rest)

/-- Tokens of one coordinate: `x`, `y`, then `z` and `m` when present. -/
def tokensOfCoord (c : Coord) : List Token :=
  [Token.Number c.x, Token.Number c.y]
    ++ (match c.z with | some z => [Token.Number z] | none => [])
    ++ (match c.m with | some m => [Token.Number m] | none => [])

/-- Comma-join a list of token runs. -/
def joinComma (ls : List (List Token)) : List Token :=
  (List.intersperse [Token.Comma] ls).flatten

/-- Body of a serialized geometry: `EMPTY` when there are no elements,
otherwise the parenthesized comma-separated elements. -/
def bodyTokens (elems : List (List Token)) : List Token :=
  match elems with
  | [] => [Token.Word "EMPTY"]
  | _ => Token.LParen :: (joinComma elems ++ [Token.RParen])

/-- Tokens of one ring (or line-string element). -/
def ringTokens (r : List Coord) : List Token :=
  Token.LParen :: (joinComma (r.map tokensOfCoord) ++ [Token.RParen])

/-- Tokens of one polygon used as an element. -/
def polyTokens (p : List (List Coord)) : List Token :=
  Token.LParen :: (joinComma (p.map ringTokens) ++ [Token.RParen])

/-- Tokens of one multipoint member, parenthesized or `EMPTY`. -/
def mpointElemTokens : Option Coord → List Token
  | none => [Token.Word "EMPTY"]
  | some c => Token.LParen :: (tokensOfCoord c ++ [Token.RParen])

mutual
/-- Modelled from the spec: the token stream of a serialized geometry
(section 4.5; the serializer is not under `src/`): upper-case tag, then
`EMPTY` or the parenthesized, comma-separated elements, recursively. -/
def tokensOfGeometry : Geometry → List Token
  | .Point oc =>
    Token.Word "POINT" :: bodyTokens (match oc with | none => [] | some c => [tokensOfCoord c])
  | .LineString cs => Token.Word "LINESTRING" :: bodyTokens (cs.map tokensOfCoord)
  | .Polygon rs => Token.Word "POLYGON" :: bodyTokens (rs.map ringTokens)
  | .PolyhedralSurface ps => Token.Word "POLYHEDRALSURFACE" :: bodyTokens (ps.map polyTokens)
  | .Triangle rs => Token.Word "TRIANGLE" :: bodyTokens (rs.map ringTokens)
  | .Tin ps => Token.Word "TIN" :: bodyTokens (ps.map polyTokens)
  | .MultiPoint ocs => Token.Word "MULTIPOINT" :: bodyTokens (ocs.map mpointElemTokens)
  | .MultiLineString ls => Token.Word "MULTILINESTRING" :: bodyTokens (ls.map ringTokens)
  | .MultiPolygon ps => Token.Word "MULTIPOLYGON" :: bodyTokens (ps.map polyTokens)
  | .GeometryCollection gs =>
    Token.Word "GEOMETRYCOLLECTION" :: bodyTokens (tokensOfGeometryList gs)

/-- Token streams of the members of a geometry collection. -/
def tokensOfGeometryList : List Geometry → List (List Token)
  | [] => []
  | g :: gs => tokensOfGeometry g :: tokensOfGeometryList gs
end

/-- Modelled from the spec: the serializer (section 4.5), the total
inverse of parsing; it is not under `src/`. -/
def serialize (g : Geometry) : String :=
  renderTokens (tokensOfGeometry g)

/-- The tokenizer accepts `cs` producing `ts` whenever given at least
`cs.length` budget. -/
def TokOk (cs : List Char) (ts : List Token) : Prop :=
  ∀ fuel, cs.length ≤ fuel → tokenizeF fuel cs = .ok ts

/-- A rational is decimal when it is an integer divided by a power of
ten; every numeric value the tokenizer produces has this shape. -/
def IsDec (q : ℚ) : Prop := ∃ (n : ℤ) (k : ℕ), q = (n : ℚ) / 10 ^ k

/-- Well-formedness of a token for serialization: words are nonempty
and alphabetic, numbers are decimal rationals. -/
def ValidTok : Token → Prop
  | .Word w => w.data ≠ [] ∧ ∀ c ∈ w.data, c.isAlpha = true
  | .Number q => IsDec q
  | _ => True

/-- A coordinate as the parser produces it: two-dimensional with
decimal ordinates. -/
def GoodC (c : Coord) : Prop := c.z = none ∧ c.m = none ∧ IsDec c.x ∧ IsDec c.y

mutual
/-- Geometries in the image of the parser: rings and nested element
lists are nonempty where the grammar requires at least one element, and
every coordinate is two-dimensional with decimal ordinates. -/
def GoodG : Geometry → Prop
  | .Point none => True
  | .Point (some c) => GoodC c
  | .LineString cs => ∀ c ∈ cs, GoodC c
  | .Polygon rs => ∀ r ∈ rs, r ≠ [] ∧ ∀ c ∈ r, GoodC c
  | .PolyhedralSurface ps => ∀ p ∈ ps, p ≠ [] ∧ ∀ r ∈ p, r ≠ [] ∧ ∀ c ∈ r, GoodC c
  | .Triangle rs => ∀ r ∈ rs, r ≠ [] ∧ ∀ c ∈ r, GoodC c
  | .Tin ps => ∀ p ∈ ps, p ≠ [] ∧ ∀ r ∈ p, r ≠ [] ∧ ∀ c ∈ r, GoodC c
  | .MultiPoint ocs => ∀ oc ∈ ocs, ∀ c, oc = some c → GoodC c
  | .MultiLineString ls => ∀ r ∈ ls, r ≠ [] ∧ ∀ c ∈ r, GoodC c
  | .MultiPolygon ps => ∀ p ∈ ps, p ≠ [] ∧ ∀ r ∈ p, r ≠ [] ∧ ∀ c ∈ r, GoodC c
  | .GeometryCollection gs => GoodGL gs

/-- The members of a good geometry collection. -/
def GoodGL : List Geometry → Prop
  | [] => True
  | g :: gs => GoodG g ∧ GoodGL gs
end

mutual
/-- Collection-nesting depth of a geometry. -/
def depthG : Geometry → ℕ
  | .GeometryCollection gs => depthGL gs + 1
  | _ => 0

/-- Largest nesting depth among collection members. -/
def depthGL : List Geometry → ℕ
  | [] => 0
  | g :: gs => max (depthG g) (depthGL gs)
end

/-- The element contract used by list completeness: each element's
token run parses back to the element in front of any continuation. -/
def ElemOk (elem : List Token → Except String (α × List Token)) (x : α)
    (r : List Token) : Prop :=
  ∀ rest', elem (r ++ rest') = .ok (x, rest')

/-- Every number token in the list is a decimal rational. -/
def PTok (ts : List Token) : Prop := ∀ q, Token.Number q ∈ ts → IsDec q

/-- Case equivalence of characters: equal after upper-casing, i.e. the
same character up to the letter case used. -/
def caseEqC (c c' : Char) : Prop := Char.toUpper c = Char.toUpper c'

/-- Case equivalence of tokens: words are equal after upper-casing and
all other tokens are identical. -/
def tokCaseEq : Token → Token → Prop
  | .Word w, .Word w' => strUpper w = strUpper w'
  | t, t' => t = t'

/-- Case equivalence of token streams. -/
def TRel : List Token → List Token → Prop := List.Forall₂ tokCaseEq

/-- Two parse results agree up to case equivalence: errors pair with
errors (the messages may differ), successes carry equal values and
case-equivalent unconsumed streams. -/
def ExceptRel (R : α → β → Prop) : Except String α → Except String β → Prop
  | .ok a, .ok b => R a b
  | .error _, .error _ => True
  | _, _ => False

/-- The value relation threaded through the parser: equal parsed values
and case-equivalent remainders. -/
def PRel (p p' : α × List Token) : Prop := p.1 = p'.1 ∧ TRel p.2 p'.2

def geomMap (f : α → Geometry) :
    Except String (α × List Token) → Except String (Geometry × List Token)
  | Except.ok (v, r) => Except.ok (f v, r)
  | Except.error e => Except.error e

theorem length_dropWhile_le (p : Char → Bool) (l : List Char) :
    (l.dropWhile p).length ≤ l.length := by
  induction l with
  | nil => simp [List.dropWhile]
  | cons c cs ih =>
    by_cases h : p c
    · simp [List.dropWhile, h]; omega
    · simp [List.dropWhile, h]

theorem length_takeWhile_add_dropWhile (p : Char → Bool) (l : List Char) :
    (l.takeWhile p).length + (l.dropWhile p).length = l.length := by
  rw [← List.length_append, List.takeWhile_append_dropWhile]

theorem scanUnsigned_snd_le (cs : List Char) :
    (scanUnsigned cs).2.length ≤ cs.length := by
  have hlen := length_takeWhile_add_dropWhile Char.isDigit cs
  unfold scanUnsigned
  split
  · simp
  · rename_i intd r2 hdot hne
    have h2 := length_dropWhile_le Char.isDigit r2
    have h3 : r2.length + 1 ≤ cs.length := by
      have h4 : (cs.dropWhile Char.isDigit).length ≤ cs.length := by omega
      rw [hdot] at h4
      simpa using h4
    simp
    omega
  · rename_i intd r1 hne1 hne2
    simp
    omega

theorem scanUnsigned_some_lt (cs : List Char) (q : ℚ) (rest : List Char)
    (h : scanUnsigned cs = (some q, rest)) : rest.length < cs.length := by
  have hlen := length_takeWhile_add_dropWhile Char.isDigit cs
  unfold scanUnsigned at h
  split at h
  · simp at h
  · rename_i intd r2 hdot hne
    have h2 := length_dropWhile_le Char.isDigit r2
    have h3 : r2.length + 1 ≤ cs.length := by
      have h4 : (cs.dropWhile Char.isDigit).length ≤ cs.length := by omega
      rw [hdot] at h4
      simpa using h4
    have hr : rest = r2.dropWhile Char.isDigit := by
      have h5 := congrArg Prod.snd h
      simpa using h5.symm
    subst hr
    omega
  · rename_i intd r1 hne1 hne2
    have hint : cs.takeWhile Char.isDigit ≠ [] := fun hnil => hne1 hnil
    have hintlen : 0 < (cs.takeWhile Char.isDigit).length := List.length_pos.mpr hint
    have hr : rest = cs.dropWhile Char.isDigit := by
      have h5 := congrArg Prod.snd h
      simpa using h5.symm
    subst hr
    omega

theorem tokenizeF_nil (fuel : ℕ) : tokenizeF fuel [] = .ok [] := by
  cases fuel <;> rfl

theorem tokenizeF_succ (fuel : ℕ) (c : Char) (cs : List Char) :
    tokenizeF (fuel + 1) (c :: cs) = tokenizeStepF (tokenizeF fuel) c cs := rfl

theorem tokenizeF_zero_cons (c : Char) (cs : List Char) :
    tokenizeF 0 (c :: cs) = .error "lexical error: tokenizer exceeded its budget" := rfl

/-- C3: trailing tokens after the close-paren of a complete top-level
geometry do not cause a parse failure: the input
`GEOMETRYCOLLECTION (POINT (8 4)))`, with an extra trailing close
parenthesis, parses successfully to a collection with exactly one
member, the point (8, 4). -/
theorem trailing_tokens_accepted :
    parse_GeometryTaggedText "GEOMETRYCOLLECTION (POINT (8 4)))" =
      .ok (Geometry.GeometryCollection
        [Geometry.Point (some {x := 8, y := 4, z := none, m := none})]) := rfl

/-- C4: the inputs `POINT ()`, `POINT (10)`, `POINT 10` and
`POINT (10 -20 40)` each make the top-level parse return an error. -/
theorem invalid_points_fail :
    Wkt.from_str "POINT ()" = .error () ∧
    Wkt.from_str "POINT (10)" = .error () ∧
    Wkt.from_str "POINT 10" = .error () ∧
    Wkt.from_str "POINT (10 -20 40)" = .error () :=
  ⟨rfl, rfl, rfl, rfl⟩

/-- C5: `POINT EMPTY` parses to a point geometry with no coordinate and
`MULTIPOLYGON EMPTY` parses to a multi-polygon with zero polygons: the
`EMPTY` keyword produces a geometry with zero elements at its
outermost level. -/
theorem empty_keyword_geometries :
    parse_GeometryTaggedText "POINT EMPTY" = .ok (Geometry.Point none) ∧
    parse_GeometryTaggedText "MULTIPOLYGON EMPTY" = .ok (Geometry.MultiPolygon []) :=
  ⟨rfl, rfl⟩

/-- C9: parsing the empty string always fails: `Wkt::from_str ""`
returns an error, never a `Wkt` value. -/
theorem empty_string_fails : Wkt.from_str "" = .error () := rfl

/-- C10: `Point::from_tokens` returns `Ok(Point { coord })` exactly when
`Coord::from_tokens` on the same stream returns `Ok(coord)`, and
otherwise propagates the identical error string, constructing no
`Point` value. -/
theorem point_from_tokens_propagates :
    ∀ (ts : List Token) (c : Coord) (rest : List Token),
      (Point.from_tokens ts = .ok ({coord := c}, rest) ↔
        Coord.from_tokens ts = .ok (c, rest)) ∧
      ∀ e, (Point.from_tokens ts = .error e ↔ Coord.from_tokens ts = .error e) := by
  intro ts c rest
  constructor
  · cases h : Coord.from_tokens ts with
    | ok cr => simp [Point.from_tokens, h, Prod.ext_iff]
    | error e => simp [Point.from_tokens, h]
  · intro e
    cases h : Coord.from_tokens ts with
    | ok cr => simp [Point.from_tokens, h]
    | error e' => simp [Point.from_tokens, h]

/-- C1, counterexample: on a stream of three consecutive `Number`
tokens the coordinate parser does not return a coordinate with three
ordinates filled after consuming all three numbers, contrary to the
claim that 2, 3 or 4 consecutive numbers are read into as many
ordinates. -/
theorem coord_parser_not_three_ordinates :
    ¬ ∃ (c : Coord) (rest : List Token),
      Coord.from_tokens [Token.Number 10, Token.Number (-20), Token.Number 40] =
        .ok (c, rest) ∧ c.z.isSome ∧ rest = [] := by
  intro ⟨c, rest, h1, h2, h3⟩
  have he : Coord.from_tokens [Token.Number 10, Token.Number (-20), Token.Number 40] =
      .ok ({x := 10, y := -20, z := none, m := none}, [Token.Number 40]) := rfl
  rw [he] at h1
  simp at h1
  obtain ⟨hc, -⟩ := h1
  rw [← hc] at h2
  simp at h2

/-- C1, amended: the coordinate parser reads exactly two consecutive
`Number` tokens into `x` and `y`, leaving `z` and `m` unset and any
further tokens (including a third number) unconsumed; it fails exactly
when the stream does not begin with two numbers. -/
theorem coord_parser_reads_two_numbers :
    ∀ ts : List Token,
      (∃ x y rest, ts = Token.Number x :: Token.Number y :: rest ∧
        Coord.from_tokens ts = .ok ({x := x, y := y, z := none, m := none}, rest)) ∨
      ((∀ x y rest, ts ≠ Token.Number x :: Token.Number y :: rest) ∧
        ∃ e, Coord.from_tokens ts = .error e) := by
  intro ts
  match ts with
  | [] =>
    right
    exact ⟨(fun x y rest h => by cases h), ⟨_, rfl⟩⟩
  | [t] =>
    right
    refine ⟨by intro x y rest h; simp at h, ?_⟩
    cases t <;> exact ⟨_, rfl⟩
  | t1 :: t2 :: rest =>
    cases t1 with
    | Number x =>
      cases t2 with
      | Number y => exact Or.inl ⟨x, y, rest, rfl, rfl⟩
      | Word w => exact Or.inr ⟨by intro a b r h; simp at h, _, rfl⟩
      | Comma => exact Or.inr ⟨by intro a b r h; simp at h, _, rfl⟩
      | LParen => exact Or.inr ⟨by intro a b r h; simp at h, _, rfl⟩
      | RParen => exact Or.inr ⟨by intro a b r h; simp at h, _, rfl⟩
    | Word w => exact Or.inr ⟨by intro a b r h; simp at h, _, rfl⟩
    | Comma => exact Or.inr ⟨by intro a b r h; simp at h, _, rfl⟩
    | LParen => exact Or.inr ⟨by intro a b r h; simp at h, _, rfl⟩
    | RParen => exact Or.inr ⟨by intro a b r h; simp at h, _, rfl⟩

theorem str_append_ne (a b : String) (h : a ≠ "") : a ++ b ≠ "" := by
  intro hc
  apply h
  have hd : (a ++ b).data = a.data ++ b.data := String.data_append a b
  rw [hc] at hd
  have : a.data = [] := (List.append_eq_nil.mp hd.symm).1
  cases a
  simp at this
  simp [this]

theorem errNe_coord : ∀ ts e, Coord.from_tokens ts = .error e → e ≠ "" := by
  intro ts e h
  rw [Coord.from_tokens.eq_def] at h
  split at h
  all_goals try exact Except.noConfusion h
  all_goals injection h with h1
  all_goals subst h1
  all_goals decide

theorem errNe_coordOpt : ∀ ts e, coordOptElem ts = .error e → e ≠ "" := by
  intro ts e h
  rw [coordOptElem.eq_def] at h
  split at h
  all_goals try exact Except.noConfusion h
  all_goals injection h with h1
  all_goals subst h1
  all_goals exact errNe_coord _ _ (by assumption)

theorem errNe_sepList (elem : List Token → Except String (α × List Token))
    (helem : ∀ ts e, elem ts = .error e → e ≠ "") :
    ∀ fuel ts e, sepList elem fuel ts = .error e → e ≠ "" := by
  intro fuel
  induction fuel with
  | zero =>
    intro ts e h
    unfold sepList at h
    repeat' split at h
    all_goals try exact Except.noConfusion h
    all_goals injection h with h1
    all_goals subst h1
    all_goals try decide
    all_goals rename_i heq
    all_goals exact helem _ _ heq
  | succ n ih =>
    intro ts e h
    unfold sepList at h
    repeat' split at h
    all_goals try exact Except.noConfusion h
    all_goals injection h with h1
    all_goals subst h1
    all_goals try decide
    all_goals rename_i heq
    all_goals first
      | exact helem _ _ heq
      | exact ih _ _ heq

theorem errNe_parseParen (elem : List Token → Except String (α × List Token))
    (helem : ∀ ts e, elem ts = .error e → e ≠ "") :
    ∀ ts e, parseParen elem ts = .error e → e ≠ "" := by
  intro ts e h
  rw [parseParen.eq_def] at h
  repeat' split at h
  all_goals try exact Except.noConfusion h
  all_goals injection h with h1
  all_goals subst h1
  all_goals try decide
  all_goals try (refine str_append_ne _ _ ?_; decide)
  all_goals rename_i heq
  all_goals exact helem _ _ heq

theorem errNe_parseBody (elem : List Token → Except String (α × List Token))
    (helem : ∀ ts e, elem ts = .error e → e ≠ "") (v : α) :
    ∀ ts e, parseBody elem v ts = .error e → e ≠ "" := by
  intro ts e h
  rw [parseBody.eq_def] at h
  repeat' split at h
  all_goals try exact Except.noConfusion h
  all_goals try exact errNe_parseParen elem helem _ _ h
  all_goals injection h with h1
  all_goals subst h1
  all_goals first
    | decide
    | (refine str_append_ne _ _ ?_; decide)

theorem errNe_multiPointElem : ∀ ts e, multiPointElem ts = .error e → e ≠ "" := by
  intro ts e h
  rw [multiPointElem.eq_def] at h
  repeat' split at h
  all_goals try exact Except.noConfusion h
  all_goals try exact errNe_parseParen _ errNe_coordOpt _ _ h
  all_goals try exact errNe_coordOpt _ _ h
  all_goals injection h with h1
  all_goals subst h1
  all_goals first
    | decide
    | (refine str_append_ne _ _ ?_; decide)

theorem errNe_parseTaggedStep (recur : List Token → Except String (Geometry × List Token))
    (hrec : ∀ ts e, recur ts = .error e → e ≠ "") :
    ∀ ts e, parseTaggedStep recur ts = .error e → e ≠ "" := by
  intro ts e h
  unfold parseTaggedStep at h
  repeat' split at h
  all_goals try exact Except.noConfusion h
  all_goals injection h with h1
  all_goals subst h1
  all_goals try decide
  all_goals try (refine str_append_ne _ _ ?_; decide)
  all_goals rename_i heq
  all_goals first
    | exact errNe_parseBody _ errNe_coordOpt _ _ _ heq
    | exact errNe_parseBody _ (errNe_sepList _ errNe_coord _) _ _ _ heq
    | exact errNe_parseBody _ (errNe_sepList _ (errNe_parseParen _ (errNe_sepList _ errNe_coord _)) _) _ _ _ heq
    | exact errNe_parseBody _ (errNe_sepList _ (errNe_parseParen _ (errNe_sepList _ (errNe_parseParen _ (errNe_sepList _ errNe_coord _)) _)) _) _ _ _ heq
    | exact errNe_parseBody _ (errNe_sepList _ errNe_multiPointElem _) _ _ _ heq
    | exact errNe_parseBody _ (errNe_sepList _ hrec _) _ _ _ heq

theorem errNe_recurOut : ∀ ts e, recurOut ts = .error e → e ≠ "" := by
  intro ts e h
  unfold recurOut at h
  injection h with h1
  subst h1
  decide

theorem errNe_parseTagged : ∀ fuel ts e, parseTagged fuel ts = .error e → e ≠ "" := by
  intro fuel
  induction fuel with
  | zero => exact errNe_parseTaggedStep recurOut errNe_recurOut
  | succ n ih => exact errNe_parseTaggedStep _ ih

theorem errNe_tokenizeStepF (recur : List Char → Except String (List Token))
    (hrec : ∀ cs e, recur cs = .error e → e ≠ "") :
    ∀ c cs e, tokenizeStepF recur c cs = .error e → e ≠ "" := by
  intro c cs e h
  unfold tokenizeStepF at h
  repeat' split at h
  all_goals try exact Except.noConfusion h
  all_goals try exact hrec _ _ h
  all_goals injection h with h1
  all_goals subst h1
  all_goals try decide
  all_goals try (refine str_append_ne _ _ ?_; decide)
  all_goals rename_i heq
  all_goals exact hrec _ _ heq

theorem errNe_tokenizeF : ∀ fuel cs e, tokenizeF fuel cs = .error e → e ≠ "" := by
  intro fuel
  induction fuel with
  | zero =>
    intro cs e h
    match cs with
    | [] => rw [tokenizeF_nil] at h; exact Except.noConfusion h
    | c :: cs' =>
      rw [tokenizeF_zero_cons] at h
      injection h with h1
      subst h1
      decide
  | succ n ih =>
    intro cs e h
    match cs with
    | [] => rw [tokenizeF_nil] at h; exact Except.noConfusion h
    | c :: cs' =>
      rw [tokenizeF_succ] at h
      exact errNe_tokenizeStepF _ ih _ _ _ h

theorem errNe_parse : ∀ s e, parse_GeometryTaggedText s = .error e → e ≠ "" := by
  intro s e h
  unfold parse_GeometryTaggedText at h
  split at h
  · injection h with h1
    subst h1
    rename_i heq
    unfold tokenize at heq
    exact errNe_tokenizeF _ _ _ heq
  · split at h
    · exact Except.noConfusion h
    · injection h with h1
      subst h1
      rename_i heq
      exact errNe_parseTagged _ _ _ heq

/-- C2, counterexample: `Wkt::from_str` does not return an error value
carrying a descriptive message: its error type is the unit type, so a
lexical failure, an arity failure and an end-of-input failure all
return the very same bare marker `()`. -/
theorem from_str_error_is_bare_unit :
    Wkt.from_str "POINT (8 %)" = .error () ∧
    Wkt.from_str "POINT (10)" = .error () ∧
    Wkt.from_str "" = .error () :=
  ⟨rfl, rfl, rfl⟩

/-- C2, amended: on every failing input the top-level `Wkt::from_str`
returns the bare unit error (`type Err = ()`); the underlying
`parse_GeometryTaggedText` does produce a descriptive nonempty message,
which `from_str` discards. -/
theorem from_str_discards_message :
    ∀ s e, parse_GeometryTaggedText s = .error e →
      Wkt.from_str s = .error () ∧ e ≠ "" := by
  intro s e h
  refine ⟨?_, errNe_parse s e h⟩
  unfold Wkt.from_str
  rw [h]

/-- Witness for C2's amended theorem at the input `POINT (10)`. -/
theorem from_str_discards_message_witness :
    parse_GeometryTaggedText "POINT (10)" =
      .error "syntax error: expected a number for the Y ordinate" ∧
    (Wkt.from_str "POINT (10)" = .error () ∧
      "syntax error: expected a number for the Y ordinate" ≠ "") :=
  ⟨rfl, from_str_discards_message _ _ rfl⟩

theorem ule_iff (a b : UInt32) : a ≤ b ↔ a.toNat ≤ b.toNat := Iff.rfl

theorem char_eq_iff_toNat (c d : Char) : c = d ↔ c.toNat = d.toNat :=
  ⟨fun h => by rw [h], fun h => Char.ext (UInt32.ext h)⟩

theorem isAlpha_iff (c : Char) :
    c.isAlpha = true ↔ (65 ≤ c.toNat ∧ c.toNat ≤ 90) ∨ (97 ≤ c.toNat ∧ c.toNat ≤ 122) := by
  simp only [Char.isAlpha, Char.isUpper, Char.isLower, ge_iff_le, Bool.or_eq_true,
    Bool.and_eq_true, decide_eq_true_eq, ule_iff]
  exact Iff.rfl

theorem isDigit_iff (c : Char) :
    c.isDigit = true ↔ 48 ≤ c.toNat ∧ c.toNat ≤ 57 := by
  simp only [Char.isDigit, ge_iff_le, Bool.and_eq_true, decide_eq_true_eq, ule_iff]
  exact Iff.rfl

theorem isWS_iff (c : Char) :
    isWS c = true ↔ c.toNat = 32 ∨ c.toNat = 9 ∨ c.toNat = 10 ∨ c.toNat = 13 := by
  simp only [isWS, Bool.or_eq_true, beq_iff_eq, char_eq_iff_toNat,
    show (' ').toNat = 32 from rfl, show ('\t').toNat = 9 from rfl,
    show ('\n').toNat = 10 from rfl, show ('\x0d').toNat = 13 from rfl]
  tauto

theorem beq_char_iff (c d : Char) : (c == d) = true ↔ c.toNat = d.toNat := by
  rw [beq_iff_eq, char_eq_iff_toNat]

theorem alpha_not_ws (c : Char) (h : c.isAlpha = true) : isWS c = false := by
  rw [← Bool.not_eq_true, isWS_iff]
  rw [isAlpha_iff] at h
  omega

theorem digit_not_ws (c : Char) (h : c.isDigit = true) : isWS c = false := by
  rw [← Bool.not_eq_true, isWS_iff]
  rw [isDigit_iff] at h
  omega

theorem ws_not_alpha (c : Char) (h : isWS c = true) : c.isAlpha = false := by
  rw [← Bool.not_eq_true, isAlpha_iff]
  rw [isWS_iff] at h
  omega

theorem ws_not_digit (c : Char) (h : isWS c = true) : c.isDigit = false := by
  rw [← Bool.not_eq_true, isDigit_iff]
  rw [isWS_iff] at h
  omega

theorem digit_not_alpha (c : Char) (h : c.isDigit = true) : c.isAlpha = false := by
  rw [← Bool.not_eq_true, isAlpha_iff]
  rw [isDigit_iff] at h
  omega

theorem alpha_not_digit (c : Char) (h : c.isAlpha = true) : c.isDigit = false := by
  rw [← Bool.not_eq_true, isDigit_iff]
  rw [isAlpha_iff] at h
  omega

theorem digit_ne_comma (c : Char) (h : c.isDigit = true) : (c == ',') = false := by
  rw [← Bool.not_eq_true, beq_char_iff]
  rw [isDigit_iff] at h
  simp only [show (',').toNat = 44 from rfl]
  omega

theorem digit_ne_lp (c : Char) (h : c.isDigit = true) : (c == '(') = false := by
  rw [← Bool.not_eq_true, beq_char_iff]
  rw [isDigit_iff] at h
  simp only [show ('(').toNat = 40 from rfl]
  omega

theorem digit_ne_rp (c : Char) (h : c.isDigit = true) : (c == ')') = false := by
  rw [← Bool.not_eq_true, beq_char_iff]
  rw [isDigit_iff] at h
  simp only [show (')').toNat = 41 from rfl]
  omega

theorem digit_ne_minus (c : Char) (h : c.isDigit = true) : (c == '-') = false := by
  rw [← Bool.not_eq_true, beq_char_iff]
  rw [isDigit_iff] at h
  simp only [show ('-').toNat = 45 from rfl]
  omega

theorem alpha_ne_dot (c : Char) (h : c.isAlpha = true) : c ≠ '.' := by
  rw [Ne, char_eq_iff_toNat]
  rw [isAlpha_iff] at h
  simp only [show ('.').toNat = 46 from rfl]
  omega

theorem ws_ne_dot (c : Char) (h : isWS c = true) : c ≠ '.' := by
  rw [Ne, char_eq_iff_toNat]
  rw [isWS_iff] at h
  simp only [show ('.').toNat = 46 from rfl]
  omega

theorem takeWhile_dropWhile_append (p : Char → Bool) (l r : List Char)
    (hl : ∀ x ∈ l, p x = true) (hr : ∀ c, r.head? = some c → p c = false) :
    (l ++ r).takeWhile p = l ∧ (l ++ r).dropWhile p = r := by
  induction l with
  | nil =>
    simp only [List.nil_append]
    match r with
    | [] => simp [List.takeWhile, List.dropWhile]
    | c :: r' =>
      have hc := hr c rfl
      simp [List.takeWhile_cons, List.dropWhile_cons, hc]
  | cons a l' ih =>
    have ha := hl a (by simp)
    have ih' := ih (fun x hx => hl x (by simp [hx]))
    simp [List.takeWhile_cons, List.dropWhile_cons, ha, ih'.1, ih'.2]

theorem tokOk_nil : TokOk [] [] := fun fuel _ => tokenizeF_nil fuel

theorem tokOk_ws (c : Char) (cs : List Char) (ts : List Token) (hc : isWS c = true)
    (h : TokOk cs ts) : TokOk (c :: cs) ts := by
  intro fuel hf
  match fuel with
  | f + 1 =>
    rw [tokenizeF_succ]
    unfold tokenizeStepF
    rw [hc]
    simp only [if_true]
    exact h f (by simpa using hf)

theorem tokOk_wsList (ws cs : List Char) (ts : List Token) (hws : ∀ c ∈ ws, isWS c = true)
    (h : TokOk cs ts) : TokOk (ws ++ cs) ts := by
  induction ws with
  | nil => simpa using h
  | cons c ws' ih =>
    have := ih (fun x hx => hws x (by simp [hx]))
    exact tokOk_ws c (ws' ++ cs) ts (hws c (by simp)) this

theorem tokOk_comma (cs : List Char) (ts : List Token) (h : TokOk cs ts) :
    TokOk (',' :: cs) (Token.Comma :: ts) := by
  intro fuel hf
  match fuel with
  | f + 1 =>
    rw [tokenizeF_succ]
    unfold tokenizeStepF
    rw [h f (by simpa using hf)]
    rfl

theorem tokOk_lparen (cs : List Char) (ts : List Token) (h : TokOk cs ts) :
    TokOk ('(' :: cs) (Token.LParen :: ts) := by
  intro fuel hf
  match fuel with
  | f + 1 =>
    rw [tokenizeF_succ]
    unfold tokenizeStepF
    rw [h f (by simpa using hf)]
    rfl

theorem tokOk_rparen (cs : List Char) (ts : List Token) (h : TokOk cs ts) :
    TokOk (')' :: cs) (Token.RParen :: ts) := by
  intro fuel hf
  match fuel with
  | f + 1 =>
    rw [tokenizeF_succ]
    unfold tokenizeStepF
    rw [h f (by simpa using hf)]
    rfl

theorem tokOk_word (w cs : List Char) (ts : List Token) (hw : w ≠ [])
    (hwa : ∀ c ∈ w, c.isAlpha = true)
    (hr : ∀ c, cs.head? = some c → c.isAlpha = false) (h : TokOk cs ts) :
    TokOk (w ++ cs) (Token.Word (String.mk w) :: ts) := by
  intro fuel hf
  match w with
  | c :: wrest =>
    match fuel with
    | f + 1 =>
      have hsplit := takeWhile_dropWhile_append Char.isAlpha wrest cs
        (fun x hx => hwa x (by simp [hx])) hr
      have hca := hwa c (by simp)
      rw [List.cons_append, tokenizeF_succ]
      unfold tokenizeStepF
      rw [alpha_not_ws c hca, hca]
      simp only [Bool.false_eq_true, if_false, if_true]
      rw [hsplit.2, hsplit.1]
      rw [h f (by simp at hf; omega)]

theorem char_ofNat_toNat (n : ℕ) (h : n < 55296) : (Char.ofNat n).toNat = n := by
  unfold Char.ofNat Char.toNat
  split
  · rfl
  · rename_i hc
    exact absurd (Or.inl (by omega) : Nat.isValidChar n) hc

theorem digit_char_isDigit (d : ℕ) (h : d < 10) : (Char.ofNat (48 + d)).isDigit = true := by
  rw [isDigit_iff, char_ofNat_toNat _ (by omega)]
  omega

theorem digitVal_char (d : ℕ) (h : d < 10) : digitVal (Char.ofNat (48 + d)) = d := by
  unfold digitVal
  rw [char_ofNat_toNat _ (by omega)]
  omega

theorem digitsVal_append_one (l : List Char) (c : Char) :
    digitsVal (l ++ [c]) = 10 * digitsVal l + digitVal c := by
  unfold digitsVal
  rw [List.foldl_append]
  rfl

theorem natDigitsF_spec : ∀ fuel n, n < fuel →
    natDigitsF fuel n ≠ [] ∧ (∀ c ∈ natDigitsF fuel n, c.isDigit = true) ∧
      digitsVal (natDigitsF fuel n) = n := by
  intro fuel
  induction fuel with
  | zero => omega
  | succ f ih =>
    intro n hn
    unfold natDigitsF
    by_cases h10 : n < 10
    · simp only [h10, if_true]
      refine ⟨by simp, ?_, ?_⟩
      · intro c hc
        simp at hc
        subst hc
        exact digit_char_isDigit n h10
      · show digitsVal ([] ++ [Char.ofNat (48 + n)]) = n
        rw [digitsVal_append_one]
        unfold digitsVal
        simp [digitVal_char n h10]
    · simp only [h10, if_false]
      have hrec : n / 10 < f := by omega
      obtain ⟨hne, hdig, hval⟩ := ih (n / 10) hrec
      refine ⟨by simp, ?_, ?_⟩
      · intro c hc
        simp at hc
        rcases hc with hc | hc
        · exact hdig c hc
        · subst hc
          exact digit_char_isDigit _ (by omega)
      · rw [digitsVal_append_one, hval, digitVal_char _ (by omega)]
        omega

theorem natDigits_ne (n : ℕ) : natDigits n ≠ [] :=
  (natDigitsF_spec (n + 1) n (by omega)).1

theorem natDigits_digits (n : ℕ) : ∀ c ∈ natDigits n, c.isDigit = true :=
  (natDigitsF_spec (n + 1) n (by omega)).2.1

theorem natDigits_val (n : ℕ) : digitsVal (natDigits n) = n :=
  (natDigitsF_spec (n + 1) n (by omega)).2.2

theorem natDigitsF_length_le : ∀ fuel n j, n < fuel → n < 10 ^ j → 1 ≤ j →
    (natDigitsF fuel n).length ≤ j := by
  intro fuel
  induction fuel with
  | zero => omega
  | succ f ih =>
    intro n j hn hj h1
    unfold natDigitsF
    by_cases h10 : n < 10
    · simp [h10]
      omega
    · simp only [h10, if_false]
      have hj2 : 2 ≤ j := by
        by_contra hc
        have : j = 1 := by omega
        subst this
        simp at hj
        omega
      have hdiv : n / 10 < 10 ^ (j - 1) := by
        rw [Nat.div_lt_iff_lt_mul (by omega)]
        calc n < 10 ^ j := hj
        _ = 10 ^ (j - 1) * 10 := by
            rw [← pow_succ]
            congr 1
            omega
      have := ih (n / 10) (j - 1) (by omega) hdiv (by omega)
      simp
      omega

theorem padZeros_digits (k : ℕ) (ds : List Char) (h : ∀ c ∈ ds, c.isDigit = true) :
    ∀ c ∈ padZeros k ds, c.isDigit = true := by
  intro c hc
  unfold padZeros at hc
  simp at hc
  rcases hc with hc | hc
  · rw [hc.2]
    decide
  · exact h c hc

theorem digitsVal_zero_cons (l : List Char) : digitsVal ('0' :: l) = digitsVal l := rfl

theorem padZeros_val (k : ℕ) (ds : List Char) : digitsVal (padZeros k ds) = digitsVal ds := by
  unfold padZeros
  induction (k - ds.length) with
  | zero => simp
  | succ j ih =>
    rw [List.replicate_succ, List.cons_append, digitsVal_zero_cons]
    exact ih

theorem padZeros_length (k : ℕ) (ds : List Char) (h : ds.length ≤ k) :
    (padZeros k ds).length = k := by
  unfold padZeros
  simp
  omega

theorem padZeros_ne (k : ℕ) (ds : List Char) (h : ds ≠ []) : padZeros k ds ≠ [] := by
  unfold padZeros
  intro hc
  rcases List.append_eq_nil.mp hc with ⟨-, h2⟩
  exact h h2

theorem dvd_pow10_self (d k : ℕ) (hd : 0 < d) (h : d ∣ 10 ^ k) : d ∣ 10 ^ d := by
  have h10k : (10:ℕ) ^ k ≠ 0 := pow_ne_zero _ (by norm_num)
  have h10d : (10:ℕ) ^ d ≠ 0 := pow_ne_zero _ (by norm_num)
  rw [← Nat.factorization_le_iff_dvd (by omega) h10k] at h
  rw [← Nat.factorization_le_iff_dvd (by omega) h10d]
  rw [Nat.factorization_pow] at h ⊢
  rw [Finsupp.le_def] at h ⊢
  intro p
  have hp := h p
  simp only [Finsupp.smul_apply, smul_eq_mul] at hp ⊢
  by_cases hz : (10:ℕ).factorization p = 0
  · rw [hz] at hp ⊢
    simpa using hp
  · have h1 : 1 ≤ (10:ℕ).factorization p := by omega
    have h2 : d.factorization p < d := Nat.factorization_lt p (by omega)
    calc d.factorization p ≤ d * 1 := by omega
    _ ≤ d * (10:ℕ).factorization p := by
        exact Nat.mul_le_mul_left d h1

theorem isDec_den_dvd (q : ℚ) (h : IsDec q) : ∃ k, (q.den : ℕ) ∣ 10 ^ k := by
  obtain ⟨n, k, hq⟩ := h
  refine ⟨k, ?_⟩
  have hd := Rat.den_dvd n ((10:ℤ) ^ k)
  rw [Rat.divInt_eq_div] at hd
  push_cast at hd
  rw [← hq] at hd
  exact_mod_cast hd

theorem decExp_spec (q : ℚ) (h : IsDec q) :
    ∃ k, decExp q.den = some k ∧ (q.den : ℕ) ∣ 10 ^ k := by
  obtain ⟨k0, hk0⟩ := isDec_den_dvd q h
  have hpos : 0 < q.den := q.den_pos
  have hdd : q.den ∣ 10 ^ q.den := dvd_pow10_self q.den k0 hpos hk0
  have hmem : ∃ x ∈ List.range (q.den + 1), (fun k => decide (q.den ∣ 10 ^ k)) x = true := by
    refine ⟨q.den, by simp, by simpa using hdd⟩
  have hsome : (decExp q.den).isSome := by
    unfold decExp
    rw [List.find?_isSome]
    exact hmem
  obtain ⟨k, hk⟩ := Option.isSome_iff_exists.mp hsome
  refine ⟨k, hk, ?_⟩
  have := List.find?_some hk
  simpa using this

theorem scan_int (ds rest : List Char) (hd : ds ≠ [])
    (hdd : ∀ c ∈ ds, c.isDigit = true)
    (hr : ∀ c, rest.head? = some c → c.isDigit = false ∧ c ≠ '.') :
    scanUnsigned (ds ++ rest) = (some ((digitsVal ds : ℚ)), rest) := by
  have hsplit := takeWhile_dropWhile_append Char.isDigit ds rest hdd
    (fun c hc => (hr c hc).1)
  unfold scanUnsigned
  rw [hsplit.1, hsplit.2]
  split
  · exact absurd rfl hd
  · exact absurd rfl (hr '.' rfl).2
  · rfl

theorem scan_frac (ds fs rest : List Char) (hd : ds ≠ [])
    (hdd : ∀ c ∈ ds, c.isDigit = true) (hfd : ∀ c ∈ fs, c.isDigit = true)
    (hr : ∀ c, rest.head? = some c → c.isDigit = false ∧ c ≠ '.') :
    scanUnsigned (ds ++ '.' :: (fs ++ rest)) =
      (some ((digitsVal ds : ℚ) + (digitsVal fs : ℚ) / 10 ^ fs.length), rest) := by
  have hsplit := takeWhile_dropWhile_append Char.isDigit ds ('.' :: (fs ++ rest)) hdd
    (fun c hc => by
      injection hc with hc
      rw [← hc]
      decide)
  have hsplit2 := takeWhile_dropWhile_append Char.isDigit fs rest hfd
    (fun c hc => (hr c hc).1)
  unfold scanUnsigned
  rw [hsplit.1, hsplit.2]
  split
  · exact absurd rfl hd
  · rename_i r2 hexcl heq
    injection heq with h1 h2
    subst h2
    rw [hsplit2.1, hsplit2.2]
  · rename_i hexcl1 hexcl2
    exact absurd rfl (hexcl2 (fs ++ rest))

theorem tokOk_numPos (d : Char) (nl cs : List Char) (ts : List Token) (q : ℚ)
    (hdig : d.isDigit = true)
    (hscan : scanUnsigned (d :: (nl ++ cs)) = (some q, cs))
    (h : TokOk cs ts) : TokOk ((d :: nl) ++ cs) (Token.Number q :: ts) := by
  intro fuel hf
  match fuel with
  | f + 1 =>
    rw [List.cons_append, tokenizeF_succ]
    unfold tokenizeStepF
    rw [digit_not_ws d hdig, digit_not_alpha d hdig, digit_ne_comma d hdig,
      digit_ne_lp d hdig, digit_ne_rp d hdig, digit_ne_minus d hdig, hdig]
    simp only [Bool.false_eq_true, if_false, if_true]
    rw [hscan]
    show (match tokenizeF f cs with
      | Except.ok ts2 => Except.ok (Token.Number q :: ts2)
      | Except.error e => (Except.error e : Except String (List Token))) =
      Except.ok (Token.Number q :: ts)
    rw [h f (by simp at hf; omega)]

theorem tokOk_numNeg (nl cs : List Char) (ts : List Token) (q : ℚ)
    (hscan : scanUnsigned (nl ++ cs) = (some q, cs))
    (h : TokOk cs ts) : TokOk ('-' :: (nl ++ cs)) (Token.Number (-q) :: ts) := by
  intro fuel hf
  match fuel with
  | f + 1 =>
    rw [tokenizeF_succ]
    unfold tokenizeStepF
    rw [hscan]
    rw [show isWS '-' = false from rfl, show ('-').isAlpha = false from rfl,
      show ('-' == ',') = false from rfl, show ('-' == '(') = false from rfl,
      show ('-' == ')') = false from rfl, show ('-' == '-') = true from rfl]
    simp only [Bool.false_eq_true, if_false, if_true]
    show (match tokenizeF f cs with
      | Except.ok ts2 => Except.ok (Token.Number (-q) :: ts2)
      | Except.error e => (Except.error e : Except String (List Token))) =
      Except.ok (Token.Number (-q) :: ts)
    rw [h f (by simp at hf; omega)]

theorem cast_pow10_div_den (q : ℚ) (k : ℕ) (hdvd : (q.den : ℕ) ∣ 10 ^ k) :
    (((10 ^ k / q.den : ℕ)) : ℚ) = (10 : ℚ) ^ k / q.den := by
  have hden : (q.den : ℚ) ≠ 0 := by exact_mod_cast q.den_pos.ne'
  rw [Nat.cast_div hdvd hden]
  push_cast
  ring

theorem a_div_pow_eq (q : ℚ) (k : ℕ) (hdvd : (q.den : ℕ) ∣ 10 ^ k) :
    ((q.num.natAbs * (10 ^ k / q.den) : ℕ) : ℚ) / 10 ^ k = (q.num.natAbs : ℚ) / q.den := by
  have hden : (q.den : ℚ) ≠ 0 := by exact_mod_cast q.den_pos.ne'
  have hp : ((10 : ℚ) ^ k) ≠ 0 := by positivity
  rw [Nat.cast_mul, cast_pow10_div_den q k hdvd]
  field_simp
  ring

theorem natAbs_div_den_pos (q : ℚ) (h : 0 ≤ q.num) : (q.num.natAbs : ℚ) / q.den = q := by
  have h2 : ((q.num.natAbs : ℕ) : ℚ) = (q.num : ℚ) := by
    rw [Int.cast_natAbs]
    exact_mod_cast abs_of_nonneg h
  rw [h2, Rat.num_div_den]

theorem natAbs_div_den_neg (q : ℚ) (h : q.num < 0) : (q.num.natAbs : ℚ) / q.den = -q := by
  have h2 : ((q.num.natAbs : ℕ) : ℚ) = -(q.num : ℚ) := by
    rw [Int.cast_natAbs]
    exact_mod_cast abs_of_neg h
  rw [h2, neg_div, Rat.num_div_den]

theorem div_add_mod_qcast (a P : ℕ) (hP : 0 < P) :
    ((a / P : ℕ) : ℚ) + ((a % P : ℕ) : ℚ) / P = (a : ℚ) / P := by
  have hdm : P * (a / P) + a % P = a := Nat.div_add_mod a P
  have hc : ((P * (a / P) + a % P : ℕ) : ℚ) = (a : ℚ) := by rw [hdm]
  push_cast at hc
  have hPq : (P : ℚ) ≠ 0 := by exact_mod_cast hP.ne'
  field_simp
  linarith

theorem natDigits_length_le (n j : ℕ) (hn : n < 10 ^ j) (hj : 1 ≤ j) :
    (natDigits n).length ≤ j :=
  natDigitsF_length_le (n + 1) n j (by omega) hn hj

theorem exists_cons_digit (l : List Char) (hne : l ≠ [])
    (hd : ∀ c ∈ l, c.isDigit = true) : ∃ d l', l = d :: l' ∧ d.isDigit = true := by
  match l with
  | [] => exact absurd rfl hne
  | d :: l' => exact ⟨d, l', rfl, hd d (by simp)⟩

theorem tokOk_numLit (nl cs : List Char) (ts : List Token) (q : ℚ)
    (hd1 : ∃ d nl', nl = d :: nl' ∧ d.isDigit = true)
    (hscan : scanUnsigned (nl ++ cs) = (some q, cs)) (h : TokOk cs ts) :
    TokOk (nl ++ cs) (Token.Number q :: ts) := by
  obtain ⟨d, nl', rfl, hdig⟩ := hd1
  exact tokOk_numPos d nl' cs ts q hdig (by rw [← List.cons_append]; exact hscan) h

theorem div_add_mod_q10 (a k : ℕ) :
    ((a / 10 ^ k : ℕ) : ℚ) + ((a % 10 ^ k : ℕ) : ℚ) / (10:ℚ) ^ k = (a : ℚ) / (10:ℚ) ^ k := by
  have h := div_add_mod_qcast a (10 ^ k) (by positivity)
  have hc : (((10:ℕ) ^ k : ℕ) : ℚ) = (10:ℚ) ^ k := by push_cast; ring
  rw [hc] at h
  exact h

theorem renderNum_tokOk (q : ℚ) (hq : IsDec q) (cs : List Char) (ts : List Token)
    (hr : ∀ c, cs.head? = some c → c.isDigit = false ∧ c ≠ '.')
    (h : TokOk cs ts) : TokOk ((renderNum q).data ++ cs) (Token.Number q :: ts) := by
  obtain ⟨k, hdec, hdvd⟩ := decExp_spec q hq
  have hre : renderNum q = renderNumK q k := by
    unfold renderNum
    rw [hdec]
  rw [hre]
  unfold renderNumK
  by_cases hk : k = 0
  · subst hk
    have hden1 : q.den = 1 := Nat.dvd_one.mp (by simpa using hdvd)
    have ha : q.num.natAbs * (10 ^ 0 / q.den) = q.num.natAbs := by
      rw [hden1]
      simp
    rw [if_pos rfl, ha]
    have hscan : scanUnsigned (natDigits q.num.natAbs ++ cs) =
        (some ((q.num.natAbs : ℚ)), cs) := by
      have := scan_int (natDigits q.num.natAbs) cs (natDigits_ne _) (natDigits_digits _) hr
      rwa [natDigits_val] at this
    have habs : (q.num.natAbs : ℚ) / q.den = (q.num.natAbs : ℚ) := by
      rw [hden1]
      simp
    by_cases hs : q.num < 0
    · rw [if_pos hs]
      have hq2 : (q.num.natAbs : ℚ) = -q := by
        rw [← habs]
        exact natAbs_div_den_neg q hs
      have hres := tokOk_numNeg (natDigits q.num.natAbs) cs ts _ hscan h
      rw [hq2, neg_neg] at hres
      exact hres
    · rw [if_neg hs]
      have hq2 : (q.num.natAbs : ℚ) = q := by
        rw [← habs]
        exact natAbs_div_den_pos q (by omega)
      rw [hq2] at hscan
      have hres := tokOk_numLit (natDigits q.num.natAbs) cs ts q
        (exists_cons_digit _ (natDigits_ne _) (natDigits_digits _)) hscan h
      exact hres
  · rw [if_neg hk]
    have hkpos : (0:ℕ) < 10 ^ k := by positivity
    have hfs_len : (padZeros k (natDigits (q.num.natAbs * (10 ^ k / q.den) % 10 ^ k))).length = k :=
      padZeros_length k _ (natDigits_length_le _ k (Nat.mod_lt _ hkpos) (by omega))
    have hfs_dig : ∀ c ∈ padZeros k (natDigits (q.num.natAbs * (10 ^ k / q.den) % 10 ^ k)),
        c.isDigit = true := padZeros_digits _ _ (natDigits_digits _)
    have hscan := scan_frac (natDigits (q.num.natAbs * (10 ^ k / q.den) / 10 ^ k))
      (padZeros k (natDigits (q.num.natAbs * (10 ^ k / q.den) % 10 ^ k))) cs
      (natDigits_ne _) (natDigits_digits _) hfs_dig hr
    rw [natDigits_val, padZeros_val, natDigits_val, hfs_len] at hscan
    rw [div_add_mod_q10, a_div_pow_eq q k hdvd] at hscan
    by_cases hs : q.num < 0
    · rw [if_pos hs]
      rw [natAbs_div_den_neg q hs] at hscan
      have hdata : (("-" : String) ++
          String.mk (natDigits (q.num.natAbs * (10 ^ k / q.den) / 10 ^ k)) ++ "." ++
          String.mk (padZeros k (natDigits (q.num.natAbs * (10 ^ k / q.den) % 10 ^ k)))).data ++ cs
          = '-' :: (natDigits (q.num.natAbs * (10 ^ k / q.den) / 10 ^ k) ++
            '.' :: (padZeros k (natDigits (q.num.natAbs * (10 ^ k / q.den) % 10 ^ k)) ++ cs)) := by
        simp only [String.data_append, show ("-" : String).data = ['-'] from rfl,
          show ("." : String).data = ['.'] from rfl, List.append_assoc, List.cons_append,
          List.nil_append]
      rw [hdata]
      have hres := tokOk_numNeg (natDigits (q.num.natAbs * (10 ^ k / q.den) / 10 ^ k) ++
        '.' :: padZeros k (natDigits (q.num.natAbs * (10 ^ k / q.den) % 10 ^ k))) cs ts _
        (by rw [List.append_assoc]; exact hscan) h
      rw [neg_neg] at hres
      rw [show (natDigits (q.num.natAbs * (10 ^ k / q.den) / 10 ^ k) ++
        '.' :: padZeros k (natDigits (q.num.natAbs * (10 ^ k / q.den) % 10 ^ k))) ++ cs
        = natDigits (q.num.natAbs * (10 ^ k / q.den) / 10 ^ k) ++
          '.' :: (padZeros k (natDigits (q.num.natAbs * (10 ^ k / q.den) % 10 ^ k)) ++ cs)
        from by rw [List.append_assoc]; rfl] at hres
      exact hres
    · rw [if_neg hs]
      rw [natAbs_div_den_pos q (by omega)] at hscan
      have hdata : ((("" : String) ++
          String.mk (natDigits (q.num.natAbs * (10 ^ k / q.den) / 10 ^ k)) ++ "." ++
          String.mk (padZeros k (natDigits (q.num.natAbs * (10 ^ k / q.den) % 10 ^ k)))).data) ++ cs
          = (natDigits (q.num.natAbs * (10 ^ k / q.den) / 10 ^ k) ++
            '.' :: padZeros k (natDigits (q.num.natAbs * (10 ^ k / q.den) % 10 ^ k))) ++ cs := by
        simp only [String.data_append, show ("" : String).data = [] from rfl,
          show ("." : String).data = ['.'] from rfl, List.append_assoc, List.cons_append,
          List.nil_append]
      rw [hdata]
      obtain ⟨d, l', hds, hdig⟩ := exists_cons_digit
        (natDigits (q.num.natAbs * (10 ^ k / q.den) / 10 ^ k)) (natDigits_ne _) (natDigits_digits _)
      exact tokOk_numLit _ cs ts q
        ⟨d, l' ++ '.' :: padZeros k (natDigits (q.num.natAbs * (10 ^ k / q.den) % 10 ^ k)),
          by rw [hds]; rfl, hdig⟩
        (by rw [List.append_assoc]; exact hscan) h

theorem renderTokens_cons_eq (t : Token) (rest : List Token) :
    ∃ x : String, renderTokens (t :: rest) = renderToken t ++ x := by
  match rest with
  | [] => exact ⟨"", by simp [renderTokens]⟩
  | t' :: rest' => exact ⟨sepStr t t' ++ renderTokens (t' :: rest'), by rw [renderTokens]; rw [String.append_assoc]⟩

theorem renderNumK_first (q : ℚ) (k : ℕ) :
    ∃ c r, (renderNumK q k).data = c :: r ∧ (c.isDigit = true ∨ c = '-') := by
  unfold renderNumK
  by_cases hk : k = 0
  · rw [if_pos hk]
    by_cases hs : q.num < 0
    · rw [if_pos hs]
      exact ⟨'-', _, rfl, Or.inr rfl⟩
    · rw [if_neg hs]
      obtain ⟨d, l', hds, hdig⟩ := exists_cons_digit _
        (natDigits_ne (q.num.natAbs * (10 ^ k / q.den))) (natDigits_digits _)
      refine ⟨d, l', ?_, Or.inl hdig⟩
      show (("" : String) ++ String.mk (natDigits (q.num.natAbs * (10 ^ k / q.den)))).data = d :: l'
      simp only [String.data_append, show ("" : String).data = [] from rfl, List.nil_append]
      rw [hds]
  · rw [if_neg hk]
    by_cases hs : q.num < 0
    · rw [if_pos hs]
      refine ⟨'-', natDigits (q.num.natAbs * (10 ^ k / q.den) / 10 ^ k) ++
        '.' :: padZeros k (natDigits (q.num.natAbs * (10 ^ k / q.den) % 10 ^ k)), ?_, Or.inr rfl⟩
      simp only [String.data_append, show ("-" : String).data = ['-'] from rfl,
        show ("." : String).data = ['.'] from rfl]
      simp [List.append_assoc]
    · rw [if_neg hs]
      obtain ⟨d, l', hds, hdig⟩ := exists_cons_digit _
        (natDigits_ne (q.num.natAbs * (10 ^ k / q.den) / 10 ^ k)) (natDigits_digits _)
      refine ⟨d, l' ++ '.' :: padZeros k (natDigits (q.num.natAbs * (10 ^ k / q.den) % 10 ^ k)),
        ?_, Or.inl hdig⟩
      simp only [String.data_append, show ("" : String).data = [] from rfl,
        show ("." : String).data = ['.'] from rfl, List.nil_append]
      rw [hds]
      simp [List.append_assoc]

theorem renderNum_first (q : ℚ) :
    ∃ c r, (renderNum q).data = c :: r ∧ (c.isDigit = true ∨ c = '-') := by
  unfold renderNum
  rcases hdec : decExp q.den with _ | k
  · exact ⟨'0', [], rfl, Or.inl (by decide)⟩
  · exact renderNumK_first q k

theorem renderToken_first (t : Token) (hv : ValidTok t) :
    ∃ c r, (renderToken t).data = c :: r ∧
      ((∃ w, t = Token.Word w ∧ c.isAlpha = true) ∨
       (∃ q, t = Token.Number q ∧ (c.isDigit = true ∨ c = '-')) ∨
       (t = Token.Comma ∧ c = ',') ∨
       (t = Token.LParen ∧ c = '(') ∨
       (t = Token.RParen ∧ c = ')')) := by
  match t with
  | .Word w =>
    obtain ⟨hne, hal⟩ := hv
    match hw : w.data with
    | [] => exact absurd hw hne
    | c :: r =>
      exact ⟨c, r, rfl, Or.inl ⟨w, rfl, hal c (by rw [hw]; simp)⟩⟩
  | .Number q =>
    obtain ⟨c, r, hd, hc⟩ := renderNum_first q
    exact ⟨c, r, hd, Or.inr (Or.inl ⟨q, rfl, hc⟩)⟩
  | .Comma => exact ⟨',', [], rfl, Or.inr (Or.inr (Or.inl ⟨rfl, rfl⟩))⟩
  | .LParen => exact ⟨'(', [], rfl, Or.inr (Or.inr (Or.inr (Or.inl ⟨rfl, rfl⟩)))⟩
  | .RParen => exact ⟨')', [], rfl, Or.inr (Or.inr (Or.inr (Or.inr ⟨rfl, rfl⟩)))⟩

theorem renderTokens_cons_cons (t t' : Token) (rest : List Token) :
    renderTokens (t :: t' :: rest) =
      renderToken t ++ (sepStr t t' ++ renderTokens (t' :: rest)) := by
  rw [renderTokens, String.append_assoc]

theorem render_tokOk : ∀ ts : List Token, (∀ t ∈ ts, ValidTok t) →
    TokOk (renderTokens ts).data ts := by
  intro ts
  induction ts with
  | nil => intro _; exact tokOk_nil
  | cons t rest ih =>
    intro hv
    have hvt : ValidTok t := hv t (by simp)
    match rest with
    | [] =>
      show TokOk (renderToken t).data [t]
      match t, hvt with
      | .Word w, ⟨hne, hal⟩ =>
        have := tokOk_word w.data [] [] hne hal (fun c hc => by simp at hc) tokOk_nil
        rw [List.append_nil] at this
        exact this
      | .Number q, hq =>
        have := renderNum_tokOk q hq [] [] (fun c hc => by simp at hc) tokOk_nil
        rw [List.append_nil] at this
        exact this
      | .Comma, _ => exact tokOk_comma [] [] tokOk_nil
      | .LParen, _ => exact tokOk_lparen [] [] tokOk_nil
      | .RParen, _ => exact tokOk_rparen [] [] tokOk_nil
    | t' :: rest' =>
      have hv' : ValidTok t' := hv t' (by simp)
      have hRT := ih (fun x hx => hv x (by simp at hx ⊢; tauto))
      rw [renderTokens_cons_cons, String.data_append, String.data_append]
      obtain ⟨x, hx⟩ := renderTokens_cons_eq t' rest'
      obtain ⟨c0, r0, hfirst, hclass⟩ := renderToken_first t' hv'
      have hRTdata : (renderTokens (t' :: rest')).data = c0 :: (r0 ++ x.data) := by
        rw [hx, String.data_append, hfirst]
        rfl
      match t, hvt with
      | .Word w, ⟨hne, hal⟩ =>
        match t' with
        | .Comma =>
          have hsep : sepStr (Token.Word w) Token.Comma = "" := rfl
          rw [hsep]
          have hcc : c0 = ',' := by
            rcases hclass with ⟨w', hw', -⟩ | ⟨q', hq', -⟩ | ⟨-, hc⟩ | ⟨hh, -⟩ | ⟨hh, -⟩ <;>
              first | exact hc | (cases hw') | (cases hq') | (cases hh)
          refine tokOk_word w.data _ _ hne hal ?_ (by simpa using hRT)
          intro c hc
          rw [show ("" : String).data = [] from rfl, List.nil_append, hRTdata] at hc
          injection hc with hc
          rw [← hc, hcc]
          decide
        | .RParen =>
          have hsep : sepStr (Token.Word w) Token.RParen = "" := rfl
          rw [hsep]
          have hcc : c0 = ')' := by
            rcases hclass with ⟨w', hw', -⟩ | ⟨q', hq', -⟩ | ⟨hh, -⟩ | ⟨hh, -⟩ | ⟨-, hc⟩ <;>
              first | exact hc | (cases hw') | (cases hq') | (cases hh)
          refine tokOk_word w.data _ _ hne hal ?_ (by simpa using hRT)
          intro c hc
          rw [show ("" : String).data = [] from rfl, List.nil_append, hRTdata] at hc
          injection hc with hc
          rw [← hc, hcc]
          decide
        | .Word w2 =>
          refine tokOk_word w.data _ _ hne hal ?_ (tokOk_ws ' ' _ _ rfl hRT)
          intro c hc
          injection hc with hc
          rw [← hc]
          decide
        | .Number q2 =>
          refine tokOk_word w.data _ _ hne hal ?_ (tokOk_ws ' ' _ _ rfl hRT)
          intro c hc
          injection hc with hc
          rw [← hc]
          decide
        | .LParen =>
          refine tokOk_word w.data _ _ hne hal ?_ (tokOk_ws ' ' _ _ rfl hRT)
          intro c hc
          injection hc with hc
          rw [← hc]
          decide
      | .Number q, hq =>
        match t' with
        | .Number q2 =>
          refine renderNum_tokOk q hq _ _ ?_ (tokOk_ws ' ' _ _ rfl hRT)
          intro c hc
          injection hc with hc
          rw [← hc]
          exact ⟨by decide, by decide⟩
        | .Word w2 =>
          have hsep : sepStr (Token.Number q) (Token.Word w2) = "" := rfl
          rw [hsep]
          have hcc : c0.isAlpha = true := by
            rcases hclass with ⟨w', hw', hc⟩ | ⟨q', hq', -⟩ | ⟨hh, -⟩ | ⟨hh, -⟩ | ⟨hh, -⟩ <;>
              first | exact hc | (cases hq') | (cases hh)
          refine renderNum_tokOk q hq _ _ ?_ (by simpa using hRT)
          intro c hc
          rw [show ("" : String).data = [] from rfl, List.nil_append, hRTdata] at hc
          injection hc with hc
          rw [← hc]
          exact ⟨alpha_not_digit c0 hcc, alpha_ne_dot c0 hcc⟩
        | .Comma =>
          have hsep : sepStr (Token.Number q) Token.Comma = "" := rfl
          rw [hsep]
          have hcc : c0 = ',' := by
            rcases hclass with ⟨w', hw', -⟩ | ⟨q', hq', -⟩ | ⟨-, hc⟩ | ⟨hh, -⟩ | ⟨hh, -⟩ <;>
              first | exact hc | (cases hw') | (cases hq') | (cases hh)
          refine renderNum_tokOk q hq _ _ ?_ (by simpa using hRT)
          intro c hc
          rw [show ("" : String).data = [] from rfl, List.nil_append, hRTdata] at hc
          injection hc with hc
          rw [← hc, hcc]
          exact ⟨by decide, by decide⟩
        | .LParen =>
          have hsep : sepStr (Token.Number q) Token.LParen = "" := rfl
          rw [hsep]
          have hcc : c0 = '(' := by
            rcases hclass with ⟨w', hw', -⟩ | ⟨q', hq', -⟩ | ⟨hh, -⟩ | ⟨-, hc⟩ | ⟨hh, -⟩ <;>
              first | exact hc | (cases hw') | (cases hq') | (cases hh)
          refine renderNum_tokOk q hq _ _ ?_ (by simpa using hRT)
          intro c hc
          rw [show ("" : String).data = [] from rfl, List.nil_append, hRTdata] at hc
          injection hc with hc
          rw [← hc, hcc]
          exact ⟨by decide, by decide⟩
        | .RParen =>
          have hsep : sepStr (Token.Number q) Token.RParen = "" := rfl
          rw [hsep]
          have hcc : c0 = ')' := by
            rcases hclass with ⟨w', hw', -⟩ | ⟨q', hq', -⟩ | ⟨hh, -⟩ | ⟨hh, -⟩ | ⟨-, hc⟩ <;>
              first | exact hc | (cases hw') | (cases hq') | (cases hh)
          refine renderNum_tokOk q hq _ _ ?_ (by simpa using hRT)
          intro c hc
          rw [show ("" : String).data = [] from rfl, List.nil_append, hRTdata] at hc
          injection hc with hc
          rw [← hc, hcc]
          exact ⟨by decide, by decide⟩
      | .Comma, _ =>
        exact tokOk_comma _ _ (tokOk_ws ' ' _ _ rfl hRT)
      | .LParen, _ =>
        have hsep : sepStr Token.LParen t' = "" := by cases t' <;> rfl
        rw [hsep]
        exact tokOk_lparen _ _ (by simpa using hRT)
      | .RParen, _ =>
        have hsep : sepStr Token.RParen t' = "" := by cases t' <;> rfl
        rw [hsep]
        exact tokOk_rparen _ _ (by simpa using hRT)

theorem head_append_ws (P : Char → Prop) (ws l : List Char)
    (hws : ∀ c ∈ ws, isWS c = true) (hwsP : ∀ c, isWS c = true → P c)
    (hl : ∀ c, l.head? = some c → P c) :
    ∀ c, (ws ++ l).head? = some c → P c := by
  intro c hc
  match ws with
  | [] => exact hl c (by simpa using hc)
  | a :: ws' =>
    simp at hc
    rw [← hc]
    exact hwsP a (hws a (by simp))

/-- C7: parsing is insensitive to whitespace between tokens: any
combination of space, tab, newline and carriage-return strings around
and between the tokens of `POINT (10 -20)` parses to the same geometry
as the compact form, a point with x = 10, y = -20 and no z or m. -/
theorem whitespace_insensitive :
    ∀ w1 w2 w3 w4 w5 w6 : String,
      (∀ c ∈ w1.data, isWS c = true) → (∀ c ∈ w2.data, isWS c = true) →
      (∀ c ∈ w3.data, isWS c = true) → (∀ c ∈ w4.data, isWS c = true) →
      (∀ c ∈ w5.data, isWS c = true) → (∀ c ∈ w6.data, isWS c = true) →
      parse_GeometryTaggedText
          (w1 ++ "POINT" ++ w2 ++ "(" ++ w3 ++ "10" ++ w4 ++ "-20" ++ w5 ++ ")" ++ w6) =
        parse_GeometryTaggedText "POINT (10 -20)" ∧
      parse_GeometryTaggedText "POINT (10 -20)" =
        .ok (Geometry.Point (some {x := 10, y := -20, z := none, m := none})) := by
  intro w1 w2 w3 w4 w5 w6 h1 h2 h3 h4 h5 h6
  refine ⟨?_, rfl⟩
  have T6 : TokOk w6.data [] := by
    have := tokOk_wsList w6.data [] [] h6 tokOk_nil
    rwa [List.append_nil] at this
  have T5 : TokOk (w5.data ++ ')' :: w6.data) [Token.RParen] :=
    tokOk_wsList _ _ _ h5 (tokOk_rparen _ _ T6)
  have hb5 : ∀ c, (w5.data ++ ')' :: w6.data).head? = some c →
      c.isDigit = false ∧ c ≠ '.' :=
    head_append_ws _ w5.data _ h5 (fun c hc => ⟨ws_not_digit c hc, ws_ne_dot c hc⟩)
      (fun c hc => by injection hc with hc; rw [← hc]; exact ⟨by decide, by decide⟩)
  have hs20 : scanUnsigned (['2', '0'] ++ (w5.data ++ ')' :: w6.data)) =
      (some ((20 : ℚ)), w5.data ++ ')' :: w6.data) := by
    have := scan_int ['2', '0'] (w5.data ++ ')' :: w6.data) (by decide)
      (by decide) hb5
    rw [show digitsVal ['2', '0'] = 20 from by decide] at this
    rw [show (((20 : ℕ)) : ℚ) = (20 : ℚ) from by norm_num] at this
    exact this
  have T4 : TokOk (w4.data ++ '-' :: ('2' :: '0' :: (w5.data ++ ')' :: w6.data)))
      [Token.Number (-20), Token.RParen] :=
    tokOk_wsList _ _ _ h4 (tokOk_numNeg ['2', '0'] _ _ _ hs20 T5)
  have hb4 : ∀ c, (w4.data ++ '-' :: ('2' :: '0' :: (w5.data ++ ')' :: w6.data))).head? =
      some c → c.isDigit = false ∧ c ≠ '.' :=
    head_append_ws _ w4.data _ h4 (fun c hc => ⟨ws_not_digit c hc, ws_ne_dot c hc⟩)
      (fun c hc => by injection hc with hc; rw [← hc]; exact ⟨by decide, by decide⟩)
  have hs10 : scanUnsigned (['1', '0'] ++
      (w4.data ++ '-' :: ('2' :: '0' :: (w5.data ++ ')' :: w6.data)))) =
      (some ((10 : ℚ)), w4.data ++ '-' :: ('2' :: '0' :: (w5.data ++ ')' :: w6.data))) := by
    have := scan_int ['1', '0'] _ (by decide) (by decide) hb4
    rw [show digitsVal ['1', '0'] = 10 from by decide] at this
    rw [show (((10 : ℕ)) : ℚ) = (10 : ℚ) from by norm_num] at this
    exact this
  have T3 : TokOk (w3.data ++ '1' :: '0' ::
      (w4.data ++ '-' :: ('2' :: '0' :: (w5.data ++ ')' :: w6.data))))
      [Token.Number 10, Token.Number (-20), Token.RParen] :=
    tokOk_wsList _ _ _ h3 (tokOk_numPos '1' ['0'] _ _ _ (by decide) hs10 T4)
  have T2 : TokOk (w2.data ++ '(' :: (w3.data ++ '1' :: '0' ::
      (w4.data ++ '-' :: ('2' :: '0' :: (w5.data ++ ')' :: w6.data)))))
      [Token.LParen, Token.Number 10, Token.Number (-20), Token.RParen] :=
    tokOk_wsList _ _ _ h2 (tokOk_lparen _ _ T3)
  have hb2 : ∀ c, (w2.data ++ '(' :: (w3.data ++ '1' :: '0' ::
      (w4.data ++ '-' :: ('2' :: '0' :: (w5.data ++ ')' :: w6.data))))).head? = some c →
      c.isAlpha = false :=
    head_append_ws _ w2.data _ h2 (fun c hc => ws_not_alpha c hc)
      (fun c hc => by injection hc with hc; rw [← hc]; decide)
  have T1 : TokOk (w1.data ++ (['P', 'O', 'I', 'N', 'T'] ++ (w2.data ++ '(' ::
      (w3.data ++ '1' :: '0' ::
        (w4.data ++ '-' :: ('2' :: '0' :: (w5.data ++ ')' :: w6.data)))))))
      [Token.Word "POINT", Token.LParen, Token.Number 10, Token.Number (-20),
        Token.RParen] :=
    tokOk_wsList _ _ _ h1
      (tokOk_word ['P', 'O', 'I', 'N', 'T'] _ _ (by decide) (by decide) hb2 T2)
  have Hs : (w1 ++ "POINT" ++ w2 ++ "(" ++ w3 ++ "10" ++ w4 ++ "-20" ++ w5 ++ ")" ++ w6).data
      = w1.data ++ (['P', 'O', 'I', 'N', 'T'] ++ (w2.data ++ '(' ::
        (w3.data ++ '1' :: '0' ::
          (w4.data ++ '-' :: ('2' :: '0' :: (w5.data ++ ')' :: w6.data)))))) := by
    simp only [String.data_append, List.append_assoc]
    rfl
  unfold parse_GeometryTaggedText
  rw [show tokenize (w1 ++ "POINT" ++ w2 ++ "(" ++ w3 ++ "10" ++ w4 ++ "-20" ++ w5 ++ ")"
      ++ w6).data = .ok [Token.Word "POINT", Token.LParen, Token.Number 10,
      Token.Number (-20), Token.RParen] from by
    unfold tokenize
    rw [Hs]
    exact T1 _ (Nat.le_refl _)]
  rfl

/-- Witness for C7 at the whitespace strings of the
`basic_point_whitespace` test in `src/lib.rs`. -/
theorem whitespace_insensitive_witness :
    (∀ c ∈ (" \n\t\r" : String).data, isWS c = true) ∧
    (∀ c ∈ (" \n\r\t" : String).data, isWS c = true) ∧
    (parse_GeometryTaggedText
        (" \n\t\r" ++ "POINT" ++ " \n\t\r" ++ "(" ++ " \n\r\t" ++ "10" ++ " \n\t\r"
          ++ "-20" ++ " \n\t\r" ++ ")" ++ " \n\t\r") =
      parse_GeometryTaggedText "POINT (10 -20)" ∧
    parse_GeometryTaggedText "POINT (10 -20)" =
      .ok (Geometry.Point (some {x := 10, y := -20, z := none, m := none}))) :=
  ⟨by decide, by decide,
    whitespace_insensitive " \n\t\r" " \n\t\r" " \n\r\t" " \n\t\r" " \n\t\r" " \n\t\r"
      (by decide) (by decide) (by decide) (by decide) (by decide) (by decide)⟩

theorem goodGL_mem (gs : List Geometry) (h : GoodGL gs) : ∀ g ∈ gs, GoodG g := by
  induction gs with
  | nil => intro g hg; simp at hg
  | cons g0 gs' ih =>
    intro g hg
    rw [GoodGL] at h
    rcases List.mem_cons.mp hg with hh | hh
    · rw [hh]; exact h.1
    · exact ih h.2 g hh

theorem goodGL_of_mem (gs : List Geometry) (h : ∀ g ∈ gs, GoodG g) : GoodGL gs := by
  induction gs with
  | nil => rw [GoodGL]; trivial
  | cons g0 gs' ih =>
    rw [GoodGL]
    exact ⟨h g0 (by simp), ih (fun g hg => h g (by simp [hg]))⟩

theorem depthGL_mem (gs : List Geometry) (g : Geometry) (h : g ∈ gs) :
    depthG g ≤ depthGL gs := by
  induction gs with
  | nil => simp at h
  | cons g0 gs' ih =>
    rw [depthGL]
    rcases List.mem_cons.mp h with hh | hh
    · rw [hh]; exact le_max_left _ _
    · exact le_trans (ih hh) (le_max_right _ _)

theorem tokensOfGeometryList_eq_map (gs : List Geometry) :
    tokensOfGeometryList gs = gs.map tokensOfGeometry := by
  induction gs with
  | nil => rfl
  | cons g gs' ih => rw [tokensOfGeometryList, ih]; rfl

theorem joinComma_nil : joinComma [] = [] := rfl

theorem joinComma_single (l : List Token) : joinComma [l] = l := by
  simp [joinComma]

theorem joinComma_cons (l l2 : List Token) (ls : List (List Token)) :
    joinComma (l :: l2 :: ls) = l ++ Token.Comma :: joinComma (l2 :: ls) := by
  unfold joinComma
  rw [List.intersperse_cons_cons]
  simp

theorem joinComma_mem_le (ls : List (List Token)) (l : List Token) (h : l ∈ ls) :
    l.length ≤ (joinComma ls).length := by
  induction ls with
  | nil => simp at h
  | cons l0 ls' ih =>
    match ls' with
    | [] =>
      simp at h
      rw [h, joinComma_single]
    | l2 :: ls'' =>
      rw [joinComma_cons]
      simp only [List.length_append, List.length_cons]
      rcases List.mem_cons.mp h with hh | hh
      · rw [hh]; omega
      · have := ih hh
        omega

theorem joinComma_count_le (ls : List (List Token)) (h : ∀ l ∈ ls, l ≠ []) :
    ls.length ≤ (joinComma ls).length := by
  induction ls with
  | nil => simp
  | cons l0 ls' ih =>
    have h0 : 1 ≤ l0.length := by
      have := h l0 (by simp)
      cases l0
      · exact absurd rfl this
      · simp
    match ls' with
    | [] => simpa [joinComma_single] using h0
    | l2 :: ls'' =>
      rw [joinComma_cons]
      have := ih (fun l hl => h l (by simp [hl]))
      simp only [List.length_append, List.length_cons] at *
      omega

theorem tokensOfGeometry_ne (g : Geometry) : tokensOfGeometry g ≠ [] := by
  cases g <;> (rw [tokensOfGeometry.eq_def]; simp)

theorem coord_complete (c : Coord) (hz : c.z = none) (hm : c.m = none) (rest : List Token) :
    Coord.from_tokens (tokensOfCoord c ++ rest) = .ok (c, rest) := by
  have ht : tokensOfCoord c = [Token.Number c.x, Token.Number c.y] := by
    unfold tokensOfCoord
    rw [hz, hm]
    simp
  rw [ht]
  show Coord.from_tokens (Token.Number c.x :: Token.Number c.y :: rest) = .ok (c, rest)
  rw [Coord.from_tokens]
  have : ({x := c.x, y := c.y, z := none, m := none} : Coord) = c := by
    cases c
    simp at hz hm
    rw [hz, hm]
  rw [this]

theorem coordOpt_complete (c : Coord) (hz : c.z = none) (hm : c.m = none) (rest : List Token) :
    coordOptElem (tokensOfCoord c ++ rest) = .ok (some c, rest) := by
  unfold coordOptElem
  rw [coord_complete c hz hm rest]

theorem forall2_elemOk (elem : List Token → Except String (α × List Token))
    (f : β → α) (tf : β → List Token) (P : β → Prop)
    (hP : ∀ b, P b → ElemOk elem (f b) (tf b)) (l : List β) (hl : ∀ b ∈ l, P b) :
    List.Forall₂ (ElemOk elem) (l.map f) (l.map tf) := by
  induction l with
  | nil => simp
  | cons b l' ih =>
    simp only [List.map_cons]
    exact List.Forall₂.cons (hP b (hl b (by simp))) (ih (fun b' hb' => hl b' (by simp [hb'])))

theorem sepList_complete (elem : List Token → Except String (α × List Token)) :
    ∀ (xs : List α) (rs : List (List Token)),
      List.Forall₂ (ElemOk elem) xs rs → xs ≠ [] →
      ∀ (rest : List Token), (∀ t ts', rest = t :: ts' → t ≠ Token.Comma) →
      ∀ (fuel : ℕ), xs.length ≤ fuel + 1 →
      sepList elem fuel (joinComma rs ++ rest) = .ok (xs, rest) := by
  intro xs
  induction xs with
  | nil => intro rs hf hne; exact absurd rfl hne
  | cons x xs' ih =>
    intro rs hf hne rest hrest fuel hfuel
    match rs, hf with
    | r :: rs', List.Forall₂.cons hx htail =>
      match xs', rs', htail with
      | [], [], _ =>
        rw [joinComma_single]
        match fuel with
        | 0 =>
          rw [sepList]
          rw [hx rest]
          match rest, hrest with
          | [], _ => rfl
          | Token.Comma :: ts', hr => exact absurd rfl (hr Token.Comma ts' rfl)
          | Token.Word w :: ts', _ => rfl
          | Token.Number q :: ts', _ => rfl
          | Token.LParen :: ts', _ => rfl
          | Token.RParen :: ts', _ => rfl
        | f + 1 =>
          rw [sepList]
          rw [hx rest]
          match rest, hrest with
          | [], _ => rfl
          | Token.Comma :: ts', hr => exact absurd rfl (hr Token.Comma ts' rfl)
          | Token.Word w :: ts', _ => rfl
          | Token.Number q :: ts', _ => rfl
          | Token.LParen :: ts', _ => rfl
          | Token.RParen :: ts', _ => rfl
      | x2 :: xs'', r2 :: rs'', htail2 =>
        rw [joinComma_cons]
        match fuel with
        | 0 => simp at hfuel
        | f + 1 =>
          rw [sepList]
          rw [List.append_assoc, List.cons_append]
          rw [hx (Token.Comma :: (joinComma (r2 :: rs'') ++ rest))]
          have hrec := ih (r2 :: rs'') htail2 (by simp) rest hrest f (by simp at hfuel ⊢; omega)
          show (match sepList elem f (joinComma (r2 :: rs'') ++ rest) with
            | Except.ok (as, r) => Except.ok (x :: as, r)
            | Except.error e => (Except.error e : Except String (List α × List Token))) =
            Except.ok (x :: x2 :: xs'', rest)
          rw [hrec]

theorem parseParen_complete (elemList : List Token → Except String (α × List Token))
    (v : α) (inner rest : List Token)
    (hin : elemList (inner ++ (Token.RParen :: rest)) = .ok (v, Token.RParen :: rest)) :
    parseParen elemList ((Token.LParen :: (inner ++ [Token.RParen])) ++ rest) =
      .ok (v, rest) := by
  rw [List.cons_append, List.append_assoc]
  show parseParen elemList (Token.LParen :: (inner ++ ([Token.RParen] ++ rest))) = .ok (v, rest)
  rw [parseParen]
  rw [show [Token.RParen] ++ rest = Token.RParen :: rest from rfl, hin]

theorem parseBody_complete_empty (elemList : List Token → Except String (α × List Token))
    (ev : α) (rest : List Token) :
    parseBody elemList ev (Token.Word "EMPTY" :: rest) = .ok (ev, rest) := rfl

theorem parseBody_complete_paren (elemList : List Token → Except String (α × List Token))
    (ev v : α) (inner rest : List Token)
    (hin : elemList (inner ++ (Token.RParen :: rest)) = .ok (v, Token.RParen :: rest)) :
    parseBody elemList ev ((Token.LParen :: (inner ++ [Token.RParen])) ++ rest) =
      .ok (v, rest) := by
  have h2 := parseParen_complete elemList v inner rest hin
  exact h2

theorem body_list_complete (elem : List Token → Except String (α × List Token))
    (xs : List α) (rs : List (List Token)) (hf : List.Forall₂ (ElemOk elem) xs rs)
    (rest : List Token) (n : ℕ) (hn : xs.length ≤ n + 1) :
    parseBody (sepList elem n) [] (bodyTokens rs ++ rest) = .ok (xs, rest) := by
  match xs, rs, hf with
  | [], [], _ =>
    rw [show bodyTokens [] = [Token.Word "EMPTY"] from rfl]
    exact parseBody_complete_empty _ [] rest
  | x :: xs', r :: rs', hf =>
    rw [show bodyTokens (r :: rs') = Token.LParen :: (joinComma (r :: rs') ++ [Token.RParen])
      from rfl]
    refine parseBody_complete_paren _ [] (x :: xs') (joinComma (r :: rs')) rest ?_
    exact sepList_complete elem (x :: xs') (r :: rs') hf (by simp) (Token.RParen :: rest)
      (by intro t ts' ht; injection ht with h1 _; rw [← h1]; intro hc; cases hc) n hn

theorem ring_elemOk (n : ℕ) (r : List Coord) (hne : r ≠ []) (hg : ∀ c ∈ r, GoodC c)
    (hlen : r.length ≤ n + 1) : ElemOk (ringElem n) r (ringTokens r) := by
  intro rest'
  rw [show ringTokens r = Token.LParen :: (joinComma (r.map tokensOfCoord) ++ [Token.RParen])
    from rfl]
  unfold ringElem
  refine parseParen_complete _ r (joinComma (r.map tokensOfCoord)) rest' ?_
  have hf : List.Forall₂ (ElemOk Coord.from_tokens) (r.map id) (r.map tokensOfCoord) :=
    forall2_elemOk _ id tokensOfCoord GoodC
      (fun c hc => fun rest'' => coord_complete c hc.1 hc.2.1 rest'') r hg
  rw [List.map_id] at hf
  exact sepList_complete _ r _ hf hne (Token.RParen :: rest')
    (by intro t ts' ht; injection ht with h1 _; rw [← h1]; intro hc; cases hc) n
    (by omega)

theorem poly_elemOk (n : ℕ) (p : List (List Coord)) (hne : p ≠ [])
    (hg : ∀ r ∈ p, r ≠ [] ∧ ∀ c ∈ r, GoodC c)
    (hplen : p.length ≤ n + 1) (hrlen : ∀ r ∈ p, r.length ≤ n + 1) :
    ElemOk (polyElem n) p (polyTokens p) := by
  intro rest'
  rw [show polyTokens p = Token.LParen :: (joinComma (p.map ringTokens) ++ [Token.RParen])
    from rfl]
  unfold polyElem
  refine parseParen_complete _ p (joinComma (p.map ringTokens)) rest' ?_
  have hf : List.Forall₂ (ElemOk (ringElem n)) (p.map id) (p.map ringTokens) :=
    forall2_elemOk _ id ringTokens
      (fun r => (r ≠ [] ∧ ∀ c ∈ r, GoodC c) ∧ r.length ≤ n + 1)
      (fun r hr => ring_elemOk n r hr.1.1 hr.1.2 hr.2) p
      (fun r hr => ⟨hg r hr, hrlen r hr⟩)
  rw [List.map_id] at hf
  unfold polygonContent
  exact sepList_complete _ p _ hf hne (Token.RParen :: rest')
    (by intro t ts' ht; injection ht with h1 _; rw [← h1]; intro hc; cases hc) n
    (by omega)

theorem mpoint_elemOk (oc : Option Coord) (hg : ∀ c, oc = some c → GoodC c) :
    ElemOk multiPointElem oc (mpointElemTokens oc) := by
  intro rest'
  match oc with
  | none => rfl
  | some c =>
    rw [show mpointElemTokens (some c) = Token.LParen :: (tokensOfCoord c ++ [Token.RParen])
      from rfl]
    have hgc := hg c rfl
    show parseParen coordOptElem
      ((Token.LParen :: (tokensOfCoord c ++ [Token.RParen])) ++ rest') = .ok (some c, rest')
    exact parseParen_complete _ (some c) (tokensOfCoord c) rest'
      (coordOpt_complete c hgc.1 hgc.2.1 (Token.RParen :: rest'))

theorem step_point (recur : List Token → Except String (Geometry × List Token))
    (ts : List Token) : parseTaggedStep recur (Token.Word "POINT" :: ts) =
    (match parseBody coordOptElem none ts with
     | Except.ok (v, r) => Except.ok (Geometry.Point v, r)
     | Except.error e => Except.error e) := rfl

theorem step_linestring (recur : List Token → Except String (Geometry × List Token))
    (ts : List Token) : parseTaggedStep recur (Token.Word "LINESTRING" :: ts) =
    (match parseBody (sepList Coord.from_tokens ts.length) [] ts with
     | Except.ok (v, r) => Except.ok (Geometry.LineString v, r)
     | Except.error e => Except.error e) := rfl

theorem step_polygon (recur : List Token → Except String (Geometry × List Token))
    (ts : List Token) : parseTaggedStep recur (Token.Word "POLYGON" :: ts) =
    (match parseBody (polygonContent ts.length) [] ts with
     | Except.ok (v, r) => Except.ok (Geometry.Polygon v, r)
     | Except.error e => Except.error e) := rfl

theorem step_surface (recur : List Token → Except String (Geometry × List Token))
    (ts : List Token) : parseTaggedStep recur (Token.Word "POLYHEDRALSURFACE" :: ts) =
    (match parseBody (sepList (polyElem ts.length) ts.length) [] ts with
     | Except.ok (v, r) => Except.ok (Geometry.PolyhedralSurface v, r)
     | Except.error e => Except.error e) := rfl

theorem step_triangle (recur : List Token → Except String (Geometry × List Token))
    (ts : List Token) : parseTaggedStep recur (Token.Word "TRIANGLE" :: ts) =
    (match parseBody (polygonContent ts.length) [] ts with
     | Except.ok (v, r) => Except.ok (Geometry.Triangle v, r)
     | Except.error e => Except.error e) := rfl

theorem step_tin (recur : List Token → Except String (Geometry × List Token))
    (ts : List Token) : parseTaggedStep recur (Token.Word "TIN" :: ts) =
    (match parseBody (sepList (polyElem ts.length) ts.length) [] ts with
     | Except.ok (v, r) => Except.ok (Geometry.Tin v, r)
     | Except.error e => Except.error e) := rfl

theorem step_multipoint (recur : List Token → Except String (Geometry × List Token))
    (ts : List Token) : parseTaggedStep recur (Token.Word "MULTIPOINT" :: ts) =
    (match parseBody (sepList multiPointElem ts.length) [] ts with
     | Except.ok (v, r) => Except.ok (Geometry.MultiPoint v, r)
     | Except.error e => Except.error e) := rfl

theorem step_multilinestring (recur : List Token → Except String (Geometry × List Token))
    (ts : List Token) : parseTaggedStep recur (Token.Word "MULTILINESTRING" :: ts) =
    (match parseBody (sepList (ringElem ts.length) ts.length) [] ts with
     | Except.ok (v, r) => Except.ok (Geometry.MultiLineString v, r)
     | Except.error e => Except.error e) := rfl

theorem step_multipolygon (recur : List Token → Except String (Geometry × List Token))
    (ts : List Token) : parseTaggedStep recur (Token.Word "MULTIPOLYGON" :: ts) =
    (match parseBody (sepList (polyElem ts.length) ts.length) [] ts with
     | Except.ok (v, r) => Except.ok (Geometry.MultiPolygon v, r)
     | Except.error e => Except.error e) := rfl

theorem step_collection (recur : List Token → Except String (Geometry × List Token))
    (ts : List Token) : parseTaggedStep recur (Token.Word "GEOMETRYCOLLECTION" :: ts) =
    (match parseBody (sepList recur ts.length) [] ts with
     | Except.ok (v, r) => Except.ok (Geometry.GeometryCollection v, r)
     | Except.error e => Except.error e) := rfl

theorem tokensOfCoord_ne (c : Coord) : tokensOfCoord c ≠ [] := by
  unfold tokensOfCoord
  simp

theorem ringTokens_ne (r : List Coord) : ringTokens r ≠ [] := by
  unfold ringTokens
  simp

theorem polyTokens_ne (p : List (List Coord)) : polyTokens p ≠ [] := by
  unfold polyTokens
  simp

theorem mpointElemTokens_ne (oc : Option Coord) : mpointElemTokens oc ≠ [] := by
  cases oc <;> (unfold mpointElemTokens; simp)

theorem ring_count_le (r : List Coord) : r.length ≤ (ringTokens r).length := by
  have h := joinComma_count_le (r.map tokensOfCoord) (by
    intro l hl
    rw [List.mem_map] at hl
    obtain ⟨c, -, hc⟩ := hl
    rw [← hc]
    exact tokensOfCoord_ne c)
  rw [List.length_map] at h
  unfold ringTokens
  simp only [List.length_cons, List.length_append, List.length_singleton]
  omega

theorem joinComma_le_body (ls : List (List Token)) :
    (joinComma ls).length ≤ (bodyTokens ls).length := by
  match ls with
  | [] => rw [joinComma_nil]; simp
  | l :: ls' =>
    rw [show bodyTokens (l :: ls') =
      Token.LParen :: (joinComma (l :: ls') ++ [Token.RParen]) from rfl]
    simp
    omega

theorem poly_count_le (p : List (List Coord)) : p.length ≤ (polyTokens p).length := by
  have h := joinComma_count_le (p.map ringTokens) (by
    intro l hl
    rw [List.mem_map] at hl
    obtain ⟨r, -, hr⟩ := hl
    rw [← hr]
    exact ringTokens_ne r)
  rw [List.length_map] at h
  unfold polyTokens
  simp only [List.length_cons, List.length_append, List.length_singleton]
  omega

theorem poly_ring_le (p : List (List Coord)) (r : List Coord) (h : r ∈ p) :
    r.length ≤ (polyTokens p).length := by
  have h1 := ring_count_le r
  have h2 := joinComma_mem_le (p.map ringTokens) (ringTokens r) (List.mem_map_of_mem _ h)
  unfold polyTokens
  simp only [List.length_cons, List.length_append, List.length_singleton]
  omega

theorem parseTaggedStep_complete
    (recur : List Token → Except String (Geometry × List Token)) :
    ∀ g, GoodG g →
    (∀ gs, g = Geometry.GeometryCollection gs →
      ∀ g' ∈ gs, ∀ rest', recur (tokensOfGeometry g' ++ rest') = .ok (g', rest')) →
    ∀ rest, parseTaggedStep recur (tokensOfGeometry g ++ rest) = .ok (g, rest) := by
  intro g hg hrec rest
  match g with
  | .Point none =>
    rw [show tokensOfGeometry (Geometry.Point none) =
      Token.Word "POINT" :: [Token.Word "EMPTY"] from rfl]
    rw [List.cons_append, step_point]
    rw [show ([Token.Word "EMPTY"] : List Token) ++ rest = Token.Word "EMPTY" :: rest from rfl]
    rw [parseBody_complete_empty coordOptElem none rest]
  | .Point (some c) =>
    rw [GoodG] at hg
    rw [show tokensOfGeometry (Geometry.Point (some c)) = Token.Word "POINT" ::
      ((Token.LParen :: (tokensOfCoord c ++ [Token.RParen])) : List Token) from by
      rw [tokensOfGeometry]
      rw [show bodyTokens [tokensOfCoord c] =
        Token.LParen :: (joinComma [tokensOfCoord c] ++ [Token.RParen]) from by
        unfold bodyTokens
        rfl]
      rw [joinComma_single]]
    rw [List.cons_append, step_point]
    rw [parseBody_complete_paren coordOptElem none (some c) (tokensOfCoord c) rest
      (coordOpt_complete c hg.1 hg.2.1 (Token.RParen :: rest))]
  | .LineString cs =>
    rw [GoodG] at hg
    rw [show tokensOfGeometry (Geometry.LineString cs) =
      Token.Word "LINESTRING" :: bodyTokens (cs.map tokensOfCoord) from rfl]
    rw [List.cons_append, step_linestring]
    have hf : List.Forall₂ (ElemOk Coord.from_tokens) (cs.map id) (cs.map tokensOfCoord) :=
      forall2_elemOk _ id tokensOfCoord GoodC
        (fun c hc => fun rest'' => coord_complete c hc.1 hc.2.1 rest'') cs hg
    rw [List.map_id] at hf
    have hb : cs.length ≤ (bodyTokens (cs.map tokensOfCoord) ++ rest).length + 1 := by
      have h1 := joinComma_count_le (cs.map tokensOfCoord) (by
        intro l hl
        rw [List.mem_map] at hl
        obtain ⟨c, -, hc⟩ := hl
        rw [← hc]
        exact tokensOfCoord_ne c)
      have h2 := joinComma_le_body (cs.map tokensOfCoord)
      rw [List.length_map] at h1
      simp only [List.length_append]
      omega
    rw [body_list_complete Coord.from_tokens cs (cs.map tokensOfCoord) hf rest _ hb]
  | .Polygon rs =>
    rw [GoodG] at hg
    rw [show tokensOfGeometry (Geometry.Polygon rs) =
      Token.Word "POLYGON" :: bodyTokens (rs.map ringTokens) from rfl]
    rw [List.cons_append, step_polygon]
    have hlenbound : ∀ r ∈ rs, r.length ≤
        (bodyTokens (rs.map ringTokens) ++ rest).length + 1 := by
      intro r hr
      have h1 := ring_count_le r
      have h2 := joinComma_mem_le (rs.map ringTokens) (ringTokens r) (List.mem_map_of_mem _ hr)
      have h3 := joinComma_le_body (rs.map ringTokens)
      simp only [List.length_append]
      omega
    have hf : List.Forall₂ (ElemOk (ringElem (bodyTokens (rs.map ringTokens) ++ rest).length))
        (rs.map id) (rs.map ringTokens) :=
      forall2_elemOk _ id ringTokens
        (fun r => (r ≠ [] ∧ ∀ c ∈ r, GoodC c) ∧
          r.length ≤ (bodyTokens (rs.map ringTokens) ++ rest).length + 1)
        (fun r hr => ring_elemOk _ r hr.1.1 hr.1.2 hr.2) rs
        (fun r hr => ⟨hg r hr, hlenbound r hr⟩)
    rw [List.map_id] at hf
    have hb : rs.length ≤ (bodyTokens (rs.map ringTokens) ++ rest).length + 1 := by
      have h1 := joinComma_count_le (rs.map ringTokens) (by
        intro l hl
        rw [List.mem_map] at hl
        obtain ⟨r, -, hr⟩ := hl
        rw [← hr]
        exact ringTokens_ne r)
      have h2 := joinComma_le_body (rs.map ringTokens)
      rw [List.length_map] at h1
      simp only [List.length_append]
      omega
    rw [show polygonContent (bodyTokens (rs.map ringTokens) ++ rest).length =
      sepList (ringElem (bodyTokens (rs.map ringTokens) ++ rest).length)
        (bodyTokens (rs.map ringTokens) ++ rest).length from rfl]
    rw [body_list_complete _ rs (rs.map ringTokens) hf rest _ hb]
  | .Triangle rs =>
    rw [GoodG] at hg
    rw [show tokensOfGeometry (Geometry.Triangle rs) =
      Token.Word "TRIANGLE" :: bodyTokens (rs.map ringTokens) from rfl]
    rw [List.cons_append, step_triangle]
    have hlenbound : ∀ r ∈ rs, r.length ≤
        (bodyTokens (rs.map ringTokens) ++ rest).length + 1 := by
      intro r hr
      have h1 := ring_count_le r
      have h2 := joinComma_mem_le (rs.map ringTokens) (ringTokens r) (List.mem_map_of_mem _ hr)
      have h3 := joinComma_le_body (rs.map ringTokens)
      simp only [List.length_append]
      omega
    have hf : List.Forall₂ (ElemOk (ringElem (bodyTokens (rs.map ringTokens) ++ rest).length))
        (rs.map id) (rs.map ringTokens) :=
      forall2_elemOk _ id ringTokens
        (fun r => (r ≠ [] ∧ ∀ c ∈ r, GoodC c) ∧
          r.length ≤ (bodyTokens (rs.map ringTokens) ++ rest).length + 1)
        (fun r hr => ring_elemOk _ r hr.1.1 hr.1.2 hr.2) rs
        (fun r hr => ⟨hg r hr, hlenbound r hr⟩)
    rw [List.map_id] at hf
    have hb : rs.length ≤ (bodyTokens (rs.map ringTokens) ++ rest).length + 1 := by
      have h1 := joinComma_count_le (rs.map ringTokens) (by
        intro l hl
        rw [List.mem_map] at hl
        obtain ⟨r, -, hr⟩ := hl
        rw [← hr]
        exact ringTokens_ne r)
      have h2 := joinComma_le_body (rs.map ringTokens)
      rw [List.length_map] at h1
      simp only [List.length_append]
      omega
    rw [show polygonContent (bodyTokens (rs.map ringTokens) ++ rest).length =
      sepList (ringElem (bodyTokens (rs.map ringTokens) ++ rest).length)
        (bodyTokens (rs.map ringTokens) ++ rest).length from rfl]
    rw [body_list_complete _ rs (rs.map ringTokens) hf rest _ hb]
  | .MultiLineString rs =>
    rw [GoodG] at hg
    rw [show tokensOfGeometry (Geometry.MultiLineString rs) =
      Token.Word "MULTILINESTRING" :: bodyTokens (rs.map ringTokens) from rfl]
    rw [List.cons_append, step_multilinestring]
    have hlenbound : ∀ r ∈ rs, r.length ≤
        (bodyTokens (rs.map ringTokens) ++ rest).length + 1 := by
      intro r hr
      have h1 := ring_count_le r
      have h2 := joinComma_mem_le (rs.map ringTokens) (ringTokens r) (List.mem_map_of_mem _ hr)
      have h3 := joinComma_le_body (rs.map ringTokens)
      simp only [List.length_append]
      omega
    have hf : List.Forall₂ (ElemOk (ringElem (bodyTokens (rs.map ringTokens) ++ rest).length))
        (rs.map id) (rs.map ringTokens) :=
      forall2_elemOk _ id ringTokens
        (fun r => (r ≠ [] ∧ ∀ c ∈ r, GoodC c) ∧
          r.length ≤ (bodyTokens (rs.map ringTokens) ++ rest).length + 1)
        (fun r hr => ring_elemOk _ r hr.1.1 hr.1.2 hr.2) rs
        (fun r hr => ⟨hg r hr, hlenbound r hr⟩)
    rw [List.map_id] at hf
    have hb : rs.length ≤ (bodyTokens (rs.map ringTokens) ++ rest).length + 1 := by
      have h1 := joinComma_count_le (rs.map ringTokens) (by
        intro l hl
        rw [List.mem_map] at hl
        obtain ⟨r, -, hr⟩ := hl
        rw [← hr]
        exact ringTokens_ne r)
      have h2 := joinComma_le_body (rs.map ringTokens)
      rw [List.length_map] at h1
      simp only [List.length_append]
      omega
    rw [body_list_complete _ rs (rs.map ringTokens) hf rest _ hb]
  | .PolyhedralSurface ps =>
    rw [GoodG] at hg
    rw [show tokensOfGeometry (Geometry.PolyhedralSurface ps) =
      Token.Word "POLYHEDRALSURFACE" :: bodyTokens (ps.map polyTokens) from rfl]
    rw [List.cons_append, step_surface]
    have hpbound : ∀ p ∈ ps, p.length ≤
        (bodyTokens (ps.map polyTokens) ++ rest).length + 1 := by
      intro p hp
      have h1 := poly_count_le p
      have h2 := joinComma_mem_le (ps.map polyTokens) (polyTokens p) (List.mem_map_of_mem _ hp)
      have h3 := joinComma_le_body (ps.map polyTokens)
      simp only [List.length_append]
      omega
    have hrbound : ∀ p ∈ ps, ∀ r ∈ p, r.length ≤
        (bodyTokens (ps.map polyTokens) ++ rest).length + 1 := by
      intro p hp r hr
      have h1 := poly_ring_le p r hr
      have h2 := joinComma_mem_le (ps.map polyTokens) (polyTokens p) (List.mem_map_of_mem _ hp)
      have h3 := joinComma_le_body (ps.map polyTokens)
      simp only [List.length_append]
      omega
    have hf : List.Forall₂ (ElemOk (polyElem (bodyTokens (ps.map polyTokens) ++ rest).length))
        (ps.map id) (ps.map polyTokens) :=
      forall2_elemOk _ id polyTokens
        (fun p => (p ≠ [] ∧ ∀ r ∈ p, r ≠ [] ∧ ∀ c ∈ r, GoodC c) ∧
          p.length ≤ (bodyTokens (ps.map polyTokens) ++ rest).length + 1 ∧
          ∀ r ∈ p, r.length ≤ (bodyTokens (ps.map polyTokens) ++ rest).length + 1)
        (fun p hp => poly_elemOk _ p hp.1.1 hp.1.2 hp.2.1 hp.2.2) ps
        (fun p hp => ⟨hg p hp, hpbound p hp, hrbound p hp⟩)
    rw [List.map_id] at hf
    have hb : ps.length ≤ (bodyTokens (ps.map polyTokens) ++ rest).length + 1 := by
      have h1 := joinComma_count_le (ps.map polyTokens) (by
        intro l hl
        rw [List.mem_map] at hl
        obtain ⟨p, -, hp⟩ := hl
        rw [← hp]
        exact polyTokens_ne p)
      have h2 := joinComma_le_body (ps.map polyTokens)
      rw [List.length_map] at h1
      simp only [List.length_append]
      omega
    rw [body_list_complete _ ps (ps.map polyTokens) hf rest _ hb]
  | .Tin ps =>
    rw [GoodG] at hg
    rw [show tokensOfGeometry (Geometry.Tin ps) =
      Token.Word "TIN" :: bodyTokens (ps.map polyTokens) from rfl]
    rw [List.cons_append, step_tin]
    have hpbound : ∀ p ∈ ps, p.length ≤
        (bodyTokens (ps.map polyTokens) ++ rest).length + 1 := by
      intro p hp
      have h1 := poly_count_le p
      have h2 := joinComma_mem_le (ps.map polyTokens) (polyTokens p) (List.mem_map_of_mem _ hp)
      have h3 := joinComma_le_body (ps.map polyTokens)
      simp only [List.length_append]
      omega
    have hrbound : ∀ p ∈ ps, ∀ r ∈ p, r.length ≤
        (bodyTokens (ps.map polyTokens) ++ rest).length + 1 := by
      intro p hp r hr
      have h1 := poly_ring_le p r hr
      have h2 := joinComma_mem_le (ps.map polyTokens) (polyTokens p) (List.mem_map_of_mem _ hp)
      have h3 := joinComma_le_body (ps.map polyTokens)
      simp only [List.length_append]
      omega
    have hf : List.Forall₂ (ElemOk (polyElem (bodyTokens (ps.map polyTokens) ++ rest).length))
        (ps.map id) (ps.map polyTokens) :=
      forall2_elemOk _ id polyTokens
        (fun p => (p ≠ [] ∧ ∀ r ∈ p, r ≠ [] ∧ ∀ c ∈ r, GoodC c) ∧
          p.length ≤ (bodyTokens (ps.map polyTokens) ++ rest).length + 1 ∧
          ∀ r ∈ p, r.length ≤ (bodyTokens (ps.map polyTokens) ++ rest).length + 1)
        (fun p hp => poly_elemOk _ p hp.1.1 hp.1.2 hp.2.1 hp.2.2) ps
        (fun p hp => ⟨hg p hp, hpbound p hp, hrbound p hp⟩)
    rw [List.map_id] at hf
    have hb : ps.length ≤ (bodyTokens (ps.map polyTokens) ++ rest).length + 1 := by
      have h1 := joinComma_count_le (ps.map polyTokens) (by
        intro l hl
        rw [List.mem_map] at hl
        obtain ⟨p, -, hp⟩ := hl
        rw [← hp]
        exact polyTokens_ne p)
      have h2 := joinComma_le_body (ps.map polyTokens)
      rw [List.length_map] at h1
      simp only [List.length_append]
      omega
    rw [body_list_complete _ ps (ps.map polyTokens) hf rest _ hb]
  | .MultiPolygon ps =>
    rw [GoodG] at hg
    rw [show tokensOfGeometry (Geometry.MultiPolygon ps) =
      Token.Word "MULTIPOLYGON" :: bodyTokens (ps.map polyTokens) from rfl]
    rw [List.cons_append, step_multipolygon]
    have hpbound : ∀ p ∈ ps, p.length ≤
        (bodyTokens (ps.map polyTokens) ++ rest).length + 1 := by
      intro p hp
      have h1 := poly_count_le p
      have h2 := joinComma_mem_le (ps.map polyTokens) (polyTokens p) (List.mem_map_of_mem _ hp)
      have h3 := joinComma_le_body (ps.map polyTokens)
      simp only [List.length_append]
      omega
    have hrbound : ∀ p ∈ ps, ∀ r ∈ p, r.length ≤
        (bodyTokens (ps.map polyTokens) ++ rest).length + 1 := by
      intro p hp r hr
      have h1 := poly_ring_le p r hr
      have h2 := joinComma_mem_le (ps.map polyTokens) (polyTokens p) (List.mem_map_of_mem _ hp)
      have h3 := joinComma_le_body (ps.map polyTokens)
      simp only [List.length_append]
      omega
    have hf : List.Forall₂ (ElemOk (polyElem (bodyTokens (ps.map polyTokens) ++ rest).length))
        (ps.map id) (ps.map polyTokens) :=
      forall2_elemOk _ id polyTokens
        (fun p => (p ≠ [] ∧ ∀ r ∈ p, r ≠ [] ∧ ∀ c ∈ r, GoodC c) ∧
          p.length ≤ (bodyTokens (ps.map polyTokens) ++ rest).length + 1 ∧
          ∀ r ∈ p, r.length ≤ (bodyTokens (ps.map polyTokens) ++ rest).length + 1)
        (fun p hp => poly_elemOk _ p hp.1.1 hp.1.2 hp.2.1 hp.2.2) ps
        (fun p hp => ⟨hg p hp, hpbound p hp, hrbound p hp⟩)
    rw [List.map_id] at hf
    have hb : ps.length ≤ (bodyTokens (ps.map polyTokens) ++ rest).length + 1 := by
      have h1 := joinComma_count_le (ps.map polyTokens) (by
        intro l hl
        rw [List.mem_map] at hl
        obtain ⟨p, -, hp⟩ := hl
        rw [← hp]
        exact polyTokens_ne p)
      have h2 := joinComma_le_body (ps.map polyTokens)
      rw [List.length_map] at h1
      simp only [List.length_append]
      omega
    rw [body_list_complete _ ps (ps.map polyTokens) hf rest _ hb]
  | .MultiPoint ocs =>
    rw [GoodG] at hg
    rw [show tokensOfGeometry (Geometry.MultiPoint ocs) =
      Token.Word "MULTIPOINT" :: bodyTokens (ocs.map mpointElemTokens) from rfl]
    rw [List.cons_append, step_multipoint]
    have hf : List.Forall₂ (ElemOk multiPointElem) (ocs.map id) (ocs.map mpointElemTokens) :=
      forall2_elemOk _ id mpointElemTokens (fun oc => ∀ c, oc = some c → GoodC c)
        (fun oc hoc => mpoint_elemOk oc hoc) ocs hg
    rw [List.map_id] at hf
    have hb : ocs.length ≤ (bodyTokens (ocs.map mpointElemTokens) ++ rest).length + 1 := by
      have h1 := joinComma_count_le (ocs.map mpointElemTokens) (by
        intro l hl
        rw [List.mem_map] at hl
        obtain ⟨oc, -, hoc⟩ := hl
        rw [← hoc]
        exact mpointElemTokens_ne oc)
      have h2 := joinComma_le_body (ocs.map mpointElemTokens)
      rw [List.length_map] at h1
      simp only [List.length_append]
      omega
    rw [body_list_complete _ ocs (ocs.map mpointElemTokens) hf rest _ hb]
  | .GeometryCollection gs =>
    rw [show tokensOfGeometry (Geometry.GeometryCollection gs) =
      Token.Word "GEOMETRYCOLLECTION" :: bodyTokens (tokensOfGeometryList gs) from rfl]
    rw [tokensOfGeometryList_eq_map]
    rw [List.cons_append, step_collection]
    have hf : List.Forall₂ (ElemOk recur) (gs.map id) (gs.map tokensOfGeometry) :=
      forall2_elemOk _ id tokensOfGeometry
        (fun g' => ∀ rest', recur (tokensOfGeometry g' ++ rest') = .ok (g', rest'))
        (fun g' hg' => hg') gs (hrec gs rfl)
    rw [List.map_id] at hf
    have hb : gs.length ≤ (bodyTokens (gs.map tokensOfGeometry) ++ rest).length + 1 := by
      have h1 := joinComma_count_le (gs.map tokensOfGeometry) (by
        intro l hl
        rw [List.mem_map] at hl
        obtain ⟨g', -, hg'⟩ := hl
        rw [← hg']
        exact tokensOfGeometry_ne g')
      have h2 := joinComma_le_body (gs.map tokensOfGeometry)
      rw [List.length_map] at h1
      simp only [List.length_append]
      omega
    rw [body_list_complete _ gs (gs.map tokensOfGeometry) hf rest _ hb]

theorem depthGL_le (gs : List Geometry) (B : ℕ) (h : ∀ g ∈ gs, depthG g ≤ B) :
    depthGL gs ≤ B := by
  induction gs with
  | nil => rw [depthGL]; omega
  | cons g gs' ih =>
    rw [depthGL]
    have h1 := h g (by simp)
    have h2 := ih (fun g' hg' => h g' (by simp [hg']))
    omega

theorem depth_le_tokens : ∀ g, depthG g ≤ (tokensOfGeometry g).length := by
  have H : ∀ n g, sizeOf g ≤ n → depthG g ≤ (tokensOfGeometry g).length := by
    intro n
    induction n with
    | zero =>
      intro g h
      exact absurd h (by cases g <;> simp_arith)
    | succ n ih =>
      intro g hsz
      match g with
      | .GeometryCollection gs =>
        rw [show tokensOfGeometry (Geometry.GeometryCollection gs) =
          Token.Word "GEOMETRYCOLLECTION" :: bodyTokens (tokensOfGeometryList gs) from rfl,
          tokensOfGeometryList_eq_map]
        rw [depthG]
        simp only [List.length_cons]
        have hd : depthGL gs ≤ (bodyTokens (gs.map tokensOfGeometry)).length := by
          refine depthGL_le gs _ ?_
          intro g' hg'
          have h1 : sizeOf g' ≤ n := by
            have h2 := List.sizeOf_lt_of_mem hg'
            have hc : sizeOf (Geometry.GeometryCollection gs) = 1 + sizeOf gs := by
              simp
            omega
          calc depthG g' ≤ (tokensOfGeometry g').length := ih g' h1
          _ ≤ (joinComma (gs.map tokensOfGeometry)).length :=
              joinComma_mem_le _ _ (List.mem_map_of_mem _ hg')
          _ ≤ _ := joinComma_le_body _
        omega
      | .Point oc => exact Nat.zero_le _
      | .LineString cs => exact Nat.zero_le _
      | .Polygon rs => exact Nat.zero_le _
      | .PolyhedralSurface ps => exact Nat.zero_le _
      | .Triangle rs => exact Nat.zero_le _
      | .Tin ps => exact Nat.zero_le _
      | .MultiPoint ocs => exact Nat.zero_le _
      | .MultiLineString ls => exact Nat.zero_le _
      | .MultiPolygon ps => exact Nat.zero_le _
  intro g
  exact H (sizeOf g) g (Nat.le_refl _)

theorem parseTagged_complete : ∀ fuel g, GoodG g → depthG g ≤ fuel →
    ∀ rest, parseTagged fuel (tokensOfGeometry g ++ rest) = .ok (g, rest) := by
  intro fuel
  induction fuel with
  | zero =>
    intro g hg hd rest
    rw [show parseTagged 0 = parseTaggedStep recurOut from rfl]
    refine parseTaggedStep_complete recurOut g hg ?_ rest
    intro gs hgs
    exfalso
    rw [hgs] at hd
    rw [depthG] at hd
    omega
  | succ n ih =>
    intro g hg hd rest
    rw [show parseTagged (n + 1) = parseTaggedStep (parseTagged n) from rfl]
    refine parseTaggedStep_complete _ g hg ?_ rest
    intro gs hgs g' hg' rest'
    have hgood : GoodG g' := by
      rw [hgs] at hg
      rw [GoodG] at hg
      exact goodGL_mem gs hg g' hg'
    have hdep : depthG g' ≤ n := by
      rw [hgs] at hd
      rw [depthG] at hd
      have := depthGL_mem gs g' hg'
      omega
    exact ih g' hgood hdep rest'

theorem pTok_cons (t : Token) (ts : List Token)
    (ht : ∀ q, t = Token.Number q → IsDec q) (hts : PTok ts) : PTok (t :: ts) := by
  intro q hq
  rcases List.mem_cons.mp hq with hh | hh
  · exact ht q hh.symm
  · exact hts q hh

theorem isDec_neg (q : ℚ) (h : IsDec q) : IsDec (-q) := by
  obtain ⟨n, k, hq⟩ := h
  exact ⟨-n, k, by rw [hq]; push_cast; ring⟩

theorem scanUnsigned_isDec (cs : List Char) (q : ℚ) (rest : List Char)
    (h : scanUnsigned cs = (some q, rest)) : IsDec q := by
  unfold scanUnsigned at h
  split at h
  · exact absurd (congrArg Prod.fst h) (by simp)
  · rename_i r2 hdot hne
    have hv := congrArg Prod.fst h
    simp only at hv
    injection hv with hv2
    refine ⟨(digitsVal (cs.takeWhile Char.isDigit) : ℤ) * 10 ^ (r2.takeWhile Char.isDigit).length
      + (digitsVal (r2.takeWhile Char.isDigit) : ℤ), (r2.takeWhile Char.isDigit).length, ?_⟩
    rw [← hv2]
    have hp : ((10 : ℚ) ^ (r2.takeWhile Char.isDigit).length) ≠ 0 := by positivity
    push_cast
    field_simp
  · rename_i hne1 hne2
    have hv := congrArg Prod.fst h
    simp only at hv
    injection hv with hv2
    refine ⟨(digitsVal (cs.takeWhile Char.isDigit) : ℤ), 0, ?_⟩
    rw [← hv2]
    push_cast
    simp

theorem tokenizeStepF_sound (recur : List Char → Except String (List Token))
    (hrec : ∀ cs ts, recur cs = .ok ts → PTok ts) :
    ∀ c cs ts, tokenizeStepF recur c cs = .ok ts → PTok ts := by
  intro c cs ts h
  unfold tokenizeStepF at h
  repeat' split at h
  all_goals try exact Except.noConfusion h
  all_goals try exact hrec _ _ h
  all_goals injection h with h1
  all_goals subst h1
  all_goals refine pTok_cons _ _ ?_ (hrec _ _ (by assumption))
  all_goals first
    | exact fun q hq => Token.noConfusion hq
    | (intro q hq
       injection hq with h2
       rw [← h2]
       exact scanUnsigned_isDec _ _ _ (by assumption))
    | (intro q hq
       injection hq with h2
       rw [← h2]
       exact isDec_neg _ (scanUnsigned_isDec _ _ _ (by assumption)))

theorem tokenizeF_sound : ∀ fuel cs ts, tokenizeF fuel cs = .ok ts → PTok ts := by
  intro fuel
  induction fuel with
  | zero =>
    intro cs ts h
    match cs with
    | [] =>
      rw [tokenizeF_nil] at h
      injection h with h1
      subst h1
      intro q hq
      simp at hq
    | c :: cs' =>
      rw [tokenizeF_zero_cons] at h
      exact Except.noConfusion h
  | succ n ih =>
    intro cs ts h
    match cs with
    | [] =>
      rw [tokenizeF_nil] at h
      injection h with h1
      subst h1
      intro q hq
      simp at hq
    | c :: cs' =>
      rw [tokenizeF_succ] at h
      exact tokenizeStepF_sound _ ih c cs' ts h

theorem pTok_tail (t : Token) (ts : List Token) (h : PTok (t :: ts)) : PTok ts :=
  fun q hq => h q (by simp [hq])

theorem coord_sound : ∀ ts c rest, PTok ts → Coord.from_tokens ts = .ok (c, rest) →
    GoodC c ∧ PTok rest := by
  intro ts c rest hP h
  rw [Coord.from_tokens.eq_def] at h
  split at h
  · rename_i x y rest'
    injection h with h1
    injection h1 with h1 h2
    subst h2
    refine ⟨⟨?_, ?_, ?_, ?_⟩, ?_⟩
    · rw [← h1]
    · rw [← h1]
    · rw [← h1]
      exact hP x (by simp)
    · rw [← h1]
      exact hP y (by simp)
    · exact pTok_tail _ _ (pTok_tail _ _ hP)
  · exact Except.noConfusion h
  · exact Except.noConfusion h

theorem coordOpt_sound : ∀ ts oc rest, PTok ts → coordOptElem ts = .ok (oc, rest) →
    (∀ c, oc = some c → GoodC c) ∧ PTok rest := by
  intro ts oc rest hP h
  unfold coordOptElem at h
  split at h
  · rename_i c0 r0 heq
    injection h with h1
    injection h1 with h1 h2
    subst h2
    have hcs := coord_sound ts c0 r0 hP heq
    refine ⟨?_, hcs.2⟩
    intro c hc
    rw [← h1] at hc
    injection hc with hc
    rw [← hc]
    exact hcs.1
  · exact Except.noConfusion h

theorem sepList_sound (elem : List Token → Except String (α × List Token))
    (Good : α → Prop)
    (helem : ∀ ts a rest, PTok ts → elem ts = .ok (a, rest) → Good a ∧ PTok rest) :
    ∀ fuel ts xs rest, PTok ts → sepList elem fuel ts = .ok (xs, rest) →
      (∀ x ∈ xs, Good x) ∧ xs ≠ [] ∧ PTok rest := by
  intro fuel
  induction fuel with
  | zero =>
    intro ts xs rest hP h
    unfold sepList at h
    split at h
    · exact Except.noConfusion h
    · exact Except.noConfusion h
    · rename_i a ts1 hne heq
      injection h with h1
      injection h1 with h1 h2
      subst h2
      have hel := helem ts a ts1 hP heq
      refine ⟨?_, by rw [← h1]; simp, hel.2⟩
      intro x hx
      rw [← h1] at hx
      simp at hx
      rw [hx]
      exact hel.1
  | succ n ih =>
    intro ts xs rest hP h
    unfold sepList at h
    split at h
    · exact Except.noConfusion h
    · rename_i a ts2 heq
      split at h
      · rename_i as r heq2
        injection h with h1
        injection h1 with h1 h2
        subst h2
        have hel := helem ts a _ hP heq
        have hrec := ih ts2 as _ (pTok_tail _ _ hel.2) heq2
        refine ⟨?_, by rw [← h1]; simp, hrec.2.2⟩
        intro x hx
        rw [← h1] at hx
        rcases List.mem_cons.mp hx with hh | hh
        · rw [hh]
          exact hel.1
        · exact hrec.1 x hh
      · exact Except.noConfusion h
    · rename_i a ts1 hne heq
      injection h with h1
      injection h1 with h1 h2
      subst h2
      have hel := helem ts a ts1 hP heq
      refine ⟨?_, by rw [← h1]; simp, hel.2⟩
      intro x hx
      rw [← h1] at hx
      simp at hx
      rw [hx]
      exact hel.1

theorem parseParen_sound (elemList : List Token → Except String (α × List Token))
    (Good : α → Prop)
    (helem : ∀ ts a rest, PTok ts → elemList ts = .ok (a, rest) → Good a ∧ PTok rest) :
    ∀ ts v rest, PTok ts → parseParen elemList ts = .ok (v, rest) → Good v ∧ PTok rest := by
  intro ts v rest hP h
  rw [parseParen.eq_def] at h
  split at h
  · rename_i rest0
    split at h
    · rename_i v' rest2 heq
      injection h with h1
      injection h1 with h1 h2
      subst h2
      have hel := helem rest0 v' _ (pTok_tail _ _ hP) heq
      rw [← h1]
      exact ⟨hel.1, pTok_tail _ _ hel.2⟩
    · exact Except.noConfusion h
    · exact Except.noConfusion h
    · exact Except.noConfusion h
  · exact Except.noConfusion h
  · exact Except.noConfusion h

theorem parseBody_sound (elemList : List Token → Except String (α × List Token))
    (Good : α → Prop) (ev : α) (hev : Good ev)
    (helem : ∀ ts a rest, PTok ts → elemList ts = .ok (a, rest) → Good a ∧ PTok rest) :
    ∀ ts v rest, PTok ts → parseBody elemList ev ts = .ok (v, rest) → Good v ∧ PTok rest := by
  intro ts v rest hP h
  rw [parseBody.eq_def] at h
  split at h
  · rename_i w rest0
    split at h
    · injection h with h1
      injection h1 with h1 h2
      subst h2
      rw [← h1]
      exact ⟨hev, pTok_tail _ _ hP⟩
    · exact Except.noConfusion h
  · exact parseParen_sound elemList Good helem _ v rest hP h

theorem multiPointElem_sound : ∀ ts oc rest, PTok ts →
    multiPointElem ts = .ok (oc, rest) →
    (∀ c, oc = some c → GoodC c) ∧ PTok rest := by
  intro ts oc rest hP h
  rw [multiPointElem.eq_def] at h
  split at h
  · split at h
    · injection h with h1
      injection h1 with h1 h2
      subst h2
      rw [← h1]
      exact ⟨(fun c hc => by cases hc), pTok_tail _ _ hP⟩
    · exact Except.noConfusion h
  · exact parseParen_sound coordOptElem _ coordOpt_sound _ oc rest hP h
  · exact coordOpt_sound _ oc rest hP h

theorem goodG_point (oc : Option Coord) (h : ∀ c, oc = some c → GoodC c) :
    GoodG (Geometry.Point oc) := by
  cases oc with
  | none => rw [GoodG]; trivial
  | some c => rw [GoodG]; exact h c rfl

theorem ringElem_sound (n : ℕ) : ∀ ts r rest, PTok ts → ringElem n ts = .ok (r, rest) →
    (r ≠ [] ∧ ∀ c ∈ r, GoodC c) ∧ PTok rest :=
  parseParen_sound (sepList Coord.from_tokens n) (fun r => r ≠ [] ∧ ∀ c ∈ r, GoodC c)
    (fun ts a rest hP h =>
      (fun s => ⟨⟨s.2.1, s.1⟩, s.2.2⟩)
        (sepList_sound Coord.from_tokens GoodC coord_sound n ts a rest hP h))

theorem polygonContent_sound (n : ℕ) : ∀ ts v rest, PTok ts →
    polygonContent n ts = .ok (v, rest) →
    (∀ r ∈ v, r ≠ [] ∧ ∀ c ∈ r, GoodC c) ∧ v ≠ [] ∧ PTok rest :=
  sepList_sound (ringElem n) (fun r => r ≠ [] ∧ ∀ c ∈ r, GoodC c) (ringElem_sound n) n

theorem polyElem_sound (n : ℕ) : ∀ ts p rest, PTok ts → polyElem n ts = .ok (p, rest) →
    (p ≠ [] ∧ ∀ r ∈ p, r ≠ [] ∧ ∀ c ∈ r, GoodC c) ∧ PTok rest :=
  parseParen_sound (polygonContent n)
    (fun p => p ≠ [] ∧ ∀ r ∈ p, r ≠ [] ∧ ∀ c ∈ r, GoodC c)
    (fun ts a rest hP h =>
      (fun s => ⟨⟨s.2.1, s.1⟩, s.2.2⟩) (polygonContent_sound n ts a rest hP h))

theorem parseTaggedStep_sound
    (recur : List Token → Except String (Geometry × List Token))
    (hrecur : ∀ ts g rest, PTok ts → recur ts = .ok (g, rest) → GoodG g ∧ PTok rest) :
    ∀ ts g rest, PTok ts → parseTaggedStep recur ts = .ok (g, rest) →
      GoodG g ∧ PTok rest := by
  intro ts g rest hP h
  rw [parseTaggedStep.eq_def] at h
  split at h
  · rename_i w rest0
    have hP0 : PTok rest0 := pTok_tail _ _ hP
    split at h
    · -- POINT
      split at h
      · rename_i v r heq
        injection h with h1
        injection h1 with h1 h2
        subst h2
        have hs := parseBody_sound coordOptElem (fun oc => ∀ c, oc = some c → GoodC c)
          none (fun c hc => Option.noConfusion hc) coordOpt_sound rest0 v _ hP0 heq
        rw [← h1]
        exact ⟨goodG_point v hs.1, hs.2⟩
      · exact Except.noConfusion h
    · -- LINESTRING
      split at h
      · rename_i v r heq
        injection h with h1
        injection h1 with h1 h2
        subst h2
        have hs := parseBody_sound (sepList Coord.from_tokens rest0.length)
          (fun cs => ∀ c ∈ cs, GoodC c) [] (fun c hc => nomatch hc)
          (fun ts a rest hP hh =>
            (fun s => ⟨s.1, s.2.2⟩)
              (sepList_sound Coord.from_tokens GoodC coord_sound rest0.length ts a rest hP hh))
          rest0 v _ hP0 heq
        rw [← h1]
        refine ⟨?_, hs.2⟩
        rw [GoodG]
        exact hs.1
      · exact Except.noConfusion h
    · -- POLYGON
      split at h
      · rename_i v r heq
        injection h with h1
        injection h1 with h1 h2
        subst h2
        have hs := parseBody_sound (polygonContent rest0.length)
          (fun rs => ∀ r ∈ rs, r ≠ [] ∧ ∀ c ∈ r, GoodC c) [] (fun r hr => nomatch hr)
          (fun ts a rest hP hh =>
            (fun s => ⟨s.1, s.2.2⟩) (polygonContent_sound rest0.length ts a rest hP hh))
          rest0 v _ hP0 heq
        rw [← h1]
        refine ⟨?_, hs.2⟩
        rw [GoodG]
        exact hs.1
      · exact Except.noConfusion h
    · -- POLYHEDRALSURFACE
      split at h
      · rename_i v r heq
        injection h with h1
        injection h1 with h1 h2
        subst h2
        have hs := parseBody_sound (sepList (polyElem rest0.length) rest0.length)
          (fun ps => ∀ p ∈ ps, p ≠ [] ∧ ∀ r ∈ p, r ≠ [] ∧ ∀ c ∈ r, GoodC c)
          [] (fun p hp => nomatch hp)
          (fun ts a rest hP hh =>
            (fun s => ⟨s.1, s.2.2⟩)
              (sepList_sound (polyElem rest0.length) _ (polyElem_sound rest0.length)
                rest0.length ts a rest hP hh))
          rest0 v _ hP0 heq
        rw [← h1]
        refine ⟨?_, hs.2⟩
        rw [GoodG]
        exact hs.1
      · exact Except.noConfusion h
    · -- TRIANGLE
      split at h
      · rename_i v r heq
        injection h with h1
        injection h1 with h1 h2
        subst h2
        have hs := parseBody_sound (polygonContent rest0.length)
          (fun rs => ∀ r ∈ rs, r ≠ [] ∧ ∀ c ∈ r, GoodC c) [] (fun r hr => nomatch hr)
          (fun ts a rest hP hh =>
            (fun s => ⟨s.1, s.2.2⟩) (polygonContent_sound rest0.length ts a rest hP hh))
          rest0 v _ hP0 heq
        rw [← h1]
        refine ⟨?_, hs.2⟩
        rw [GoodG]
        exact hs.1
      · exact Except.noConfusion h
    · -- TIN
      split at h
      · rename_i v r heq
        injection h with h1
        injection h1 with h1 h2
        subst h2
        have hs := parseBody_sound (sepList (polyElem rest0.length) rest0.length)
          (fun ps => ∀ p ∈ ps, p ≠ [] ∧ ∀ r ∈ p, r ≠ [] ∧ ∀ c ∈ r, GoodC c)
          [] (fun p hp => nomatch hp)
          (fun ts a rest hP hh =>
            (fun s => ⟨s.1, s.2.2⟩)
              (sepList_sound (polyElem rest0.length) _ (polyElem_sound rest0.length)
                rest0.length ts a rest hP hh))
          rest0 v _ hP0 heq
        rw [← h1]
        refine ⟨?_, hs.2⟩
        rw [GoodG]
        exact hs.1
      · exact Except.noConfusion h
    · -- MULTIPOINT
      split at h
      · rename_i v r heq
        injection h with h1
        injection h1 with h1 h2
        subst h2
        have hs := parseBody_sound (sepList multiPointElem rest0.length)
          (fun ocs => ∀ oc ∈ ocs, ∀ c, oc = some c → GoodC c)
          [] (fun oc hoc => nomatch hoc)
          (fun ts a rest hP hh =>
            (fun s => ⟨s.1, s.2.2⟩)
              (sepList_sound multiPointElem (fun oc => ∀ c, oc = some c → GoodC c)
                multiPointElem_sound rest0.length ts a rest hP hh))
          rest0 v _ hP0 heq
        rw [← h1]
        refine ⟨?_, hs.2⟩
        rw [GoodG]
        exact hs.1
      · exact Except.noConfusion h
    · -- MULTILINESTRING
      split at h
      · rename_i v r heq
        injection h with h1
        injection h1 with h1 h2
        subst h2
        have hs := parseBody_sound (sepList (ringElem rest0.length) rest0.length)
          (fun rs => ∀ r ∈ rs, r ≠ [] ∧ ∀ c ∈ r, GoodC c) [] (fun r hr => nomatch hr)
          (fun ts a rest hP hh =>
            (fun s => ⟨s.1, s.2.2⟩)
              (sepList_sound (ringElem rest0.length) _ (ringElem_sound rest0.length)
                rest0.length ts a rest hP hh))
          rest0 v _ hP0 heq
        rw [← h1]
        refine ⟨?_, hs.2⟩
        rw [GoodG]
        exact hs.1
      · exact Except.noConfusion h
    · -- MULTIPOLYGON
      split at h
      · rename_i v r heq
        injection h with h1
        injection h1 with h1 h2
        subst h2
        have hs := parseBody_sound (sepList (polyElem rest0.length) rest0.length)
          (fun ps => ∀ p ∈ ps, p ≠ [] ∧ ∀ r ∈ p, r ≠ [] ∧ ∀ c ∈ r, GoodC c)
          [] (fun p hp => nomatch hp)
          (fun ts a rest hP hh =>
            (fun s => ⟨s.1, s.2.2⟩)
              (sepList_sound (polyElem rest0.length) _ (polyElem_sound rest0.length)
                rest0.length ts a rest hP hh))
          rest0 v _ hP0 heq
        rw [← h1]
        refine ⟨?_, hs.2⟩
        rw [GoodG]
        exact hs.1
      · exact Except.noConfusion h
    · -- GEOMETRYCOLLECTION
      split at h
      · rename_i v r heq
        injection h with h1
        injection h1 with h1 h2
        subst h2
        have hs := parseBody_sound (sepList recur rest0.length)
          (fun gs => ∀ g ∈ gs, GoodG g) [] (fun g hg => nomatch hg)
          (fun ts a rest hP hh =>
            (fun s => ⟨s.1, s.2.2⟩)
              (sepList_sound recur GoodG hrecur rest0.length ts a rest hP hh))
          rest0 v _ hP0 heq
        rw [← h1]
        refine ⟨?_, hs.2⟩
        rw [GoodG]
        exact goodGL_of_mem v hs.1
      · exact Except.noConfusion h
    · exact Except.noConfusion h
  · exact Except.noConfusion h
  · exact Except.noConfusion h

theorem parseTagged_sound : ∀ fuel ts g rest, PTok ts →
    parseTagged fuel ts = .ok (g, rest) → GoodG g ∧ PTok rest := by
  intro fuel
  induction fuel with
  | zero =>
    exact parseTaggedStep_sound recurOut
      (fun ts g rest hP h => Except.noConfusion h)
  | succ n ih =>
    exact parseTaggedStep_sound (parseTagged n) ih

theorem mem_intersperse_lists : ∀ (ls : List (List Token)) (l : List Token),
    l ∈ List.intersperse [Token.Comma] ls → l = [Token.Comma] ∨ l ∈ ls := by
  intro ls
  induction ls with
  | nil => intro l h; exact absurd h (by simp [List.intersperse])
  | cons x xs ih =>
    intro l h
    match xs with
    | [] =>
      rw [show List.intersperse [Token.Comma] [x] = [x] from rfl] at h
      simp at h
      exact Or.inr (by simp [h])
    | y :: ys =>
      rw [show List.intersperse [Token.Comma] (x :: y :: ys) =
        x :: [Token.Comma] :: List.intersperse [Token.Comma] (y :: ys) from rfl] at h
      rcases List.mem_cons.mp h with h1 | h1
      · exact Or.inr (by simp [h1])
      rcases List.mem_cons.mp h1 with h2 | h2
      · exact Or.inl h2
      · rcases ih l h2 with h3 | h3
        · exact Or.inl h3
        · exact Or.inr (by simp [h3])

theorem joinComma_valid (ls : List (List Token))
    (h : ∀ l ∈ ls, ∀ t ∈ l, ValidTok t) : ∀ t ∈ joinComma ls, ValidTok t := by
  intro t ht
  rw [joinComma] at ht
  rcases List.mem_flatten.mp ht with ⟨l, hl, htl⟩
  rcases mem_intersperse_lists ls l hl with h1 | h1
  · rw [h1] at htl
    simp at htl
    rw [htl]
    trivial
  · exact h l h1 t htl

theorem bodyTokens_valid (elems : List (List Token))
    (h : ∀ l ∈ elems, ∀ t ∈ l, ValidTok t) : ∀ t ∈ bodyTokens elems, ValidTok t := by
  intro t ht
  rw [bodyTokens.eq_def] at ht
  split at ht
  · simp at ht
    rw [ht]
    exact ⟨by decide, by decide⟩
  · rcases List.mem_cons.mp ht with h1 | h1
    · rw [h1]; trivial
    rcases List.mem_append.mp h1 with h2 | h2
    · exact joinComma_valid elems h t h2
    · simp at h2; rw [h2]; trivial

theorem tokensOfCoord_valid (c : Coord) (hc : GoodC c) :
    ∀ t ∈ tokensOfCoord c, ValidTok t := by
  intro t ht
  rw [tokensOfCoord, hc.1, hc.2.1] at ht
  simp at ht
  rcases ht with h1 | h1 <;> rw [h1]
  · exact hc.2.2.1
  · exact hc.2.2.2

theorem ringTokens_valid (r : List Coord) (hr : ∀ c ∈ r, GoodC c) :
    ∀ t ∈ ringTokens r, ValidTok t := by
  intro t ht
  rw [ringTokens] at ht
  rcases List.mem_cons.mp ht with h1 | h1
  · rw [h1]; trivial
  rcases List.mem_append.mp h1 with h2 | h2
  · refine joinComma_valid _ ?_ t h2
    intro l hl t' ht'
    rcases List.mem_map.mp hl with ⟨c, hcr, hcl⟩
    rw [← hcl] at ht'
    exact tokensOfCoord_valid c (hr c hcr) t' ht'
  · simp at h2; rw [h2]; trivial

theorem polyTokens_valid (p : List (List Coord)) (hp : ∀ r ∈ p, ∀ c ∈ r, GoodC c) :
    ∀ t ∈ polyTokens p, ValidTok t := by
  intro t ht
  rw [polyTokens] at ht
  rcases List.mem_cons.mp ht with h1 | h1
  · rw [h1]; trivial
  rcases List.mem_append.mp h1 with h2 | h2
  · refine joinComma_valid _ ?_ t h2
    intro l hl t' ht'
    rcases List.mem_map.mp hl with ⟨r, hrp, hrl⟩
    rw [← hrl] at ht'
    exact ringTokens_valid r (hp r hrp) t' ht'
  · simp at h2; rw [h2]; trivial

theorem mpointElemTokens_valid (oc : Option Coord) (h : ∀ c, oc = some c → GoodC c) :
    ∀ t ∈ mpointElemTokens oc, ValidTok t := by
  cases oc with
  | none =>
    intro t ht
    rw [mpointElemTokens] at ht
    simp at ht
    rw [ht]
    exact ⟨by decide, by decide⟩
  | some c =>
    intro t ht
    rw [mpointElemTokens] at ht
    rcases List.mem_cons.mp ht with h1 | h1
    · rw [h1]; trivial
    rcases List.mem_append.mp h1 with h2 | h2
    · exact tokensOfCoord_valid c (h c rfl) t h2
    · simp at h2; rw [h2]; trivial

theorem tokensOfGeometry_valid : ∀ g, GoodG g → ∀ t ∈ tokensOfGeometry g, ValidTok t := by
  have H : ∀ n g, sizeOf g ≤ n → GoodG g → ∀ t ∈ tokensOfGeometry g, ValidTok t := by
    intro n
    induction n with
    | zero =>
      intro g h
      exact absurd h (by cases g <;> simp_arith)
    | succ n ih =>
      intro g hsz hg t ht
      match g, hg with
      | .Point none, hg =>
        rw [show tokensOfGeometry (Geometry.Point none) =
          [Token.Word "POINT", Token.Word "EMPTY"] from rfl] at ht
        simp at ht
        rcases ht with h1 | h1 <;> (rw [h1]; exact ⟨by decide, by decide⟩)
      | .Point (some c), hg =>
        rw [show tokensOfGeometry (Geometry.Point (some c)) = Token.Word "POINT" ::
          bodyTokens [tokensOfCoord c] from rfl] at ht
        rcases List.mem_cons.mp ht with h1 | h1
        · rw [h1]; exact ⟨by decide, by decide⟩
        · refine bodyTokens_valid _ ?_ t h1
          intro l hl t' ht'
          simp at hl
          rw [hl] at ht'
          exact tokensOfCoord_valid c hg t' ht'
      | .LineString cs, hg =>
        rw [show tokensOfGeometry (Geometry.LineString cs) =
          Token.Word "LINESTRING" :: bodyTokens (cs.map tokensOfCoord) from rfl] at ht
        rcases List.mem_cons.mp ht with h1 | h1
        · rw [h1]; exact ⟨by decide, by decide⟩
        · refine bodyTokens_valid _ ?_ t h1
          intro l hl t' ht'
          rcases List.mem_map.mp hl with ⟨c, hcr, hcl⟩
          rw [← hcl] at ht'
          exact tokensOfCoord_valid c (hg c hcr) t' ht'
      | .Polygon rs, hg =>
        rw [show tokensOfGeometry (Geometry.Polygon rs) =
          Token.Word "POLYGON" :: bodyTokens (rs.map ringTokens) from rfl] at ht
        rcases List.mem_cons.mp ht with h1 | h1
        · rw [h1]; exact ⟨by decide, by decide⟩
        · refine bodyTokens_valid _ ?_ t h1
          intro l hl t' ht'
          rcases List.mem_map.mp hl with ⟨r, hrp, hrl⟩
          rw [← hrl] at ht'
          exact ringTokens_valid r (hg r hrp).2 t' ht'
      | .PolyhedralSurface ps, hg =>
        rw [show tokensOfGeometry (Geometry.PolyhedralSurface ps) =
          Token.Word "POLYHEDRALSURFACE" :: bodyTokens (ps.map polyTokens) from rfl] at ht
        rcases List.mem_cons.mp ht with h1 | h1
        · rw [h1]; exact ⟨by decide, by decide⟩
        · refine bodyTokens_valid _ ?_ t h1
          intro l hl t' ht'
          rcases List.mem_map.mp hl with ⟨p, hpp, hpl⟩
          rw [← hpl] at ht'
          exact polyTokens_valid p (fun r hr => ((hg p hpp).2 r hr).2) t' ht'
      | .Triangle rs, hg =>
        rw [show tokensOfGeometry (Geometry.Triangle rs) =
          Token.Word "TRIANGLE" :: bodyTokens (rs.map ringTokens) from rfl] at ht
        rcases List.mem_cons.mp ht with h1 | h1
        · rw [h1]; exact ⟨by decide, by decide⟩
        · refine bodyTokens_valid _ ?_ t h1
          intro l hl t' ht'
          rcases List.mem_map.mp hl with ⟨r, hrp, hrl⟩
          rw [← hrl] at ht'
          exact ringTokens_valid r (hg r hrp).2 t' ht'
      | .Tin ps, hg =>
        rw [show tokensOfGeometry (Geometry.Tin ps) =
          Token.Word "TIN" :: bodyTokens (ps.map polyTokens) from rfl] at ht
        rcases List.mem_cons.mp ht with h1 | h1
        · rw [h1]; exact ⟨by decide, by decide⟩
        · refine bodyTokens_valid _ ?_ t h1
          intro l hl t' ht'
          rcases List.mem_map.mp hl with ⟨p, hpp, hpl⟩
          rw [← hpl] at ht'
          exact polyTokens_valid p (fun r hr => ((hg p hpp).2 r hr).2) t' ht'
      | .MultiPoint ocs, hg =>
        rw [show tokensOfGeometry (Geometry.MultiPoint ocs) =
          Token.Word "MULTIPOINT" :: bodyTokens (ocs.map mpointElemTokens) from rfl] at ht
        rcases List.mem_cons.mp ht with h1 | h1
        · rw [h1]; exact ⟨by decide, by decide⟩
        · refine bodyTokens_valid _ ?_ t h1
          intro l hl t' ht'
          rcases List.mem_map.mp hl with ⟨oc, hoc, hocl⟩
          rw [← hocl] at ht'
          exact mpointElemTokens_valid oc (hg oc hoc) t' ht'
      | .MultiLineString ls, hg =>
        rw [show tokensOfGeometry (Geometry.MultiLineString ls) =
          Token.Word "MULTILINESTRING" :: bodyTokens (ls.map ringTokens) from rfl] at ht
        rcases List.mem_cons.mp ht with h1 | h1
        · rw [h1]; exact ⟨by decide, by decide⟩
        · refine bodyTokens_valid _ ?_ t h1
          intro l hl t' ht'
          rcases List.mem_map.mp hl with ⟨r, hrp, hrl⟩
          rw [← hrl] at ht'
          exact ringTokens_valid r (hg r hrp).2 t' ht'
      | .MultiPolygon ps, hg =>
        rw [show tokensOfGeometry (Geometry.MultiPolygon ps) =
          Token.Word "MULTIPOLYGON" :: bodyTokens (ps.map polyTokens) from rfl] at ht
        rcases List.mem_cons.mp ht with h1 | h1
        · rw [h1]; exact ⟨by decide, by decide⟩
        · refine bodyTokens_valid _ ?_ t h1
          intro l hl t' ht'
          rcases List.mem_map.mp hl with ⟨p, hpp, hpl⟩
          rw [← hpl] at ht'
          exact polyTokens_valid p (fun r hr => ((hg p hpp).2 r hr).2) t' ht'
      | .GeometryCollection gs, hg =>
        rw [show tokensOfGeometry (Geometry.GeometryCollection gs) =
          Token.Word "GEOMETRYCOLLECTION" :: bodyTokens (tokensOfGeometryList gs) from rfl,
          tokensOfGeometryList_eq_map] at ht
        rcases List.mem_cons.mp ht with h1 | h1
        · rw [h1]; exact ⟨by decide, by decide⟩
        · refine bodyTokens_valid _ ?_ t h1
          intro l hl t' ht'
          rcases List.mem_map.mp hl with ⟨g', hg', hgl⟩
          rw [← hgl] at ht'
          have h1 : sizeOf g' ≤ n := by
            have h2 := List.sizeOf_lt_of_mem hg'
            have hc : sizeOf (Geometry.GeometryCollection gs) = 1 + sizeOf gs := by
              simp
            omega
          exact ih g' h1 (goodGL_mem gs hg g' hg') t' ht'
  exact fun g => H (sizeOf g) g (Nat.le_refl _)

theorem parse_good : ∀ s g, parse_GeometryTaggedText s = .ok g → GoodG g := by
  intro s g h
  unfold parse_GeometryTaggedText at h
  split at h
  · exact Except.noConfusion h
  · rename_i ts hts
    split at h
    · rename_i g' rest heq
      injection h with h1
      have hP : PTok ts := tokenizeF_sound s.data.length s.data ts hts
      have hs := parseTagged_sound (ts.length + 1) ts g' rest hP heq
      rw [← h1]
      exact hs.1
    · exact Except.noConfusion h

theorem parse_of_serialize (g : Geometry) (hg : GoodG g) :
    parse_GeometryTaggedText (serialize g) = .ok g := by
  have hv := tokensOfGeometry_valid g hg
  have hr := render_tokOk (tokensOfGeometry g) hv
  have htok : tokenize (serialize g).data = .ok (tokensOfGeometry g) :=
    hr (serialize g).data.length (Nat.le_refl _)
  have hparse : parseTagged ((tokensOfGeometry g).length + 1) (tokensOfGeometry g) =
      .ok (g, []) := by
    have hc := parseTagged_complete ((tokensOfGeometry g).length + 1) g hg
      (le_trans (depth_le_tokens g) (Nat.le_succ _)) []
    rw [List.append_nil] at hc
    exact hc
  unfold parse_GeometryTaggedText
  rw [htok]
  show (match parseTagged ((tokensOfGeometry g).length + 1) (tokensOfGeometry g) with
    | Except.ok (g', _) => Except.ok g'
    | Except.error e => Except.error e) = Except.ok g
  rw [hparse]

/-- C6: the parse–serialize–parse round-trip is the identity on parse
results: whenever parsing a text yields a geometry, serializing that
geometry and parsing the serialized text yields a geometry equal to the
original, ordinate by ordinate.  In this code every coordinate the
parser can produce has exactly two ordinates (`Coord = (f64, f64)`), so
the coordinate counts 3 and 4 of the spec's quantification are
uninhabited here and the round-trip holds for every parseable
geometry. -/
theorem parse_serialize_parse_roundtrip (s : String) (g : Geometry)
    (h : parse_GeometryTaggedText s = .ok g) :
    parse_GeometryTaggedText (serialize g) = .ok g :=
  parse_of_serialize g (parse_good s g h)

/-- C6 witness: the round-trip at the concrete input `POINT (10 -20)`. -/
theorem parse_serialize_parse_roundtrip_witness :
    parse_GeometryTaggedText "POINT (10 -20)" =
      .ok (Geometry.Point (some {x := 10, y := -20, z := none, m := none})) ∧
    parse_GeometryTaggedText
      (serialize (Geometry.Point (some {x := 10, y := -20, z := none, m := none}))) =
      .ok (Geometry.Point (some {x := 10, y := -20, z := none, m := none})) :=
  ⟨rfl, parse_serialize_parse_roundtrip "POINT (10 -20)" _ rfl⟩

theorem toNat_ofNat_valid (n : ℕ) (h : n.isValidChar) : (Char.ofNat n).toNat = n := by
  rw [Char.ofNat, dif_pos h]
  rfl

theorem toUpper_toNat (c : Char) :
    (Char.toUpper c).toNat =
      if 97 ≤ c.toNat ∧ c.toNat ≤ 122 then c.toNat - 32 else c.toNat := by
  show (if c.toNat ≥ 97 ∧ c.toNat ≤ 122 then Char.ofNat (c.toNat - 32) else c).toNat = _
  by_cases h : 97 ≤ c.toNat ∧ c.toNat ≤ 122
  · rw [if_pos h, if_pos h]
    exact toNat_ofNat_valid _ (Or.inl (by omega))
  · rw [if_neg h, if_neg h]

theorem caseEqC_refl (c : Char) : caseEqC c c := rfl

theorem caseEqC_alpha (c c' : Char) (h : caseEqC c c') : c.isAlpha = c'.isAlpha := by
  have h1 := congrArg Char.toNat h
  rw [toUpper_toNat, toUpper_toNat] at h1
  by_cases hc : c.isAlpha = true <;> by_cases hc' : c'.isAlpha = true
  · rw [hc, hc']
  · exfalso
    have ha := (isAlpha_iff c).mp hc
    have hna : ¬(65 ≤ c'.toNat ∧ c'.toNat ≤ 90 ∨ 97 ≤ c'.toNat ∧ c'.toNat ≤ 122) :=
      fun hh => hc' ((isAlpha_iff c').mpr hh)
    split at h1 <;> split at h1 <;> omega
  · exfalso
    have ha := (isAlpha_iff c').mp hc'
    have hna : ¬(65 ≤ c.toNat ∧ c.toNat ≤ 90 ∨ 97 ≤ c.toNat ∧ c.toNat ≤ 122) :=
      fun hh => hc ((isAlpha_iff c).mpr hh)
    split at h1 <;> split at h1 <;> omega
  · rw [Bool.not_eq_true] at hc hc'
    rw [hc, hc']

theorem caseEqC_symm (c c' : Char) (h : caseEqC c c') : caseEqC c' c := h.symm

theorem caseEqC_eq_of_not_alpha (c c' : Char) (h : caseEqC c c')
    (ha : c.isAlpha = false) : c = c' := by
  have ha' : c'.isAlpha = false := by rw [← caseEqC_alpha c c' h]; exact ha
  have h1 := congrArg Char.toNat h
  rw [toUpper_toNat, toUpper_toNat] at h1
  rw [← Bool.not_eq_true, isAlpha_iff] at ha ha'
  rw [if_neg (by omega), if_neg (by omega)] at h1
  exact (char_eq_iff_toNat c c').mpr h1

theorem tokCaseEq_number (q : ℚ) (t : Token) (h : tokCaseEq (Token.Number q) t) :
    t = Token.Number q := by
  cases t with
  | Word w => exact Token.noConfusion h
  | Number q' => exact h.symm
  | Comma => exact Token.noConfusion h
  | LParen => exact Token.noConfusion h
  | RParen => exact Token.noConfusion h

theorem tokCaseEq_comma (t : Token) (h : tokCaseEq Token.Comma t) : t = Token.Comma := by
  cases t with
  | Word w => exact Token.noConfusion h
  | Number q' => exact Token.noConfusion h
  | Comma => rfl
  | LParen => exact Token.noConfusion h
  | RParen => exact Token.noConfusion h

theorem tokCaseEq_lparen (t : Token) (h : tokCaseEq Token.LParen t) : t = Token.LParen := by
  cases t with
  | Word w => exact Token.noConfusion h
  | Number q' => exact Token.noConfusion h
  | Comma => exact Token.noConfusion h
  | LParen => rfl
  | RParen => exact Token.noConfusion h

theorem tokCaseEq_rparen (t : Token) (h : tokCaseEq Token.RParen t) : t = Token.RParen := by
  cases t with
  | Word w => exact Token.noConfusion h
  | Number q' => exact Token.noConfusion h
  | Comma => exact Token.noConfusion h
  | LParen => exact Token.noConfusion h
  | RParen => rfl

theorem tokCaseEq_word (w : String) (t : Token) (h : tokCaseEq (Token.Word w) t) :
    ∃ w', t = Token.Word w' ∧ strUpper w = strUpper w' := by
  cases t with
  | Word w' => exact ⟨w', rfl, h⟩
  | Number q' => exact Token.noConfusion h
  | Comma => exact Token.noConfusion h
  | LParen => exact Token.noConfusion h
  | RParen => exact Token.noConfusion h

theorem scanUnsigned_eq_none (cs : List Char) (h : cs.takeWhile Char.isDigit = []) :
    scanUnsigned cs = (none, cs) := by
  unfold scanUnsigned
  split
  · rfl
  · rename_i a b c d
    exact absurd h d
  · rename_i a b c
    exact absurd h b

theorem scanUnsigned_eq_dot (cs : List Char) (r2 : List Char)
    (hne : cs.takeWhile Char.isDigit ≠ [])
    (hdot : cs.dropWhile Char.isDigit = '.' :: r2) :
    scanUnsigned cs = (some ((digitsVal (cs.takeWhile Char.isDigit) : ℚ) +
        (digitsVal (r2.takeWhile Char.isDigit) : ℚ) / 10 ^ (r2.takeWhile Char.isDigit).length),
      r2.dropWhile Char.isDigit) := by
  unfold scanUnsigned
  split
  · rename_i a b
    exact absurd b hne
  · rename_i a b c d
    have hb : b = r2 := by
      rw [c] at hdot
      injection hdot
    rw [hb]
  · rename_i a b c
    exact absurd hdot (c r2)

theorem scanUnsigned_eq_plain (cs : List Char)
    (hne : cs.takeWhile Char.isDigit ≠ [])
    (hnd : ∀ r2, cs.dropWhile Char.isDigit ≠ '.' :: r2) :
    scanUnsigned cs = (some ((digitsVal (cs.takeWhile Char.isDigit) : ℚ)),
      cs.dropWhile Char.isDigit) := by
  unfold scanUnsigned
  split
  · rename_i a b
    exact absurd b hne
  · rename_i a b c d
    exact absurd c (hnd b)
  · rfl

theorem caseEq_digit_take : ∀ cs cs', List.Forall₂ caseEqC cs cs' →
    cs.takeWhile Char.isDigit = cs'.takeWhile Char.isDigit ∧
    List.Forall₂ caseEqC (cs.dropWhile Char.isDigit) (cs'.dropWhile Char.isDigit) := by
  intro cs cs' h
  induction h with
  | nil => exact ⟨rfl, List.Forall₂.nil⟩
  | cons hc htail ih =>
    rename_i c c' l l'
    by_cases hd : c.isDigit = true
    · have hce := caseEqC_eq_of_not_alpha c c' hc (digit_not_alpha c hd)
      subst hce
      rw [List.takeWhile_cons_of_pos hd, List.takeWhile_cons_of_pos hd,
        List.dropWhile_cons_of_pos hd, List.dropWhile_cons_of_pos hd]
      exact ⟨by rw [ih.1], ih.2⟩
    · have hd' : ¬(c'.isDigit = true) := by
        intro h2
        have he := caseEqC_eq_of_not_alpha c' c (caseEqC_symm c c' hc) (digit_not_alpha c' h2)
        rw [he] at h2
        exact hd h2
      rw [List.takeWhile_cons_of_neg hd, List.takeWhile_cons_of_neg hd',
        List.dropWhile_cons_of_neg hd, List.dropWhile_cons_of_neg hd']
      exact ⟨rfl, List.Forall₂.cons hc htail⟩

theorem caseEq_alpha_take : ∀ cs cs', List.Forall₂ caseEqC cs cs' →
    List.Forall₂ caseEqC (cs.takeWhile Char.isAlpha) (cs'.takeWhile Char.isAlpha) ∧
    List.Forall₂ caseEqC (cs.dropWhile Char.isAlpha) (cs'.dropWhile Char.isAlpha) := by
  intro cs cs' h
  induction h with
  | nil => exact ⟨List.Forall₂.nil, List.Forall₂.nil⟩
  | cons hc htail ih =>
    rename_i c c' l l'
    by_cases ha : c.isAlpha = true
    · have ha' : c'.isAlpha = true := by rw [← caseEqC_alpha c c' hc]; exact ha
      rw [List.takeWhile_cons_of_pos ha, List.takeWhile_cons_of_pos ha',
        List.dropWhile_cons_of_pos ha, List.dropWhile_cons_of_pos ha']
      exact ⟨List.Forall₂.cons hc ih.1, ih.2⟩
    · have ha' : ¬(c'.isAlpha = true) := by rw [← caseEqC_alpha c c' hc]; exact ha
      rw [List.takeWhile_cons_of_neg ha, List.takeWhile_cons_of_neg ha',
        List.dropWhile_cons_of_neg ha, List.dropWhile_cons_of_neg ha']
      exact ⟨List.Forall₂.nil, List.Forall₂.cons hc htail⟩

theorem scanUnsigned_rel (cs cs' : List Char) (h : List.Forall₂ caseEqC cs cs') :
    (scanUnsigned cs).1 = (scanUnsigned cs').1 ∧
    List.Forall₂ caseEqC (scanUnsigned cs).2 (scanUnsigned cs').2 := by
  obtain ⟨hteq, hdrel⟩ := caseEq_digit_take cs cs' h
  by_cases hnil : cs.takeWhile Char.isDigit = []
  · have hnil' : cs'.takeWhile Char.isDigit = [] := by rw [← hteq]; exact hnil
    rw [scanUnsigned_eq_none cs hnil, scanUnsigned_eq_none cs' hnil']
    exact ⟨rfl, h⟩
  · have hnil' : cs'.takeWhile Char.isDigit ≠ [] := by rw [← hteq]; exact hnil
    rcases hdd : cs.dropWhile Char.isDigit with _ | ⟨e0, dd2⟩
    · have hdd' : cs'.dropWhile Char.isDigit = [] := by
        rw [hdd] at hdrel
        exact List.forall₂_nil_left_iff.mp hdrel
      rw [scanUnsigned_eq_plain cs hnil (by rw [hdd]; intro r2 hx; exact List.noConfusion hx),
        scanUnsigned_eq_plain cs' hnil' (by rw [hdd']; intro r2 hx; exact List.noConfusion hx),
        hteq, hdd, hdd']
      exact ⟨rfl, List.Forall₂.nil⟩
    · rw [hdd] at hdrel
      rcases List.forall₂_cons_left_iff.mp hdrel with ⟨b, l2, hb, hl2, heq2⟩
      by_cases he : e0 = '.'
      · subst he
        have hbe : b = '.' := by
          have := caseEqC_eq_of_not_alpha '.' b hb (by decide)
          exact this.symm
        subst hbe
        rw [scanUnsigned_eq_dot cs dd2 hnil hdd, scanUnsigned_eq_dot cs' l2 hnil' heq2,
          hteq, (caseEq_digit_take dd2 l2 hl2).1]
        exact ⟨rfl, (caseEq_digit_take dd2 l2 hl2).2⟩
      · have hbe : b ≠ '.' := by
          intro hx
          subst hx
          have := caseEqC_eq_of_not_alpha '.' e0 (caseEqC_symm e0 '.' hb) (by decide)
          exact he this.symm
        rw [scanUnsigned_eq_plain cs hnil
            (by rw [hdd]; intro r2 hx; injection hx with h1 h2; exact he h1),
          scanUnsigned_eq_plain cs' hnil'
            (by rw [heq2]; intro r2 hx; injection hx with h1 h2; exact hbe h1),
          hteq, hdd, heq2]
        exact ⟨rfl, List.Forall₂.cons hb hl2⟩

theorem map_toUpper_eq : ∀ xs ys : List Char, List.Forall₂ caseEqC xs ys →
    xs.map Char.toUpper = ys.map Char.toUpper := by
  intro xs ys h
  induction h with
  | nil => rfl
  | cons hc htail ih =>
    rw [List.map_cons, List.map_cons, hc, ih]

theorem tokCaseEq_refl (t : Token) : tokCaseEq t t := by
  cases t <;> rfl

theorem tokenizeF_rel : ∀ fuel cs cs', List.Forall₂ caseEqC cs cs' →
    ExceptRel TRel (tokenizeF fuel cs) (tokenizeF fuel cs') := by
  intro fuel
  induction fuel with
  | zero =>
    intro cs cs' h
    cases h with
    | nil => exact List.Forall₂.nil
    | cons hc htail => trivial
  | succ n ih =>
    intro cs cs' h
    cases h with
    | nil => exact List.Forall₂.nil
    | cons hc htail =>
      rename_i c c' l l'
      rw [tokenizeF_succ, tokenizeF_succ]
      by_cases ha : c.isAlpha = true
      · have ha' : c'.isAlpha = true := by rw [← caseEqC_alpha c c' hc]; exact ha
        unfold tokenizeStepF
        rw [alpha_not_ws c ha, alpha_not_ws c' ha', ha, ha']
        simp only [Bool.false_eq_true, if_false, if_true]
        obtain ⟨htk, hdr⟩ := caseEq_alpha_take l l' htail
        have hrec := ih (l.dropWhile Char.isAlpha) (l'.dropWhile Char.isAlpha) hdr
        rcases hx : tokenizeF n (l.dropWhile Char.isAlpha) with e | ts <;>
          rcases hy : tokenizeF n (l'.dropWhile Char.isAlpha) with e' | ts' <;>
          ((try rw [hx] at hrec); (try rw [hy] at hrec))
        · trivial
        · exact hrec.elim
        · exact hrec.elim
        · have h2rec : TRel ts ts' := hrec
          refine List.Forall₂.cons ?_ h2rec
          show strUpper (String.mk (c :: l.takeWhile Char.isAlpha)) =
            strUpper (String.mk (c' :: l'.takeWhile Char.isAlpha))
          show String.mk ((c :: l.takeWhile Char.isAlpha).map Char.toUpper) =
            String.mk ((c' :: l'.takeWhile Char.isAlpha).map Char.toUpper)
          rw [map_toUpper_eq _ _ (List.Forall₂.cons hc htk)]
      · have hce := caseEqC_eq_of_not_alpha c c' hc (by simpa using ha)
        subst hce
        unfold tokenizeStepF
        by_cases h1 : isWS c = true
        · rw [h1]
          simp only [if_true]
          exact ih l l' htail
        · rw [(by simpa using h1 : isWS c = false), (by simpa using ha : c.isAlpha = false)]
          simp only [Bool.false_eq_true, if_false]
          by_cases h2 : (c == ',') = true
          · rw [h2]
            simp only [if_true]
            have hrec := ih l l' htail
            rcases hx : tokenizeF n l with e | ts <;>
              rcases hy : tokenizeF n l' with e' | ts' <;>
              ((try rw [hx] at hrec); (try rw [hy] at hrec))
            · trivial
            · exact hrec.elim
            · exact hrec.elim
            · have h2rec : TRel ts ts' := hrec
              exact List.Forall₂.cons (tokCaseEq_refl Token.Comma) h2rec
          · rw [(by simpa using h2 : (c == ',') = false)]
            simp only [Bool.false_eq_true, if_false]
            by_cases h3 : (c == '(') = true
            · rw [h3]
              simp only [if_true]
              have hrec := ih l l' htail
              rcases hx : tokenizeF n l with e | ts <;>
                rcases hy : tokenizeF n l' with e' | ts' <;>
                ((try rw [hx] at hrec); (try rw [hy] at hrec))
              · trivial
              · exact hrec.elim
              · exact hrec.elim
              · have h2rec : TRel ts ts' := hrec
                exact List.Forall₂.cons (tokCaseEq_refl Token.LParen) h2rec
            · rw [(by simpa using h3 : (c == '(') = false)]
              simp only [Bool.false_eq_true, if_false]
              by_cases h4 : (c == ')') = true
              · rw [h4]
                simp only [if_true]
                have hrec := ih l l' htail
                rcases hx : tokenizeF n l with e | ts <;>
                  rcases hy : tokenizeF n l' with e' | ts' <;>
                  ((try rw [hx] at hrec); (try rw [hy] at hrec))
                · trivial
                · exact hrec.elim
                · exact hrec.elim
                · have h2rec : TRel ts ts' := hrec
                  exact List.Forall₂.cons (tokCaseEq_refl Token.RParen) h2rec
              · rw [(by simpa using h4 : (c == ')') = false)]
                simp only [Bool.false_eq_true, if_false]
                by_cases h5 : (c == '-') = true
                · rw [h5]
                  simp only [if_true]
                  obtain ⟨hso, hsr⟩ := scanUnsigned_rel l l' htail
                  rcases hsx : scanUnsigned l with ⟨o, r⟩
                  rcases hsy : scanUnsigned l' with ⟨o', r'⟩
                  (try rw [hsx] at hso hsr)
                  (try rw [hsy] at hso hsr)
                  simp only at hso hsr
                  subst hso
                  cases o with
                  | none => trivial
                  | some q =>
                    show ExceptRel TRel
                      (match tokenizeF n r with
                        | Except.ok ts => Except.ok (Token.Number (-q) :: ts)
                        | Except.error e => Except.error e)
                      (match tokenizeF n r' with
                        | Except.ok ts => Except.ok (Token.Number (-q) :: ts)
                        | Except.error e => Except.error e)
                    have hrec := ih r r' hsr
                    rcases hx : tokenizeF n r with e | ts <;>
                      rcases hy : tokenizeF n r' with e' | ts' <;>
                      ((try rw [hx] at hrec); (try rw [hy] at hrec))
                    · trivial
                    · exact hrec.elim
                    · exact hrec.elim
                    · have h2rec : TRel ts ts' := hrec
                      exact List.Forall₂.cons (tokCaseEq_refl (Token.Number (-q))) h2rec
                · rw [(by simpa using h5 : (c == '-') = false)]
                  simp only [Bool.false_eq_true, if_false]
                  by_cases h6 : c.isDigit = true
                  · rw [h6]
                    simp only [if_true]
                    obtain ⟨hso, hsr⟩ :=
                      scanUnsigned_rel (c :: l) (c :: l')
                        (List.Forall₂.cons (caseEqC_refl c) htail)
                    rcases hsx : scanUnsigned (c :: l) with ⟨o, r⟩
                    rcases hsy : scanUnsigned (c :: l') with ⟨o', r'⟩
                    (try rw [hsx] at hso hsr)
                    (try rw [hsy] at hso hsr)
                    simp only at hso hsr
                    subst hso
                    cases o with
                    | none => trivial
                    | some q =>
                      show ExceptRel TRel
                        (match tokenizeF n r with
                          | Except.ok ts => Except.ok (Token.Number q :: ts)
                          | Except.error e => Except.error e)
                        (match tokenizeF n r' with
                          | Except.ok ts => Except.ok (Token.Number q :: ts)
                          | Except.error e => Except.error e)
                      have hrec := ih r r' hsr
                      rcases hx : tokenizeF n r with e | ts <;>
                        rcases hy : tokenizeF n r' with e' | ts' <;>
                        ((try rw [hx] at hrec); (try rw [hy] at hrec))
                      · trivial
                      · exact hrec.elim
                      · exact hrec.elim
                      · have h2rec : TRel ts ts' := hrec
                        exact List.Forall₂.cons (tokCaseEq_refl (Token.Number q)) h2rec
                  · rw [(by simpa using h6 : c.isDigit = false)]
                    simp only [Bool.false_eq_true, if_false]
                    trivial

theorem stepEq_point (recur : List Token → Except String (Geometry × List Token))
    (w : String) (hw : strUpper w = "POINT") (ts : List Token) :
    parseTaggedStep recur (Token.Word w :: ts) =
      geomMap Geometry.Point (parseBody coordOptElem none ts) := by
  simp only [parseTaggedStep]
  split
  · cases hb : parseBody coordOptElem none ts <;> rfl
  · rename_i h
    exact absurd (hw.symm.trans h) (by decide)
  · rename_i h
    exact absurd (hw.symm.trans h) (by decide)
  · rename_i h
    exact absurd (hw.symm.trans h) (by decide)
  · rename_i h
    exact absurd (hw.symm.trans h) (by decide)
  · rename_i h
    exact absurd (hw.symm.trans h) (by decide)
  · rename_i h
    exact absurd (hw.symm.trans h) (by decide)
  · rename_i h
    exact absurd (hw.symm.trans h) (by decide)
  · rename_i h
    exact absurd (hw.symm.trans h) (by decide)
  · rename_i h
    exact absurd (hw.symm.trans h) (by decide)
  · rename_i h1 h2 h3 h4 h5 h6 h7 h8 h9 h10
    exact absurd hw h1

theorem stepEq_linestring (recur : List Token → Except String (Geometry × List Token))
    (w : String) (hw : strUpper w = "LINESTRING") (ts : List Token) :
    parseTaggedStep recur (Token.Word w :: ts) =
      geomMap Geometry.LineString (parseBody (sepList Coord.from_tokens ts.length) [] ts) := by
  simp only [parseTaggedStep]
  split
  · rename_i h
    exact absurd (hw.symm.trans h) (by decide)
  · cases hb : parseBody (sepList Coord.from_tokens ts.length) [] ts <;> rfl
  · rename_i h
    exact absurd (hw.symm.trans h) (by decide)
  · rename_i h
    exact absurd (hw.symm.trans h) (by decide)
  · rename_i h
    exact absurd (hw.symm.trans h) (by decide)
  · rename_i h
    exact absurd (hw.symm.trans h) (by decide)
  · rename_i h
    exact absurd (hw.symm.trans h) (by decide)
  · rename_i h
    exact absurd (hw.symm.trans h) (by decide)
  · rename_i h
    exact absurd (hw.symm.trans h) (by decide)
  · rename_i h
    exact absurd (hw.symm.trans h) (by decide)
  · rename_i h1 h2 h3 h4 h5 h6 h7 h8 h9 h10
    exact absurd hw h2

theorem stepEq_polygon (recur : List Token → Except String (Geometry × List Token))
    (w : String) (hw : strUpper w = "POLYGON") (ts : List Token) :
    parseTaggedStep recur (Token.Word w :: ts) =
      geomMap Geometry.Polygon (parseBody (polygonContent ts.length) [] ts) := by
  simp only [parseTaggedStep]
  split
  · rename_i h
    exact absurd (hw.symm.trans h) (by decide)
  · rename_i h
    exact absurd (hw.symm.trans h) (by decide)
  · cases hb : parseBody (polygonContent ts.length) [] ts <;> rfl
  · rename_i h
    exact absurd (hw.symm.trans h) (by decide)
  · rename_i h
    exact absurd (hw.symm.trans h) (by decide)
  · rename_i h
    exact absurd (hw.symm.trans h) (by decide)
  · rename_i h
    exact absurd (hw.symm.trans h) (by decide)
  · rename_i h
    exact absurd (hw.symm.trans h) (by decide)
  · rename_i h
    exact absurd (hw.symm.trans h) (by decide)
  · rename_i h
    exact absurd (hw.symm.trans h) (by decide)
  · rename_i h1 h2 h3 h4 h5 h6 h7 h8 h9 h10
    exact absurd hw h3

theorem stepEq_surface (recur : List Token → Except String (Geometry × List Token))
    (w : String) (hw : strUpper w = "POLYHEDRALSURFACE") (ts : List Token) :
    parseTaggedStep recur (Token.Word w :: ts) =
      geomMap Geometry.PolyhedralSurface (parseBody (sepList (polyElem ts.length) ts.length) [] ts) := by
  simp only [parseTaggedStep]
  split
  · rename_i h
    exact absurd (hw.symm.trans h) (by decide)
  · rename_i h
    exact absurd (hw.symm.trans h) (by decide)
  · rename_i h
    exact absurd (hw.symm.trans h) (by decide)
  · cases hb : parseBody (sepList (polyElem ts.length) ts.length) [] ts <;> rfl
  · rename_i h
    exact absurd (hw.symm.trans h) (by decide)
  · rename_i h
    exact absurd (hw.symm.trans h) (by decide)
  · rename_i h
    exact absurd (hw.symm.trans h) (by decide)
  · rename_i h
    exact absurd (hw.symm.trans h) (by decide)
  · rename_i h
    exact absurd (hw.symm.trans h) (by decide)
  · rename_i h
    exact absurd (hw.symm.trans h) (by decide)
  · rename_i h1 h2 h3 h4 h5 h6 h7 h8 h9 h10
    exact absurd hw h4

theorem stepEq_triangle (recur : List Token → Except String (Geometry × List Token))
    (w : String) (hw : strUpper w = "TRIANGLE") (ts : List Token) :
    parseTaggedStep recur (Token.Word w :: ts) =
      geomMap Geometry.Triangle (parseBody (polygonContent ts.length) [] ts) := by
  simp only [parseTaggedStep]
  split
  · rename_i h
    exact absurd (hw.symm.trans h) (by decide)
  · rename_i h
    exact absurd (hw.symm.trans h) (by decide)
  · rename_i h
    exact absurd (hw.symm.trans h) (by decide)
  · rename_i h
    exact absurd (hw.symm.trans h) (by decide)
  · cases hb : parseBody (polygonContent ts.length) [] ts <;> rfl
  · rename_i h
    exact absurd (hw.symm.trans h) (by decide)
  · rename_i h
    exact absurd (hw.symm.trans h) (by decide)
  · rename_i h
    exact absurd (hw.symm.trans h) (by decide)
  · rename_i h
    exact absurd (hw.symm.trans h) (by decide)
  · rename_i h
    exact absurd (hw.symm.trans h) (by decide)
  · rename_i h1 h2 h3 h4 h5 h6 h7 h8 h9 h10
    exact absurd hw h5

theorem stepEq_tin (recur : List Token → Except String (Geometry × List Token))
    (w : String) (hw : strUpper w = "TIN") (ts : List Token) :
    parseTaggedStep recur (Token.Word w :: ts) =
      geomMap Geometry.Tin (parseBody (sepList (polyElem ts.length) ts.length) [] ts) := by
  simp only [parseTaggedStep]
  split
  · rename_i h
    exact absurd (hw.symm.trans h) (by decide)
  · rename_i h
    exact absurd (hw.symm.trans h) (by decide)
  · rename_i h
    exact absurd (hw.symm.trans h) (by decide)
  · rename_i h
    exact absurd (hw.symm.trans h) (by decide)
  · rename_i h
    exact absurd (hw.symm.trans h) (by decide)
  · cases hb : parseBody (sepList (polyElem ts.length) ts.length) [] ts <;> rfl
  · rename_i h
    exact absurd (hw.symm.trans h) (by decide)
  · rename_i h
    exact absurd (hw.symm.trans h) (by decide)
  · rename_i h
    exact absurd (hw.symm.trans h) (by decide)
  · rename_i h
    exact absurd (hw.symm.trans h) (by decide)
  · rename_i h1 h2 h3 h4 h5 h6 h7 h8 h9 h10
    exact absurd hw h6

theorem stepEq_multipoint (recur : List Token → Except String (Geometry × List Token))
    (w : String) (hw : strUpper w = "MULTIPOINT") (ts : List Token) :
    parseTaggedStep recur (Token.Word w :: ts) =
      geomMap Geometry.MultiPoint (parseBody (sepList multiPointElem ts.length) [] ts) := by
  simp only [parseTaggedStep]
  split
  · rename_i h
    exact absurd (hw.symm.trans h) (by decide)
  · rename_i h
    exact absurd (hw.symm.trans h) (by decide)
  · rename_i h
    exact absurd (hw.symm.trans h) (by decide)
  · rename_i h
    exact absurd (hw.symm.trans h) (by decide)
  · rename_i h
    exact absurd (hw.symm.trans h) (by decide)
  · rename_i h
    exact absurd (hw.symm.trans h) (by decide)
  · cases hb : parseBody (sepList multiPointElem ts.length) [] ts <;> rfl
  · rename_i h
    exact absurd (hw.symm.trans h) (by decide)
  · rename_i h
    exact absurd (hw.symm.trans h) (by decide)
  · rename_i h
    exact absurd (hw.symm.trans h) (by decide)
  · rename_i h1 h2 h3 h4 h5 h6 h7 h8 h9 h10
    exact absurd hw h7

theorem stepEq_multilinestring (recur : List Token → Except String (Geometry × List Token))
    (w : String) (hw : strUpper w = "MULTILINESTRING") (ts : List Token) :
    parseTaggedStep recur (Token.Word w :: ts) =
      geomMap Geometry.MultiLineString (parseBody (sepList (ringElem ts.length) ts.length) [] ts) := by
  simp only [parseTaggedStep]
  split
  · rename_i h
    exact absurd (hw.symm.trans h) (by decide)
  · rename_i h
    exact absurd (hw.symm.trans h) (by decide)
  · rename_i h
    exact absurd (hw.symm.trans h) (by decide)
  · rename_i h
    exact absurd (hw.symm.trans h) (by decide)
  · rename_i h
    exact absurd (hw.symm.trans h) (by decide)
  · rename_i h
    exact absurd (hw.symm.trans h) (by decide)
  · rename_i h
    exact absurd (hw.symm.trans h) (by decide)
  · cases hb : parseBody (sepList (ringElem ts.length) ts.length) [] ts <;> rfl
  · rename_i h
    exact absurd (hw.symm.trans h) (by decide)
  · rename_i h
    exact absurd (hw.symm.trans h) (by decide)
  · rename_i h1 h2 h3 h4 h5 h6 h7 h8 h9 h10
    exact absurd hw h8

theorem stepEq_multipolygon (recur : List Token → Except String (Geometry × List Token))
    (w : String) (hw : strUpper w = "MULTIPOLYGON") (ts : List Token) :
    parseTaggedStep recur (Token.Word w :: ts) =
      geomMap Geometry.MultiPolygon (parseBody (sepList (polyElem ts.length) ts.length) [] ts) := by
  simp only [parseTaggedStep]
  split
  · rename_i h
    exact absurd (hw.symm.trans h) (by decide)
  · rename_i h
    exact absurd (hw.symm.trans h) (by decide)
  · rename_i h
    exact absurd (hw.symm.trans h) (by decide)
  · rename_i h
    exact absurd (hw.symm.trans h) (by decide)
  · rename_i h
    exact absurd (hw.symm.trans h) (by decide)
  · rename_i h
    exact absurd (hw.symm.trans h) (by decide)
  · rename_i h
    exact absurd (hw.symm.trans h) (by decide)
  · rename_i h
    exact absurd (hw.symm.trans h) (by decide)
  · cases hb : parseBody (sepList (polyElem ts.length) ts.length) [] ts <;> rfl
  · rename_i h
    exact absurd (hw.symm.trans h) (by decide)
  · rename_i h1 h2 h3 h4 h5 h6 h7 h8 h9 h10
    exact absurd hw h9

theorem stepEq_collection (recur : List Token → Except String (Geometry × List Token))
    (w : String) (hw : strUpper w = "GEOMETRYCOLLECTION") (ts : List Token) :
    parseTaggedStep recur (Token.Word w :: ts) =
      geomMap Geometry.GeometryCollection (parseBody (sepList recur ts.length) [] ts) := by
  simp only [parseTaggedStep]
  split
  · rename_i h
    exact absurd (hw.symm.trans h) (by decide)
  · rename_i h
    exact absurd (hw.symm.trans h) (by decide)
  · rename_i h
    exact absurd (hw.symm.trans h) (by decide)
  · rename_i h
    exact absurd (hw.symm.trans h) (by decide)
  · rename_i h
    exact absurd (hw.symm.trans h) (by decide)
  · rename_i h
    exact absurd (hw.symm.trans h) (by decide)
  · rename_i h
    exact absurd (hw.symm.trans h) (by decide)
  · rename_i h
    exact absurd (hw.symm.trans h) (by decide)
  · rename_i h
    exact absurd (hw.symm.trans h) (by decide)
  · cases hb : parseBody (sepList recur ts.length) [] ts <;> rfl
  · rename_i h1 h2 h3 h4 h5 h6 h7 h8 h9 h10
    exact absurd hw h10

theorem stepEq_other (recur : List Token → Except String (Geometry × List Token))
    (w : String)
    (hn1 : strUpper w ≠ "POINT") (hn2 : strUpper w ≠ "LINESTRING") (hn3 : strUpper w ≠ "POLYGON") (hn4 : strUpper w ≠ "POLYHEDRALSURFACE") (hn5 : strUpper w ≠ "TRIANGLE")
    (hn6 : strUpper w ≠ "TIN") (hn7 : strUpper w ≠ "MULTIPOINT") (hn8 : strUpper w ≠ "MULTILINESTRING") (hn9 : strUpper w ≠ "MULTIPOLYGON") (hn10 : strUpper w ≠ "GEOMETRYCOLLECTION") (ts : List Token) :
    parseTaggedStep recur (Token.Word w :: ts) =
      Except.error ("syntax error: expected a geometry tag word but found " ++ w) := by
  simp only [parseTaggedStep]

theorem exceptRel_geomMap (f : α → Geometry)
    (x y : Except String (α × List Token)) (hxy : ExceptRel PRel x y) :
    ExceptRel PRel (geomMap f x) (geomMap f y) := by
  match x, y, hxy with
  | Except.ok (v, r), Except.ok (v', r'), hxy =>
    obtain ⟨hv, hr⟩ := (hxy : v = v' ∧ TRel r r')
    subst hv
    exact ⟨rfl, hr⟩
  | Except.error e, Except.error e', _ => trivial
  | Except.ok p, Except.error e', hxy => exact hxy.elim
  | Except.error e, Except.ok p, hxy => exact hxy.elim

theorem coord_rel : ∀ ts ts', TRel ts ts' →
    ExceptRel PRel (Coord.from_tokens ts) (Coord.from_tokens ts') := by
  intro ts ts' h
  cases h with
  | nil => trivial
  | cons h1 htail =>
    rename_i t1 t1' l1 l1'
    cases t1 with
    | Number x =>
      have e1 := tokCaseEq_number x t1' h1
      subst e1
      cases htail with
      | nil => trivial
      | cons h2 htail2 =>
        rename_i t2 t2' l2 l2'
        cases t2 with
        | Number y =>
          have e2 := tokCaseEq_number y t2' h2
          subst e2
          exact ⟨rfl, htail2⟩
        | Word w =>
          obtain ⟨w', e2, hw⟩ := tokCaseEq_word w t2' h2
          subst e2
          trivial
        | Comma =>
          have e2 := tokCaseEq_comma t2' h2
          subst e2
          trivial
        | LParen =>
          have e2 := tokCaseEq_lparen t2' h2
          subst e2
          trivial
        | RParen =>
          have e2 := tokCaseEq_rparen t2' h2
          subst e2
          trivial
    | Word w =>
      obtain ⟨w', e1, hw⟩ := tokCaseEq_word w t1' h1
      subst e1
      trivial
    | Comma =>
      have e1 := tokCaseEq_comma t1' h1
      subst e1
      trivial
    | LParen =>
      have e1 := tokCaseEq_lparen t1' h1
      subst e1
      trivial
    | RParen =>
      have e1 := tokCaseEq_rparen t1' h1
      subst e1
      trivial

theorem coordOpt_rel : ∀ ts ts', TRel ts ts' →
    ExceptRel PRel (coordOptElem ts) (coordOptElem ts') := by
  intro ts ts' h
  have hc := coord_rel ts ts' h
  unfold coordOptElem
  rcases hx : Coord.from_tokens ts with e | ⟨c, r⟩ <;>
    rcases hy : Coord.from_tokens ts' with e' | ⟨c', r'⟩ <;>
    ((try rw [hx] at hc); (try rw [hy] at hc))
  · trivial
  · exact hc.elim
  · exact hc.elim
  · obtain ⟨hv, hr⟩ := (hc : c = c' ∧ TRel r r')
    subst hv
    exact ⟨rfl, hr⟩

theorem sepList_rel (elem elem' : List Token → Except String (α × List Token))
    (hel : ∀ ts ts', TRel ts ts' → ExceptRel PRel (elem ts) (elem' ts')) :
    ∀ n ts ts', TRel ts ts' →
      ExceptRel PRel (sepList elem n ts) (sepList elem' n ts') := by
  intro n
  induction n with
  | zero =>
    intro ts ts' h
    have he := hel ts ts' h
    unfold sepList
    rcases hx : elem ts with e | ⟨a, r⟩ <;> rcases hy : elem' ts' with e' | ⟨a', r'⟩ <;>
      ((try rw [hx] at he); (try rw [hy] at he))
    · trivial
    · exact he.elim
    · exact he.elim
    · obtain ⟨hv, hr⟩ := (he : a = a' ∧ TRel r r')
      subst hv
      cases hr with
      | nil => exact ⟨rfl, List.Forall₂.nil⟩
      | cons hh htl =>
        rename_i u u' v v'
        cases u with
        | Comma =>
          have e2 := tokCaseEq_comma u' hh
          subst e2
          trivial
        | Word w =>
          obtain ⟨w', e2, hw⟩ := tokCaseEq_word w u' hh
          subst e2
          exact ⟨rfl, List.Forall₂.cons hh htl⟩
        | Number q =>
          have e2 := tokCaseEq_number q u' hh
          subst e2
          exact ⟨rfl, List.Forall₂.cons hh htl⟩
        | LParen =>
          have e2 := tokCaseEq_lparen u' hh
          subst e2
          exact ⟨rfl, List.Forall₂.cons hh htl⟩
        | RParen =>
          have e2 := tokCaseEq_rparen u' hh
          subst e2
          exact ⟨rfl, List.Forall₂.cons hh htl⟩
  | succ m ih =>
    intro ts ts' h
    have he := hel ts ts' h
    unfold sepList
    rcases hx : elem ts with e | ⟨a, r⟩ <;> rcases hy : elem' ts' with e' | ⟨a', r'⟩ <;>
      ((try rw [hx] at he); (try rw [hy] at he))
    · trivial
    · exact he.elim
    · exact he.elim
    · obtain ⟨hv, hr⟩ := (he : a = a' ∧ TRel r r')
      subst hv
      cases hr with
      | nil => exact ⟨rfl, List.Forall₂.nil⟩
      | cons hh htl =>
        rename_i u u' v v'
        cases u with
        | Comma =>
          have e2 := tokCaseEq_comma u' hh
          subst e2
          have hrec := ih v v' htl
          rcases hx2 : sepList elem m v with e2 | ⟨as, r2⟩ <;>
            rcases hy2 : sepList elem' m v' with e2' | ⟨as', r2'⟩ <;>
            ((try rw [hx2] at hrec); (try rw [hy2] at hrec))
          · simp only [hx2, hy2]
            trivial
          · simp only [hx2, hy2]
            exact hrec.elim
          · simp only [hx2, hy2]
            exact hrec.elim
          · simp only [hx2, hy2]
            obtain ⟨hv2, hr2⟩ := (hrec : as = as' ∧ TRel r2 r2')
            subst hv2
            exact ⟨rfl, hr2⟩
        | Word w =>
          obtain ⟨w', e2, hw⟩ := tokCaseEq_word w u' hh
          subst e2
          exact ⟨rfl, List.Forall₂.cons hh htl⟩
        | Number q =>
          have e2 := tokCaseEq_number q u' hh
          subst e2
          exact ⟨rfl, List.Forall₂.cons hh htl⟩
        | LParen =>
          have e2 := tokCaseEq_lparen u' hh
          subst e2
          exact ⟨rfl, List.Forall₂.cons hh htl⟩
        | RParen =>
          have e2 := tokCaseEq_rparen u' hh
          subst e2
          exact ⟨rfl, List.Forall₂.cons hh htl⟩

theorem parseParen_rel (elemList elemList' : List Token → Except String (α × List Token))
    (hel : ∀ ts ts', TRel ts ts' → ExceptRel PRel (elemList ts) (elemList' ts')) :
    ∀ ts ts', TRel ts ts' →
      ExceptRel PRel (parseParen elemList ts) (parseParen elemList' ts') := by
  intro ts ts' h
  cases h with
  | nil => trivial
  | cons h1 htail =>
    rename_i t1 t1' l1 l1'
    cases t1 with
    | LParen =>
      have e1 := tokCaseEq_lparen t1' h1
      subst e1
      have he := hel l1 l1' htail
      rcases hx : elemList l1 with e | ⟨v, r⟩ <;>
        rcases hy : elemList' l1' with e' | ⟨v', r'⟩ <;>
        ((try rw [hx] at he); (try rw [hy] at he))
      · simp only [parseParen, hx, hy]
        trivial
      · simp only [parseParen, hx, hy]
        exact he.elim
      · simp only [parseParen, hx, hy]
        exact he.elim
      · obtain ⟨hv, hr⟩ := (he : v = v' ∧ TRel r r')
        subst hv
        cases hr with
        | nil =>
          simp only [parseParen, hx, hy]
          trivial
        | cons hh htl =>
          rename_i u u' z z'
          cases u with
          | RParen =>
            have e2 := tokCaseEq_rparen u' hh
            subst e2
            simp only [parseParen, hx, hy]
            exact ⟨rfl, htl⟩
          | Comma =>
            have e2 := tokCaseEq_comma u' hh
            subst e2
            simp only [parseParen, hx, hy]
            trivial
          | Word ww =>
            obtain ⟨ww', e2, hw⟩ := tokCaseEq_word ww u' hh
            subst e2
            simp only [parseParen, hx, hy]
            trivial
          | Number q =>
            have e2 := tokCaseEq_number q u' hh
            subst e2
            simp only [parseParen, hx, hy]
            trivial
          | LParen =>
            have e2 := tokCaseEq_lparen u' hh
            subst e2
            simp only [parseParen, hx, hy]
            trivial
    | Word w =>
      obtain ⟨w', e1, hw⟩ := tokCaseEq_word w t1' h1
      subst e1
      trivial
    | Number q =>
      have e1 := tokCaseEq_number q t1' h1
      subst e1
      trivial
    | Comma =>
      have e1 := tokCaseEq_comma t1' h1
      subst e1
      trivial
    | RParen =>
      have e1 := tokCaseEq_rparen t1' h1
      subst e1
      trivial

theorem parseBody_rel (elemList elemList' : List Token → Except String (α × List Token))
    (ev : α)
    (hel : ∀ ts ts', TRel ts ts' → ExceptRel PRel (elemList ts) (elemList' ts')) :
    ∀ ts ts', TRel ts ts' →
      ExceptRel PRel (parseBody elemList ev ts) (parseBody elemList' ev ts') := by
  intro ts ts' h
  cases h with
  | nil => trivial
  | cons h1 htail =>
    rename_i t1 t1' l1 l1'
    cases t1 with
    | Word w =>
      obtain ⟨w', e1, hw⟩ := tokCaseEq_word w t1' h1
      subst e1
      by_cases hemp : strUpper w = "EMPTY"
      · have hemp' : strUpper w' = "EMPTY" := by rw [← hw]; exact hemp
        show ExceptRel PRel
          (if strUpper w = "EMPTY" then Except.ok (ev, l1)
            else Except.error ("syntax error: expected EMPTY or ( but found " ++ w))
          (if strUpper w' = "EMPTY" then Except.ok (ev, l1')
            else Except.error ("syntax error: expected EMPTY or ( but found " ++ w'))
        rw [if_pos hemp, if_pos hemp']
        exact ⟨rfl, htail⟩
      · have hemp' : ¬ strUpper w' = "EMPTY" := by rw [← hw]; exact hemp
        show ExceptRel PRel
          (if strUpper w = "EMPTY" then Except.ok (ev, l1)
            else Except.error ("syntax error: expected EMPTY or ( but found " ++ w))
          (if strUpper w' = "EMPTY" then Except.ok (ev, l1')
            else Except.error ("syntax error: expected EMPTY or ( but found " ++ w'))
        rw [if_neg hemp, if_neg hemp']
        trivial
    | Number q =>
      have e1 := tokCaseEq_number q t1' h1
      subst e1
      exact parseParen_rel elemList elemList' hel _ _ (List.Forall₂.cons h1 htail)
    | Comma =>
      have e1 := tokCaseEq_comma t1' h1
      subst e1
      exact parseParen_rel elemList elemList' hel _ _ (List.Forall₂.cons h1 htail)
    | LParen =>
      have e1 := tokCaseEq_lparen t1' h1
      subst e1
      exact parseParen_rel elemList elemList' hel _ _ (List.Forall₂.cons h1 htail)
    | RParen =>
      have e1 := tokCaseEq_rparen t1' h1
      subst e1
      exact parseParen_rel elemList elemList' hel _ _ (List.Forall₂.cons h1 htail)

theorem multiPointElem_rel : ∀ ts ts', TRel ts ts' →
    ExceptRel PRel (multiPointElem ts) (multiPointElem ts') := by
  intro ts ts' h
  cases h with
  | nil => trivial
  | cons h1 htail =>
    rename_i t1 t1' l1 l1'
    cases t1 with
    | Word w =>
      obtain ⟨w', e1, hw⟩ := tokCaseEq_word w t1' h1
      subst e1
      by_cases hemp : strUpper w = "EMPTY"
      · have hemp' : strUpper w' = "EMPTY" := by rw [← hw]; exact hemp
        show ExceptRel PRel
          (if strUpper w = "EMPTY" then Except.ok ((none : Option Coord), l1)
            else Except.error ("syntax error: expected EMPTY, ( or a number but found " ++ w))
          (if strUpper w' = "EMPTY" then Except.ok ((none : Option Coord), l1')
            else Except.error ("syntax error: expected EMPTY, ( or a number but found " ++ w'))
        rw [if_pos hemp, if_pos hemp']
        exact ⟨rfl, htail⟩
      · have hemp' : ¬ strUpper w' = "EMPTY" := by rw [← hw]; exact hemp
        show ExceptRel PRel
          (if strUpper w = "EMPTY" then Except.ok ((none : Option Coord), l1)
            else Except.error ("syntax error: expected EMPTY, ( or a number but found " ++ w))
          (if strUpper w' = "EMPTY" then Except.ok ((none : Option Coord), l1')
            else Except.error ("syntax error: expected EMPTY, ( or a number but found " ++ w'))
        rw [if_neg hemp, if_neg hemp']
        trivial
    | LParen =>
      have e1 := tokCaseEq_lparen t1' h1
      subst e1
      exact parseParen_rel coordOptElem coordOptElem coordOpt_rel _ _
        (List.Forall₂.cons h1 htail)
    | Number q =>
      have e1 := tokCaseEq_number q t1' h1
      subst e1
      exact coordOpt_rel _ _ (List.Forall₂.cons h1 htail)
    | Comma =>
      have e1 := tokCaseEq_comma t1' h1
      subst e1
      exact coordOpt_rel _ _ (List.Forall₂.cons h1 htail)
    | RParen =>
      have e1 := tokCaseEq_rparen t1' h1
      subst e1
      exact coordOpt_rel _ _ (List.Forall₂.cons h1 htail)

theorem parseTaggedStep_rel
    (recur recur' : List Token → Except String (Geometry × List Token))
    (hrec : ∀ ts ts', TRel ts ts' → ExceptRel PRel (recur ts) (recur' ts')) :
    ∀ ts ts', TRel ts ts' →
      ExceptRel PRel (parseTaggedStep recur ts) (parseTaggedStep recur' ts') := by
  intro ts ts' h
  cases h with
  | nil => trivial
  | cons h1 htail =>
    rename_i t1 t1' l1 l1'
    cases t1 with
    | Word w =>
      obtain ⟨w', e1, hw⟩ := tokCaseEq_word w t1' h1
      subst e1
      have hlen : l1.length = l1'.length := List.Forall₂.length_eq htail
      by_cases c1 : strUpper w = "POINT"
      · rw [stepEq_point recur w c1 l1,
          stepEq_point recur' w' (by rw [← hw]; exact c1) l1']
        exact exceptRel_geomMap Geometry.Point _ _
          (parseBody_rel coordOptElem coordOptElem none coordOpt_rel l1 l1' htail)
      by_cases c2 : strUpper w = "LINESTRING"
      · rw [stepEq_linestring recur w c2 l1,
          stepEq_linestring recur' w' (by rw [← hw]; exact c2) l1', hlen]
        exact exceptRel_geomMap Geometry.LineString _ _
          (parseBody_rel (sepList Coord.from_tokens l1'.length)
            (sepList Coord.from_tokens l1'.length) []
            (sepList_rel Coord.from_tokens Coord.from_tokens coord_rel l1'.length)
            l1 l1' htail)
      by_cases c3 : strUpper w = "POLYGON"
      · rw [stepEq_polygon recur w c3 l1,
          stepEq_polygon recur' w' (by rw [← hw]; exact c3) l1', hlen]
        exact exceptRel_geomMap Geometry.Polygon _ _
          (parseBody_rel (polygonContent l1'.length) (polygonContent l1'.length) []
            (sepList_rel (ringElem l1'.length) (ringElem l1'.length)
              (parseParen_rel (sepList Coord.from_tokens l1'.length)
                (sepList Coord.from_tokens l1'.length)
                (sepList_rel Coord.from_tokens Coord.from_tokens coord_rel l1'.length))
              l1'.length)
            l1 l1' htail)
      by_cases c4 : strUpper w = "POLYHEDRALSURFACE"
      · rw [stepEq_surface recur w c4 l1,
          stepEq_surface recur' w' (by rw [← hw]; exact c4) l1', hlen]
        exact exceptRel_geomMap Geometry.PolyhedralSurface _ _
          (parseBody_rel (sepList (polyElem l1'.length) l1'.length)
            (sepList (polyElem l1'.length) l1'.length) []
            (sepList_rel (polyElem l1'.length) (polyElem l1'.length)
              (parseParen_rel (polygonContent l1'.length) (polygonContent l1'.length)
                (sepList_rel (ringElem l1'.length) (ringElem l1'.length)
                  (parseParen_rel (sepList Coord.from_tokens l1'.length)
                    (sepList Coord.from_tokens l1'.length)
                    (sepList_rel Coord.from_tokens Coord.from_tokens coord_rel l1'.length))
                  l1'.length))
              l1'.length)
            l1 l1' htail)
      by_cases c5 : strUpper w = "TRIANGLE"
      · rw [stepEq_triangle recur w c5 l1,
          stepEq_triangle recur' w' (by rw [← hw]; exact c5) l1', hlen]
        exact exceptRel_geomMap Geometry.Triangle _ _
          (parseBody_rel (polygonContent l1'.length) (polygonContent l1'.length) []
            (sepList_rel (ringElem l1'.length) (ringElem l1'.length)
              (parseParen_rel (sepList Coord.from_tokens l1'.length)
                (sepList Coord.from_tokens l1'.length)
                (sepList_rel Coord.from_tokens Coord.from_tokens coord_rel l1'.length))
              l1'.length)
            l1 l1' htail)
      by_cases c6 : strUpper w = "TIN"
      · rw [stepEq_tin recur w c6 l1,
          stepEq_tin recur' w' (by rw [← hw]; exact c6) l1', hlen]
        exact exceptRel_geomMap Geometry.Tin _ _
          (parseBody_rel (sepList (polyElem l1'.length) l1'.length)
            (sepList (polyElem l1'.length) l1'.length) []
            (sepList_rel (polyElem l1'.length) (polyElem l1'.length)
              (parseParen_rel (polygonContent l1'.length) (polygonContent l1'.length)
                (sepList_rel (ringElem l1'.length) (ringElem l1'.length)
                  (parseParen_rel (sepList Coord.from_tokens l1'.length)
                    (sepList Coord.from_tokens l1'.length)
                    (sepList_rel Coord.from_tokens Coord.from_tokens coord_rel l1'.length))
                  l1'.length))
              l1'.length)
            l1 l1' htail)
      by_cases c7 : strUpper w = "MULTIPOINT"
      · rw [stepEq_multipoint recur w c7 l1,
          stepEq_multipoint recur' w' (by rw [← hw]; exact c7) l1', hlen]
        exact exceptRel_geomMap Geometry.MultiPoint _ _
          (parseBody_rel (sepList multiPointElem l1'.length)
            (sepList multiPointElem l1'.length) []
            (sepList_rel multiPointElem multiPointElem multiPointElem_rel l1'.length)
            l1 l1' htail)
      by_cases c8 : strUpper w = "MULTILINESTRING"
      · rw [stepEq_multilinestring recur w c8 l1,
          stepEq_multilinestring recur' w' (by rw [← hw]; exact c8) l1', hlen]
        exact exceptRel_geomMap Geometry.MultiLineString _ _
          (parseBody_rel (sepList (ringElem l1'.length) l1'.length)
            (sepList (ringElem l1'.length) l1'.length) []
            (sepList_rel (ringElem l1'.length) (ringElem l1'.length)
              (parseParen_rel (sepList Coord.from_tokens l1'.length)
                (sepList Coord.from_tokens l1'.length)
                (sepList_rel Coord.from_tokens Coord.from_tokens coord_rel l1'.length))
              l1'.length)
            l1 l1' htail)
      by_cases c9 : strUpper w = "MULTIPOLYGON"
      · rw [stepEq_multipolygon recur w c9 l1,
          stepEq_multipolygon recur' w' (by rw [← hw]; exact c9) l1', hlen]
        exact exceptRel_geomMap Geometry.MultiPolygon _ _
          (parseBody_rel (sepList (polyElem l1'.length) l1'.length)
            (sepList (polyElem l1'.length) l1'.length) []
            (sepList_rel (polyElem l1'.length) (polyElem l1'.length)
              (parseParen_rel (polygonContent l1'.length) (polygonContent l1'.length)
                (sepList_rel (ringElem l1'.length) (ringElem l1'.length)
                  (parseParen_rel (sepList Coord.from_tokens l1'.length)
                    (sepList Coord.from_tokens l1'.length)
                    (sepList_rel Coord.from_tokens Coord.from_tokens coord_rel l1'.length))
                  l1'.length))
              l1'.length)
            l1 l1' htail)
      by_cases c10 : strUpper w = "GEOMETRYCOLLECTION"
      · rw [stepEq_collection recur w c10 l1,
          stepEq_collection recur' w' (by rw [← hw]; exact c10) l1', hlen]
        exact exceptRel_geomMap Geometry.GeometryCollection _ _
          (parseBody_rel (sepList recur l1'.length) (sepList recur' l1'.length) []
            (sepList_rel recur recur' hrec l1'.length)
            l1 l1' htail)
      · rw [stepEq_other recur w c1 c2 c3 c4 c5 c6 c7 c8 c9 c10 l1,
          stepEq_other recur' w'
            (by rw [← hw]; exact c1) (by rw [← hw]; exact c2) (by rw [← hw]; exact c3)
            (by rw [← hw]; exact c4) (by rw [← hw]; exact c5) (by rw [← hw]; exact c6)
            (by rw [← hw]; exact c7) (by rw [← hw]; exact c8) (by rw [← hw]; exact c9)
            (by rw [← hw]; exact c10) l1']
        trivial
    | Number q =>
      have e1 := tokCaseEq_number q t1' h1
      subst e1
      trivial
    | Comma =>
      have e1 := tokCaseEq_comma t1' h1
      subst e1
      trivial
    | LParen =>
      have e1 := tokCaseEq_lparen t1' h1
      subst e1
      trivial
    | RParen =>
      have e1 := tokCaseEq_rparen t1' h1
      subst e1
      trivial

theorem parseTagged_rel : ∀ fuel ts ts', TRel ts ts' →
    ExceptRel PRel (parseTagged fuel ts) (parseTagged fuel ts') := by
  intro fuel
  induction fuel with
  | zero =>
    exact parseTaggedStep_rel recurOut recurOut (fun ts ts' h => trivial)
  | succ n ih =>
    exact parseTaggedStep_rel (parseTagged n) (parseTagged n) ih

theorem forall2_caseEq_of_map : ∀ cs cs' : List Char,
    cs.map Char.toUpper = cs'.map Char.toUpper → List.Forall₂ caseEqC cs cs' := by
  intro cs
  induction cs with
  | nil =>
    intro cs' h
    cases cs' with
    | nil => exact List.Forall₂.nil
    | cons c l => exact List.noConfusion h
  | cons c l ih =>
    intro cs' h
    cases cs' with
    | nil => exact List.noConfusion h
    | cons c' l' =>
      rw [List.map_cons, List.map_cons] at h
      injection h with h1 h2
      exact List.Forall₂.cons h1 (ih l' h2)

theorem from_str_case_insensitive_general (s s' : String)
    (h : List.Forall₂ caseEqC s.data s'.data) : Wkt.from_str s = Wkt.from_str s' := by
  have hlen : s.data.length = s'.data.length := List.Forall₂.length_eq h
  have htok := tokenizeF_rel s.data.length s.data s'.data h
  rcases hx : tokenizeF s.data.length s.data with e | ts <;>
    rcases hy : tokenizeF s.data.length s'.data with e' | ts' <;>
    ((try rw [hx] at htok); (try rw [hy] at htok))
  all_goals try exact (htok : False).elim
  · have hps : parse_GeometryTaggedText s = Except.error e := by
      unfold parse_GeometryTaggedText tokenize
      simp only [hx]
    have hps2 : parse_GeometryTaggedText s' = Except.error e' := by
      unfold parse_GeometryTaggedText tokenize
      rw [← hlen]
      simp only [hy]
    unfold Wkt.from_str
    rw [hps, hps2]
  · have h2 : TRel ts ts' := htok
    have hlen2 : ts.length = ts'.length := List.Forall₂.length_eq h2
    have hp := parseTagged_rel (ts.length + 1) ts ts' h2
    rw [hlen2] at hp
    rcases hp2 : parseTagged (ts'.length + 1) ts with e | ⟨g, r⟩ <;>
      rcases hp3 : parseTagged (ts'.length + 1) ts' with e2 | ⟨g', r'⟩ <;>
      ((try rw [hp2] at hp); (try rw [hp3] at hp))
    all_goals try exact (hp : False).elim
    · have hps : parse_GeometryTaggedText s = Except.error e := by
        unfold parse_GeometryTaggedText tokenize
        simp only [hx, hlen2, hp2]
      have hps2 : parse_GeometryTaggedText s' = Except.error e2 := by
        unfold parse_GeometryTaggedText tokenize
        rw [← hlen]
        simp only [hy, hp3]
      unfold Wkt.from_str
      rw [hps, hps2]
    · obtain ⟨hg, hr⟩ := (hp : g = g' ∧ TRel r r')
      have hps : parse_GeometryTaggedText s = Except.ok g := by
        unfold parse_GeometryTaggedText tokenize
        simp only [hx, hlen2, hp2]
      have hps2 : parse_GeometryTaggedText s' = Except.ok g' := by
        unfold parse_GeometryTaggedText tokenize
        rw [← hlen]
        simp only [hy, hp3]
      have hgg : g = g' := hg
      unfold Wkt.from_str
      rw [hps, hps2, hgg]

/-- C8: geometry tag keywords are matched case-insensitively.  In
general, whenever two input strings agree character by character up to
letter case (`caseEqC`, equality after upper-casing) — in particular
whenever only the letter case of a keyword is changed — the top-level
parses `Wkt::from_str` return equal results; and concretely, parsing
`point (1 2)` and parsing `POINT (1 2)` produce equal results. -/
theorem keyword_case_insensitive :
    (∀ s s' : String, List.Forall₂ caseEqC s.data s'.data →
      Wkt.from_str s = Wkt.from_str s') ∧
    parse_GeometryTaggedText "point (1 2)" = parse_GeometryTaggedText "POINT (1 2)" :=
  ⟨from_str_case_insensitive_general, rfl⟩

/-- C8 witness: the case-equivalence hypothesis holds at the concrete
pair `point (1 2)` / `POINT (1 2)`, and the theorem applies there. -/
theorem keyword_case_insensitive_witness :
    List.Forall₂ caseEqC "point (1 2)".data "POINT (1 2)".data ∧
    Wkt.from_str "point (1 2)" = Wkt.from_str "POINT (1 2)" :=
  ⟨forall2_caseEq_of_map "point (1 2)".data "POINT (1 2)".data rfl,
    keyword_case_insensitive.1 "point (1 2)" "POINT (1 2)"
      (forall2_caseEq_of_map "point (1 2)".data "POINT (1 2)".data rfl)⟩
